import Mathlib

/-!
# StockWars order / basket execution engine — shallow embedding

This file embeds the core trading engine of the repository
(`simulator/services.py`, `simulator/pricing.py`, `simulator/models.py`,
plus the enum declarations of `competitions/models.py`) and proves or
refutes the specification claims about it.

Modelling conventions:

* `Decimal` values are embedded as `ℚ`.  All claim-relevant Decimal
  arithmetic in the source stays far below the 28-significant-digit
  context, where Python `Decimal` arithmetic is exact, so `ℚ` agrees
  with the source on every expression appearing in a claim.
  Explicit rounding points (`quantize(..., ROUND_HALF_UP)`,
  `to_integral_value(ROUND_FLOOR)`) are embedded explicitly.
* Timestamps (`timezone.now()`, `Quote.as_of`) are integer seconds
  (`ℤ`); `(now - as_of).total_seconds()` is `now - asOf`.
* The relational store visible to one participant's trades is a
  `SimState`: the participant row (with its competition), the
  participant's `Position` rows, the latest cached `Quote` per
  instrument, and the append-only `Order` / `TradeFill` /
  `CashLedgerEntry` tables.  Row locking (`select_for_update`) is a
  concurrency device and is not modelled: execution is sequential.
* Django's `transaction.atomic()` context manager commits when the
  block exits normally and rolls back only on an exception.  Every
  rejection path in the engine `return`s normally from inside the
  atomic block, so all row mutations made before the rejection
  (persisted REJECTED orders, placeholder `Position` rows) are
  committed.  The embedding therefore threads the mutated state
  through rejection returns unchanged.
* `fetch_and_store_latest_quote` (marketdata collaborator) is
  modelled by an environment function `provider : ℕ → Option Quote`;
  the spec (§6) requires the quote source to be idempotent under
  repeated calls, so a per-instrument function is faithful.  Each
  call appends the instrument id to `quoteFetchLog` (mirroring the
  append-only `Quote` row insert) and updates the latest-quote cache.
* Reject reasons and the `meta` dicts are embedded as inductive types
  / structures carrying the same payload fields; human-readable
  message strings are carried verbatim where they are constant in the
  source and with their numeric interpolations elided where not (no
  claim depends on interpolated message text).
* The `queued_order_id` replay path of `execute_order` only changes
  which `Order` row is written (reuse vs create); it does not alter
  cash / position / ledger semantics and is not modelled.
* The portfolio-snapshot side effect is a swallowed no-op and is not
  modelled.
-/

set_option maxRecDepth 100000

namespace StockWars

/-! ## Decimal rounding helpers (`decimal.Decimal` quantization) -/

/-- Python `ROUND_HALF_UP`: round to nearest integer, ties away from zero. -/
def roundHalfUp (x : ℚ) : ℤ :=
  if 0 ≤ x then ⌊x + 1/2⌋ else -⌊-x + 1/2⌋

/-- `value.quantize(Decimal("0.01"), rounding=ROUND_HALF_UP)` — the
`_quantize_money` helper of `simulator/services.py`. -/
def _quantize_money (x : ℚ) : ℚ :=
  (roundHalfUp (x * 100) : ℚ) / 100

/-- `value.quantize(Decimal("0.000001"), rounding=ROUND_HALF_UP)` —
the 6-decimal-place price quantization of `simulator/pricing.py`. -/
def quantizePrice6 (x : ℚ) : ℚ :=
  (roundHalfUp (x * 1000000) : ℚ) / 1000000

/-- `Decimal.to_integral_value(rounding=ROUND_FLOOR)` (toward -∞). -/
def decimalFloor (x : ℚ) : ℤ := ⌊x⌋

/-- `MAX_SINGLE_BUY_PCT = Decimal("0.33")`. -/
def MAX_SINGLE_BUY_PCT : ℚ := 33 / 100

/-- `PCT_HINT_DELTA = Decimal("0.001")`. -/
def PCT_HINT_DELTA : ℚ := 1 / 1000

/-! ## Enumerations (`simulator/models.py`, `competitions/models.py`) -/

/-- `OrderSide` text choices. -/
inductive OrderSide
  | BUY
  | SELL
deriving DecidableEq, Repr

/-- `OrderType` text choices. -/
inductive OrderType
  | MARKET
  | LIMIT
deriving DecidableEq, Repr

/-- `OrderStatus` text choices. -/
inductive OrderStatus
  | SUBMITTED
  | FILLED
  | REJECTED
  | CANCELLED
deriving DecidableEq, Repr

/-- `CashLedgerReason` text choices. -/
inductive CashLedgerReason
  | STARTING_CASH
  | TRADE_BUY
  | TRADE_SELL
  | ADJUSTMENT
deriving DecidableEq, Repr

/-- `competitions.models.CompetitionStatus`. -/
inductive CompetitionStatus
  | DRAFT
  | PUBLISHED
  | LOCKED
  | ARCHIVED
deriving DecidableEq, Repr

/-- `competitions.models.ParticipantStatus`. -/
inductive ParticipantStatus
  | ACTIVE
  | DISQUALIFIED
  | LOCKED
deriving DecidableEq, Repr

/-- `competitions.models.CompetitionType`. -/
inductive CompetitionType
  | STANDARD
  | ADVANCED
deriving DecidableEq, Repr

/-! ## Pricing policy (`simulator/pricing.py`) -/

/-- `competitions.models.PriceSource` values, as the strings stored in
the `CharField`.  `derive_price_from_source` receives the raw string
(possibly empty or unknown), so the embedding keeps `String`. -/
def PriceSource.LAST : String := "LAST"

def PriceSource.BID : String := "BID"

def PriceSource.ASK : String := "ASK"

/-- `simulator.pricing.derive_price_from_source`.

`last_price` is `Decimal | None` in effect (the source raises when it
is `None`); `synthetic_spread_bps` is annotated `int`, so it is `ℤ`
here and the source's `is None` test on it cannot fire.  `raise
ValueError(...)` is embedded as `Except.error` with the literal
message. -/
def derive_price_from_source (last_price : Option ℚ) (price_source : String)
    (synthetic_spread_bps : ℤ) : Except String ℚ :=
  match last_price with
  | none => .error "last_price is required"
  | some lp =>
    if synthetic_spread_bps < 0 then
      .error "synthetic_spread_bps must be >= 0"
    else
      -- `src = price_source or PriceSource.LAST` (empty string is falsy)
      let src := if price_source = "" then PriceSource.LAST else price_source
      let spread : ℚ := (synthetic_spread_bps : ℚ) / 10000
      if src = PriceSource.LAST then .ok lp
      else if src = PriceSource.BID then
        .ok (quantizePrice6 (lp * (1 - spread)))
      else if src = PriceSource.ASK then
        .ok (quantizePrice6 (lp * (1 + spread)))
      else
        -- "Unknown config; safest fallback is LAST."
        .ok lp

/-! ## Data model (`simulator/models.py`, `competitions/models.py`,
`marketdata/models.py`) -/

/-- `marketdata.models.Quote`: an immutable timestamped price
observation.  Only the fields the engine reads are kept. -/
structure Quote where
  price : ℚ
  asOf : ℤ
deriving DecidableEq, Repr

/-- `marketdata.models.Instrument` (identity + symbol). -/
structure Instrument where
  symbol : String
deriving DecidableEq, Repr

/-- `competitions.models.Competition` — the fields the engine reads.
`max_symbols`, `min_symbols` and `synthetic_spread_bps` are nullable
`PositiveIntegerField`s; `max_single_symbol_pct` is a nullable
decimal. -/
structure Competition where
  status : CompetitionStatus
  competitionType : CompetitionType
  weekStartAt : ℤ
  weekEndAt : ℤ
  maxSingleSymbolPct : Option ℚ
  maxSymbols : Option ℕ
  minSymbols : Option ℕ
  marketBuyPriceSource : String
  syntheticSpreadBps : Option ℕ

/-- `competitions.models.CompetitionParticipant` with its
`select_related("competition")` competition row. -/
structure Participant where
  status : ParticipantStatus
  startingCash : ℚ
  cashBalance : ℚ
  competition : Competition

/-- `simulator.models.Position` row for this participant.  `quantity`
is a Python `int` in the engine's arithmetic (`ℤ`); the engine's
guards keep it non-negative. -/
structure PositionRow where
  instrumentId : ℕ
  quantity : ℤ
  avgCostBasis : ℚ
deriving DecidableEq, Repr

/-- `simulator.models.Order` — the fields `execute_order` /
`execute_basket_order` write.  `rejectReason` is the `reject_reason`
text field, structured (see `RejectReason`). -/
structure Order where
  id : ℕ
  instrumentId : ℕ
  side : OrderSide
  orderType : OrderType
  quantity : ℤ
  limitPrice : Option ℚ
  status : OrderStatus
  submittedPrice : Option ℚ
  quoteAsOf : Option ℤ
  /-- `reject_reason` text field (empty on a filled order). -/
  rejectReason : String

/-- `simulator.models.TradeFill`. -/
structure TradeFill where
  orderId : ℕ
  filledAt : ℤ
  price : ℚ
  quantity : ℤ
  notional : ℚ
  realizedPnl : ℚ
deriving DecidableEq, Repr

/-- `simulator.models.CashLedgerEntry` — append-only audit entry. -/
structure CashLedgerEntry where
  deltaAmount : ℚ
  reason : CashLedgerReason
  referenceId : Option ℕ
  memo : String

/-- The environment of one engine call: the external quote provider
(`fetch_and_store_latest_quote`'s upstream, idempotent per §6 of the
spec), the instrument table, `timezone.now()`, and
`settings.MAX_QUOTE_AGE_SECONDS` (default 300). -/
structure Env where
  provider : ℕ → Option Quote
  instruments : ℕ → Option Instrument
  now : ℤ
  maxQuoteAgeSeconds : ℤ

/-- The durable rows one participant's trades read and write. -/
structure SimState where
  participant : Participant
  positions : List PositionRow
  /-- Latest cached `Quote` per instrument (the `Quote` table is
  append-only; the engine only ever reads `order_by("-as_of").first()`,
  embedded as this latest-per-instrument view). -/
  quotes : ℕ → Option Quote
  orders : List Order
  fills : List TradeFill
  ledger : List CashLedgerEntry
  /-- Instrumentation mirroring the append-only `Quote` insert each
  `fetch_and_store_latest_quote` call performs: the instrument ids of
  the provider fetches issued so far, in order. -/
  quoteFetchLog : List ℕ

/-- `marketdata.services.fetch_and_store_latest_quote`: ask the
provider, store the quote row on success, return it (or `None`). -/
def fetch_and_store_latest_quote (env : Env) (st : SimState) (iid : ℕ) :
    SimState × Option Quote :=
  match env.provider iid with
  | none => ({ st with quoteFetchLog := st.quoteFetchLog ++ [iid] }, none)
  | some q =>
      ({ st with
          quotes := fun j => if j = iid then some q else st.quotes j,
          quoteFetchLog := st.quoteFetchLog ++ [iid] }, some q)

/-! ## Small store helpers -/

/-- `Position.objects.get(participant=..., instrument_id=iid)` on this
participant's rows. -/
def findPosition (ps : List PositionRow) (iid : ℕ) : Option PositionRow :=
  ps.find? (fun p => p.instrumentId == iid)

/-- Replace the row for `iid` (UPDATE of a loaded row). -/
def updatePosition (ps : List PositionRow) (iid : ℕ)
    (f : PositionRow → PositionRow) : List PositionRow :=
  ps.map (fun p => if p.instrumentId == iid then f p else p)

/-- `position.delete()`. -/
def deletePosition (ps : List PositionRow) (iid : ℕ) : List PositionRow :=
  ps.filter (fun p => p.instrumentId != iid)

/-- `Position.objects.filter(participant=..., quantity__gt=0)`. -/
def heldPositions (ps : List PositionRow) : List PositionRow :=
  ps.filter (fun p => 0 < p.quantity)

/-- Python truthiness of a nullable non-negative integer field
(`None` and `0` are falsy). -/
def natFieldTruthy (o : Option ℕ) : Bool :=
  o.getD 0 != 0

/-- Python truthiness of a nullable decimal field. -/
def decFieldTruthy (o : Option ℚ) : Bool :=
  o.getD 0 != 0

/-- Sum of `delta_amount` over the participant's ledger — the
recompute-from-ledger side of the reconciliation law. -/
def ledgerSum (entries : List CashLedgerEntry) : ℚ :=
  entries.foldl (fun acc e => acc + e.deltaAmount) 0

/-- The holdings-value loop shared by both engines: over all
`quantity > 0` positions, price each from `seed` (the just-priced /
just-fetched quotes) or else from the latest cached quote, skipping
instruments with no price. -/
def holdingsValueWith (st : SimState) (seed : ℕ → Option ℚ) : ℚ :=
  (heldPositions st.positions).foldl
    (fun acc p =>
      let price? : Option ℚ :=
        match seed p.instrumentId with
        | some pr => some pr
        | none =>
          match st.quotes p.instrumentId with
          | some q => some q.price
          | none => none
      match price? with
      | some pr => acc + pr * (p.quantity : ℚ)
      | none => acc) 0

/-! ## Order execution engine (`simulator/services.py::execute_order`) -/

/-- Structured form of the `meta` dict attached to a concentration-limit
rejection (string rendering of the numbers is elided). -/
structure ConcLimitMeta where
  symbol : Option String
  quotePrice : ℚ
  tradeShares : ℤ
  tradeValue : ℚ
  totalEquity : ℚ
  limitValue : ℚ
  existingShares : ℤ
  existingValue : ℚ
  projectedShares : ℤ
  projectedValue : ℚ
  overLimitValue : ℚ
  maxPct : ℚ
  maxPctHint : ℚ
  maxTotalShares : ℤ
  maxAdditionalShares : ℤ
  maxTotalValue : ℚ
deriving DecidableEq, Repr

/-- `OrderExecutionResult` dataclass. -/
structure OrderExecutionResult where
  ok : Bool
  order : Order
  fill : Option TradeFill
  message : String
  meta : Option ConcLimitMeta := none

/-- `_persist_order` (fresh-row branch; see the modelling note on
`queued_order_id`): create an `Order` row.  The row id is its index in
the append-only table. -/
def persistOrder (st : SimState) (iid : ℕ) (side : OrderSide) (orderType : OrderType)
    (quantity : ℤ) (limitPrice : Option ℚ) (status : OrderStatus)
    (submittedPrice : Option ℚ) (quoteAsOf : Option ℤ) (rejectReason : String) :
    SimState × Order :=
  let o : Order :=
    { id := st.orders.length, instrumentId := iid, side := side, orderType := orderType,
      quantity := quantity, limitPrice := limitPrice, status := status,
      submittedPrice := submittedPrice, quoteAsOf := quoteAsOf,
      rejectReason := rejectReason }
  ({ st with orders := st.orders ++ [o] }, o)

/-- Outcome of the quote-acquisition step of `execute_order`. -/
inductive QuoteAcq
  | refreshFailed
  | noQuote
  | got (q : Quote)

/-- Quote acquisition (`execute_order` steps 1–2): MARKET orders with a
resolvable instrument force a provider refresh (failure is terminal,
`QUOTE_REFRESH_FAILED`); otherwise the latest cached quote is used,
with one on-demand fetch if none is cached and the instrument
resolves; no quote at all is `NO_QUOTE_AVAILABLE`. -/
def acquireQuote (env : Env) (st : SimState) (iid : ℕ) (orderType : OrderType) :
    SimState × QuoteAcq :=
  let inst := env.instruments iid
  if orderType = OrderType.MARKET ∧ inst.isSome then
    match fetch_and_store_latest_quote env st iid with
    | (st1, none) => (st1, .refreshFailed)
    | (st1, some q) => (st1, .got q)
  else
    match st.quotes iid with
    | some q => (st, .got q)
    | none =>
      match inst with
      | some _ =>
        match fetch_and_store_latest_quote env st iid with
        | (st1, some q) => (st1, .got q)
        | (st1, none) => (st1, .noQuote)
      | none => (st, .noQuote)

/-- Outcome of the staleness step of `execute_order`. -/
inductive StaleCheck
  | fresh (q : Quote)
  /-- The order will be rejected `QUOTE_STALE_{ageSeconds}s`, with the
  carried quote's price / as_of persisted on the rejected order.  Note
  (source lines 630–648): once staleness is detected the order is
  rejected unconditionally; a successful refresh only replaces the
  quote and the recorded age. -/
  | stale (q : Quote) (ageSeconds : ℤ)

/-- Staleness check (`execute_order` step 3). -/
def stalenessRefresh (env : Env) (st : SimState) (iid : ℕ) (q : Quote) :
    SimState × StaleCheck :=
  let age := env.now - q.asOf
  if env.maxQuoteAgeSeconds < age then
    match env.instruments iid with
    | some _ =>
      match fetch_and_store_latest_quote env st iid with
      | (st1, some q2) => (st1, .stale q2 (env.now - q2.asOf))
      | (st1, none) => (st1, .stale q age)
    | none => (st, .stale q age)
  else (st, .fresh q)

/-- Step 5c of `execute_order`: fetch-or-create the `Position` row
(placeholder quantity 0). -/
def ensurePosition (st : SimState) (iid : ℕ) : SimState × PositionRow :=
  match findPosition st.positions iid with
  | some p => (st, p)
  | none =>
    let p : PositionRow := { instrumentId := iid, quantity := 0, avgCostBasis := 0 }
    ({ st with positions := st.positions ++ [p] }, p)

/-- The `quantity` of the participant's position row for `iid` (0 when
none exists) — equals `(ensurePosition st iid).2.quantity`. -/
def existingQty (st : SimState) (iid : ℕ) : ℤ :=
  ((findPosition st.positions iid).map (·.quantity)).getD 0

/-- The advanced-competition MARKET-BUY repricing (step 5d): returns
the (possibly synthetic) fill price and the accordingly recomputed
notional; all other orders keep the incoming price/notional. -/
def repriceForBuy (competition : Competition) (side : OrderSide) (order_type : OrderType)
    (latest_quote : Quote) (quantity : ℤ) (fillPrice0 notional0 : ℚ) : ℚ × ℚ :=
  if competition.competitionType = CompetitionType.ADVANCED ∧
      side = OrderSide.BUY ∧ order_type = OrderType.MARKET then
    let fp :=
      match derive_price_from_source (some latest_quote.price)
          competition.marketBuyPriceSource
          ((competition.syntheticSpreadBps.getD 0 : ℕ) : ℤ) with
      | .ok p => p
      | .error _ => fillPrice0 -- unreachable: price present, spread ≥ 0
    (fp, _quantize_money (fp * (quantity : ℚ)))
  else (fillPrice0, notional0)

/-- Equity for the concentration rule: cash + market value of held
positions, seeding the traded instrument with the (possibly
synthetic) fill price. -/
def orderTotalEquity (st : SimState) (iid : ℕ) (fill_price : ℚ) : ℚ :=
  st.participant.cashBalance +
    holdingsValueWith st (fun j => if j = iid then some fill_price else none)

/-- Whether the concentration rule applies (disabled for advanced
competitions whose truthy `max_symbols` is below 3). -/
def concRuleApplies (competition : Competition) : Bool :=
  if competition.competitionType = CompetitionType.ADVANCED then
    !(natFieldTruthy competition.maxSymbols && decide (competition.maxSymbols.getD 0 < 3))
  else true

/-- The per-competition concentration percentage (`max_single_symbol_pct`
for advanced competitions, the fixed 33% for standard ones). -/
def concMaxPct (competition : Competition) : Option ℚ :=
  if competition.competitionType = CompetitionType.ADVANCED then
    competition.maxSingleSymbolPct
  else some MAX_SINGLE_BUY_PCT

/-- The diagnostic `meta` payload of a concentration-limit rejection. -/
def concMeta (env : Env) (st : SimState) (iid : ℕ) (quantity : ℤ)
    (fill_price notional total_equity mp : ℚ) : ConcLimitMeta :=
  let existing_qty := existingQty st iid
  let projected_qty := existing_qty + quantity
  let projected_position_value := _quantize_money (fill_price * (projected_qty : ℚ))
  let existing_position_value :=
    if existing_qty ≠ 0 then _quantize_money (fill_price * (existing_qty : ℚ)) else 0
  let limit_value := _quantize_money (total_equity * mp)
  let over := _quantize_money (projected_position_value - limit_value)
  let max_pct_hint := if PCT_HINT_DELTA < mp then mp - PCT_HINT_DELTA else mp
  let max_notional_hint := total_equity * max_pct_hint
  let max_total_shares0 :=
    if 0 < fill_price then decimalFloor (max_notional_hint / fill_price) else 0
  let max_total_shares := max 0 max_total_shares0
  let max_additional_shares := max 0 (max_total_shares - existing_qty)
  let max_total_value :=
    if fill_price ≠ 0 then _quantize_money (fill_price * (max_total_shares : ℚ)) else 0
  { symbol := (env.instruments iid).map (·.symbol),
    quotePrice := _quantize_money fill_price, tradeShares := quantity,
    tradeValue := notional, totalEquity := _quantize_money total_equity,
    limitValue := limit_value, existingShares := existing_qty,
    existingValue := existing_position_value, projectedShares := projected_qty,
    projectedValue := projected_position_value, overLimitValue := over,
    maxPct := mp, maxPctHint := max_pct_hint, maxTotalShares := max_total_shares,
    maxAdditionalShares := max_additional_shares, maxTotalValue := max_total_value }

/-- Outcome of the atomic section's validation chain.  `rejectEarly`
fires before the position fetch-or-create (participant / competition
checks, which also record the *incoming* price); `rejectChecked`
fires after it (so the placeholder row is persisted with the
rejection); `fill` proceeds to settlement. -/
inductive AtomicOutcome
  | rejectEarly (reason msg : String)
  | rejectChecked (fp : ℚ) (reason msg : String) (meta : Option ConcLimitMeta)
  | fill (fp notional : ℚ)

/-- The validation chain of the atomic section of `execute_order`
(source lines 688–898), as a pure decision over the locked state.
All reads it performs (`existingQty`, `heldPositions`,
`holdingsValueWith`) are insensitive to the quantity-0 placeholder
row, so deciding on the pre-`ensurePosition` state is equivalent to
the source's interleaving; the placeholder's persistence is replayed
in `executeOrderAtomic`. -/
def atomicDecision (env : Env) (st : SimState) (instrument_id : ℕ) (side : OrderSide)
    (order_type : OrderType) (quantity : ℤ) (latest_quote : Quote)
    (fillPrice0 notional0 : ℚ) : AtomicOutcome :=
  let now := env.now
  let participant := st.participant
  if participant.status ≠ ParticipantStatus.ACTIVE then
    .rejectEarly "PARTICIPANT_NOT_ACTIVE" "Participant not active."
  else if participant.competition.status ≠ CompetitionStatus.PUBLISHED ∨
      ¬(participant.competition.weekStartAt ≤ now ∧ now ≤ participant.competition.weekEndAt) then
    .rejectEarly "COMPETITION_NOT_ACTIVE" "Competition not active."
  else
    let competition := participant.competition
    let existing_qty := existingQty st instrument_id
    let repriced := repriceForBuy competition side order_type latest_quote quantity
        fillPrice0 notional0
    let fill_price := repriced.1
    let notional := repriced.2
    if side = OrderSide.BUY then
      if competition.competitionType = CompetitionType.ADVANCED ∧
          natFieldTruthy competition.maxSymbols ∧ existing_qty ≤ 0 ∧
          competition.maxSymbols.getD 0 ≤ (heldPositions st.positions).length then
        .rejectChecked fill_price "MAX_SYMBOLS_EXCEEDED"
          "This competition allows at most N symbols in your portfolio." none
      else
        let total_equity := orderTotalEquity st instrument_id fill_price
        let projected_position_value :=
          _quantize_money (fill_price * ((existing_qty + quantity : ℤ) : ℚ))
        let max_pct := concMaxPct competition
        if 0 < total_equity ∧ concRuleApplies competition = true ∧
            decFieldTruthy max_pct = true ∧
            _quantize_money (total_equity * max_pct.getD 0) < projected_position_value then
          let mp := max_pct.getD 0
          let reject_reason :=
            if competition.competitionType ≠ CompetitionType.ADVANCED ∧ mp = MAX_SINGLE_BUY_PCT
            then "POSITION_SIZE_LIMIT_33PCT" else "POSITION_SIZE_LIMIT_MAX_PCT"
          .rejectChecked fill_price reject_reason
            "Single stock purchases cannot exceed the competition max % of your total equity."
            (some (concMeta env st instrument_id quantity fill_price notional total_equity mp))
        else if participant.cashBalance < notional then
          .rejectChecked fill_price "INSUFFICIENT_CASH" "Insufficient cash." none
        else .fill fill_price notional
    else
      if existing_qty < quantity then
        .rejectChecked fill_price "INSUFFICIENT_SHARES" "Insufficient shares." none
      else .fill fill_price notional

/-- The fill path of `execute_order` (steps g–l): persist the FILLED
order, compute realized P&L, create the `TradeFill`, apply position
and cash changes, append the ledger entry, compute the soft
minimum-symbols warning. -/
def fillAndSettle (env : Env) (st : SimState) (instrument_id : ℕ) (side : OrderSide)
      (order_type : OrderType) (quantity : ℤ) (limit_price : Option ℚ)
      (latest_quote : Quote) (fill_price notional : ℚ) (position : PositionRow) :
      SimState × OrderExecutionResult :=
    let competition := st.participant.competition
    let po := persistOrder st instrument_id side order_type quantity limit_price
        OrderStatus.FILLED (some fill_price) (some latest_quote.asOf) ""
    let st1 := po.1
    let order := po.2
    let realized_pnl :=
      if side = OrderSide.SELL then
        _quantize_money ((fill_price - position.avgCostBasis) * (quantity : ℚ))
      else 0
    let fill : TradeFill :=
      { orderId := order.id, filledAt := env.now, price := fill_price,
        quantity := quantity, notional := notional, realizedPnl := realized_pnl }
    let st2 := { st1 with fills := st1.fills ++ [fill] }
    let st3 :=
      if side = OrderSide.BUY then
        let old_qty := position.quantity
        let new_qty := old_qty + quantity
        let pos' :=
          if 0 < new_qty then
            let old_cost := if old_qty ≠ 0 then position.avgCostBasis * (old_qty : ℚ) else 0
            let new_cost := old_cost + fill_price * (quantity : ℚ)
            { position with quantity := new_qty, avgCostBasis := new_cost / (new_qty : ℚ) }
          else { position with quantity := new_qty }
        let stq := { st2 with positions := updatePosition st2.positions instrument_id (fun _ => pos') }
        let stc := { stq with participant :=
          { stq.participant with cashBalance := stq.participant.cashBalance - notional } }
        { stc with ledger := stc.ledger ++
          [{ deltaAmount := -notional, reason := CashLedgerReason.TRADE_BUY,
             referenceId := some order.id, memo := "" }] }
      else
        let new_qty := position.quantity - quantity
        let stq :=
          if new_qty = 0 then
            -- avg_cost_basis is zeroed and the row deleted.
            { st2 with positions := deletePosition st2.positions instrument_id }
          else
            { st2 with positions :=
                updatePosition st2.positions instrument_id (fun p => { p with quantity := new_qty }) }
        let stc := { stq with participant :=
          { stq.participant with cashBalance := stq.participant.cashBalance + notional } }
        { stc with ledger := stc.ledger ++
          [{ deltaAmount := notional, reason := CashLedgerReason.TRADE_SELL,
             referenceId := some order.id, memo := "" }] }
    -- Soft rule: SELL in an advanced competition below min_symbols only
    -- appends a warning to the message (interpolated text elided).
    let warning : Option String :=
      if side = OrderSide.SELL ∧ competition.competitionType = CompetitionType.ADVANCED ∧
          natFieldTruthy competition.minSymbols ∧
          (heldPositions st3.positions).length < competition.minSymbols.getD 0 then
        some "Warning: this competition requires a minimum number of symbols."
      else none
    (st3, { ok := true, order := order, fill := some fill,
            message := "Filled." ++ (match warning with | some w => " " ++ w | none => ""),
            meta := none })

/-- The atomic section of `execute_order` (`with transaction.atomic():`,
source lines 681–997): run the validation chain, then persist its
outcome.  Rejection paths `return` normally in the source, so their
row mutations (the REJECTED order and — for post-fetch rejections —
the quantity-0 placeholder position) commit. -/
def executeOrderAtomic (env : Env) (st : SimState) (instrument_id : ℕ)
    (side : OrderSide) (order_type : OrderType) (quantity : ℤ)
    (limit_price : Option ℚ) (latest_quote : Quote) (fillPrice0 notional0 : ℚ) :
    SimState × OrderExecutionResult :=
  match atomicDecision env st instrument_id side order_type quantity latest_quote
      fillPrice0 notional0 with
  | .rejectEarly reason msg =>
    let pr := persistOrder st instrument_id side order_type quantity limit_price
        OrderStatus.REJECTED (some fillPrice0) (some latest_quote.asOf) reason
    (pr.1, { ok := false, order := pr.2, fill := none, message := msg, meta := none })
  | .rejectChecked fp reason msg meta =>
    let ep := ensurePosition st instrument_id
    let pr := persistOrder ep.1 instrument_id side order_type quantity limit_price
        OrderStatus.REJECTED (some fp) (some latest_quote.asOf) reason
    (pr.1, { ok := false, order := pr.2, fill := none, message := msg, meta := meta })
  | .fill fp notional =>
    let ep := ensurePosition st instrument_id
    fillAndSettle env ep.1 instrument_id side order_type quantity limit_price
      latest_quote fp notional ep.2

/-- A rejected-order return of `execute_order` (persist the REJECTED
row, return not-ok). -/
def rejectOrder (st : SimState) (instrument_id : ℕ) (side : OrderSide)
    (order_type : OrderType) (quantity : ℤ) (limit_price : Option ℚ)
    (sp : Option ℚ) (qa : Option ℤ) (reason msg : String) :
    SimState × OrderExecutionResult :=
  let pr := persistOrder st instrument_id side order_type quantity limit_price
      OrderStatus.REJECTED sp qa reason
  (pr.1, { ok := false, order := pr.2, fill := none, message := msg, meta := none })

/-- `execute_order` steps 4–5: the LIMIT marketability gate over a
fresh quote, then the atomic section. -/
def executeWithQuote (env : Env) (st2 : SimState) (instrument_id : ℕ)
    (side : OrderSide) (order_type : OrderType) (quantity : ℤ)
    (limit_price : Option ℚ) (latest_quote : Quote) :
    SimState × OrderExecutionResult :=
  let fill_price := latest_quote.price
  if order_type = OrderType.LIMIT ∧ limit_price = none then
    rejectOrder st2 instrument_id side order_type quantity limit_price
      (some fill_price) (some latest_quote.asOf) "LIMIT_PRICE_REQUIRED" "Limit price required."
  else if order_type = OrderType.LIMIT ∧ side = OrderSide.BUY ∧
      limit_price.getD 0 < fill_price then
    rejectOrder st2 instrument_id side order_type quantity limit_price
      (some fill_price) (some latest_quote.asOf)
      "LIMIT_NOT_MARKETABLE_AT_LATEST_PRICE" "Buy limit not marketable."
  else if order_type = OrderType.LIMIT ∧ side = OrderSide.SELL ∧
      fill_price < limit_price.getD 0 then
    rejectOrder st2 instrument_id side order_type quantity limit_price
      (some fill_price) (some latest_quote.asOf)
      "LIMIT_NOT_MARKETABLE_AT_LATEST_PRICE" "Sell limit not marketable."
  else
    let notional := _quantize_money (fill_price * (quantity : ℚ))
    executeOrderAtomic env st2 instrument_id side order_type quantity limit_price
      latest_quote fill_price notional

/-- `simulator.services.execute_order` (the full operation).  The
marketability comparisons read `limit_price.getD 0` only after the
`LIMIT_PRICE_REQUIRED` gate has ruled out `none`, mirroring the source
where `limit_price` is known non-None there. -/
def execute_order (env : Env) (st0 : SimState) (instrument_id : ℕ) (side : OrderSide)
    (order_type : OrderType) (quantity : ℤ) (limit_price : Option ℚ := none) :
    SimState × OrderExecutionResult :=
  match acquireQuote env st0 instrument_id order_type with
  | (st1, .refreshFailed) =>
    rejectOrder st1 instrument_id side order_type quantity limit_price none none
      "QUOTE_REFRESH_FAILED" "Could not refresh quote for market order. Please try again."
  | (st1, .noQuote) =>
    rejectOrder st1 instrument_id side order_type quantity limit_price none none
      "NO_QUOTE_AVAILABLE" "No quote available."
  | (st1, .got q0) =>
    match stalenessRefresh env st1 instrument_id q0 with
    | (st2, .stale q age) =>
      rejectOrder st2 instrument_id side order_type quantity limit_price
        (some q.price) (some q.asOf) ("QUOTE_STALE_" ++ toString age ++ "s")
        ("Quote is stale (" ++ toString age ++ "s old). Try again after refresh.")
    | (st2, .fresh latest_quote) =>
      executeWithQuote env st2 instrument_id side order_type quantity limit_price
        latest_quote

/-! ## Basket execution engine (`simulator/services.py::execute_basket_order`) -/

/-- `BasketExecutionLeg` dataclass. -/
structure BasketExecutionLeg where
  instrumentId : ℕ
  symbol : String
  side : OrderSide
  quantity : ℤ
  price : ℚ
  notional : ℚ
  orderId : Option ℕ := none
deriving DecidableEq, Repr

/-- Structured form of the basket result's `meta` dict: the `reason`
string plus the payload fields the source puts beside it. -/
inductive BasketMeta
  | INVALID_SIDE
  | INVALID_TOTAL_AMOUNT
  | INVALID_ALLOCATIONS
  | MISSING_INSTRUMENTS (missingInstrumentIds : List ℕ)
  | QUOTE_REFRESH_FAILED (symbol : String)
  | PARTICIPANT_NOT_ACTIVE
  | COMPETITION_NOT_ACTIVE
  | ALLOCATION_OVER_MAX_PCT (symbol : String) (maxPct requestedPct : ℚ)
  | INSUFFICIENT_CASH (requested available over : ℚ)
  | MAX_SYMBOLS_EXCEEDED
  | INVALID_PRICE (symbol : String)
  | ALLOCATION_TOO_SMALL (symbol : String) (price : ℚ)
  | NO_POSITION (symbol : String)
  | INSUFFICIENT_SHARES (symbol : String) (availableShares requestedShares : ℤ)
  | POSITION_SIZE_LIMIT (symbol : String) (overLimitValue maxPct totalEquity : ℚ)
  /-- the ok-result meta `{"basket_name": ...}` -/
  | SUCCESS (basketName : String)
deriving DecidableEq, Repr

/-- `BasketExecutionResult` dataclass. -/
structure BasketExecutionResult where
  ok : Bool
  message : String
  legs : List BasketExecutionLeg
  meta : Option BasketMeta

/-- The loop body of `_parse_pct_inputs`: accumulate the total percent
and the per-instrument weights, raising at the first `None` or
non-positive percent. -/
def parsePctLoop : List (ℕ × Option ℚ) → ℚ → List (ℕ × ℚ) →
    Except String (ℚ × List (ℕ × ℚ))
  | [], total, acc => .ok (total, acc)
  | (_, none) :: _, _, _ => .error "Missing percent."
  | (iid, some pct) :: rest, total, acc =>
    if pct ≤ 0 then .error "Percent must be > 0 for each symbol."
    else parsePctLoop rest (total + pct) (acc ++ [(iid, pct / 100)])

/-- `simulator.services._parse_pct_inputs`: normalize percentages
(0–100) into weights (0–1); enforce each > 0 and quantized total
exactly 100. -/
def _parse_pct_inputs (pct_by_instrument_id : List (ℕ × Option ℚ)) :
    Except String (List (ℕ × ℚ)) :=
  match parsePctLoop pct_by_instrument_id 0 [] with
  | .error e => .error e
  | .ok (total_pct, weights) =>
    if _quantize_money total_pct ≠ _quantize_money 100 then
      .error "Allocations must total 100%."
    else .ok weights

/-- Insert into an ascending list (helper for `sorted(...)`). -/
def insertAsc (n : ℕ) : List ℕ → List ℕ
  | [] => [n]
  | m :: ms => if n ≤ m then n :: m :: ms else m :: insertAsc n ms

/-- `sorted(weights.keys())`. -/
def sortedKeys (weights : List (ℕ × ℚ)) : List ℕ :=
  (weights.map Prod.fst).foldr insertAsc []

/-- `quotes_by_iid[iid]` lookup. -/
def lookupQuote (qs : List (ℕ × Quote)) (iid : ℕ) : Option Quote :=
  (qs.find? (fun p => p.1 == iid)).map (·.2)

/-- `weights[iid]` lookup. -/
def lookupWeight (ws : List (ℕ × ℚ)) (iid : ℕ) : Option ℚ :=
  (ws.find? (fun p => p.1 == iid)).map (·.2)

/-- `inst_by_id[iid].symbol` (the id is known to resolve when used). -/
def symbolOf (env : Env) (iid : ℕ) : String :=
  ((env.instruments iid).map (·.symbol)).getD ""

/-- The per-symbol quote-refresh loop: fetch and store a quote for
every basket instrument, aborting at the first failure (naming its
instrument). -/
def fetchBasketQuotes (env : Env) : SimState → List ℕ →
    SimState × Except ℕ (List (ℕ × Quote))
  | st, [] => (st, .ok [])
  | st, iid :: rest =>
    match fetch_and_store_latest_quote env st iid with
    | (st1, none) => (st1, .error iid)
    | (st1, some q) =>
      match fetchBasketQuotes env st1 rest with
      | (st2, .ok qs) => (st2, .ok ((iid, q) :: qs))
      | (st2, .error e) => (st2, .error e)

/-- BUY-side placeholder creation: ensure a (possibly quantity-0)
`Position` row exists for every basket instrument. -/
def createPlaceholders : SimState → List ℕ → SimState
  | st, [] => st
  | st, iid :: rest =>
    let st1 :=
      match findPosition st.positions iid with
      | some _ => st
      | none =>
        { st with positions :=
            st.positions ++ [{ instrumentId := iid, quantity := 0, avgCostBasis := 0 }] }
    createPlaceholders st1 rest

/-- The intended-share-quantity loop: per basket instrument (in sorted
id order), target notional = total × weight, shares =
floor(target / price); a non-positive price or a zero floored share
count aborts the whole basket. -/
def computeBasketLegs (env : Env) (side : OrderSide) (total_amount : ℚ)
    (weights : List (ℕ × ℚ)) (qs : List (ℕ × Quote)) :
    List ℕ → Except BasketMeta (List BasketExecutionLeg)
  | [] => .ok []
  | iid :: rest =>
    let sym := symbolOf env iid
    let price := ((lookupQuote qs iid).map (·.price)).getD 0
    let weight := (lookupWeight weights iid).getD 0
    let target_notional := total_amount * weight
    if price ≤ 0 then .error (.INVALID_PRICE sym)
    else
      let shares := decimalFloor (target_notional / price)
      if shares < 1 then .error (.ALLOCATION_TOO_SMALL sym (_quantize_money price))
      else
        match computeBasketLegs env side total_amount weights qs rest with
        | .error e => .error e
        | .ok legs =>
          .ok ({ instrumentId := iid, symbol := sym, side := side, quantity := shares,
                 price := price, notional := _quantize_money (price * (shares : ℚ)),
                 orderId := none } :: legs)

/-- SELL-side share sufficiency: every leg must have an existing
position with enough shares. -/
def sellSharesCheck (st : SimState) : List BasketExecutionLeg → Option BasketMeta
  | [] => none
  | l :: rest =>
    match findPosition st.positions l.instrumentId with
    | none => some (.NO_POSITION l.symbol)
    | some pos =>
      if pos.quantity ≤ 0 then some (.NO_POSITION l.symbol)
      else if pos.quantity < l.quantity then
        some (.INSUFFICIENT_SHARES l.symbol pos.quantity l.quantity)
      else sellSharesCheck st rest

/-- Per-leg equity-concentration check against a precomputed limit
value. -/
def basketConcCheck (st : SimState) (limit_value max_pct_equity total_equity : ℚ) :
    List BasketExecutionLeg → Option BasketMeta
  | [] => none
  | l :: rest =>
    let existing_qty := ((findPosition st.positions l.instrumentId).map (·.quantity)).getD 0
    let projected_value := _quantize_money (l.price * ((existing_qty + l.quantity : ℤ) : ℚ))
    if limit_value < projected_value then
      some (.POSITION_SIZE_LIMIT l.symbol (_quantize_money (projected_value - limit_value))
        max_pct_equity (_quantize_money total_equity))
    else basketConcCheck st limit_value max_pct_equity total_equity rest

/-- One leg of the basket execution loop: create the FILLED order and
fill, apply the same position/cash/ledger updates as `execute_order`,
tagging the ledger memo with the basket name. -/
def applyBasketLeg (env : Env) (basket_name : String) (side : OrderSide)
    (qs : List (ℕ × Quote)) (st : SimState) (l : BasketExecutionLeg) :
    SimState × BasketExecutionLeg :=
  let q := (lookupQuote qs l.instrumentId).getD { price := l.price, asOf := 0 }
  let fill_price := l.price
  let notional := _quantize_money (fill_price * (l.quantity : ℚ))
  let po := persistOrder st l.instrumentId side OrderType.MARKET l.quantity none
      OrderStatus.FILLED (some fill_price) (some q.asOf) ""
  let st1 := po.1
  let order := po.2
  let pos := (findPosition st1.positions l.instrumentId).getD
      { instrumentId := l.instrumentId, quantity := 0, avgCostBasis := 0 }
  let realized_pnl :=
    if side = OrderSide.SELL then
      _quantize_money ((fill_price - pos.avgCostBasis) * (l.quantity : ℚ))
    else 0
  let fill : TradeFill :=
    { orderId := order.id, filledAt := env.now, price := fill_price,
      quantity := l.quantity, notional := notional, realizedPnl := realized_pnl }
  let st2 := { st1 with fills := st1.fills ++ [fill] }
  let st3 :=
    if side = OrderSide.BUY then
      let old_qty := pos.quantity
      let new_qty := old_qty + l.quantity
      let pos' :=
        if 0 < new_qty then
          let old_cost := if old_qty ≠ 0 then pos.avgCostBasis * (old_qty : ℚ) else 0
          let new_cost := old_cost + fill_price * (l.quantity : ℚ)
          { pos with quantity := new_qty, avgCostBasis := new_cost / (new_qty : ℚ) }
        else { pos with quantity := new_qty }
      let stq := { st2 with positions := updatePosition st2.positions l.instrumentId (fun _ => pos') }
      let stc := { stq with participant :=
        { stq.participant with cashBalance := stq.participant.cashBalance - notional } }
      { stc with ledger := stc.ledger ++
        [{ deltaAmount := -notional, reason := CashLedgerReason.TRADE_BUY,
           referenceId := some order.id, memo := "BASKET:" ++ basket_name }] }
    else
      let new_qty := pos.quantity - l.quantity
      let stq :=
        if new_qty = 0 then
          { st2 with positions := deletePosition st2.positions l.instrumentId }
        else
          { st2 with positions :=
              updatePosition st2.positions l.instrumentId (fun p => { p with quantity := new_qty }) }
      let stc := { stq with participant :=
        { stq.participant with cashBalance := stq.participant.cashBalance + notional } }
      { stc with ledger := stc.ledger ++
        [{ deltaAmount := notional, reason := CashLedgerReason.TRADE_SELL,
           referenceId := some order.id, memo := "BASKET:" ++ basket_name }] }
  (st3, { l with notional := notional, orderId := some order.id })

/-- Leg-by-leg execution inside the atomic section (the `for l in
legs:` loop of the source). -/
def executeBasketLegs (env : Env) (basket_name : String) (side : OrderSide)
    (qs : List (ℕ × Quote)) : SimState → List BasketExecutionLeg →
    SimState × List BasketExecutionLeg
  | st, [] => (st, [])
  | st, l :: rest =>
    let al := applyBasketLeg env basket_name side qs st l
    let res := executeBasketLegs env basket_name side qs al.1 rest
    (res.1, al.2 :: res.2)

/-- The per-competition per-symbol allocation cap of the basket engine
(`max_single_symbol_pct` when advanced and set, else the 33%
default). -/
def basketMaxAllocPct (competition : Competition) : ℚ :=
  if competition.competitionType = CompetitionType.ADVANCED ∧
      competition.maxSingleSymbolPct ≠ none
  then competition.maxSingleSymbolPct.getD 0
  else MAX_SINGLE_BUY_PCT

/-- Outcome of the basket atomic section's validation chain.
`rejectPre` fires before the BUY placeholder-creation step,
`rejectPost` after it (so BUY placeholders are persisted with the
rejection); `execute` proceeds to leg-by-leg execution. -/
inductive BasketOutcome
  | rejectPre (message : String) (meta : BasketMeta)
  | rejectPost (message : String) (meta : BasketMeta)
  | execute (legs : List BasketExecutionLeg)

/-- The validation chain of the atomic section of
`execute_basket_order` (source lines 154–409), as a pure decision
over the locked state.  Its reads (`heldPositions`, `findPosition`
with a 0 default, `holdingsValueWith`) are insensitive to the
quantity-0 BUY placeholder rows, so deciding on the
pre-`createPlaceholders` state is equivalent to the source's
interleaving; the placeholders' persistence is replayed in
`basketAtomic`. -/
def basketDecision (env : Env) (st : SimState) (side : OrderSide)
    (total_amount : ℚ) (weights : List (ℕ × ℚ)) (instrument_ids : List ℕ)
    (qs : List (ℕ × Quote)) (ignore_competition_window : Bool) : BasketOutcome :=
  let now := env.now
  let participant := st.participant
  if participant.status ≠ ParticipantStatus.ACTIVE then
    .rejectPre "Participant not active." .PARTICIPANT_NOT_ACTIVE
  else if participant.competition.status ≠ CompetitionStatus.PUBLISHED ∨
      (¬ignore_competition_window ∧
        ¬(participant.competition.weekStartAt ≤ now ∧ now ≤ participant.competition.weekEndAt)) then
    .rejectPre "Competition not active." .COMPETITION_NOT_ACTIVE
  else
    let competition := participant.competition
    let max_alloc_pct := basketMaxAllocPct competition
    -- Allocation rule on the requested % split (applies to both sides).
    match weights.find? (fun p => decide (max_alloc_pct * 100 < p.2 * 100)) with
    | some ow =>
      let sym := symbolOf env ow.1
      .rejectPre (sym ++ " allocation exceeds the competition max per-symbol percent.")
        (.ALLOCATION_OVER_MAX_PCT sym max_alloc_pct (ow.2 * 100))
    | none =>
      if side = OrderSide.BUY ∧ _quantize_money participant.cashBalance < total_amount then
        let over := _quantize_money (total_amount - participant.cashBalance)
        .rejectPre "Insufficient cash / buying power."
          (.INSUFFICIENT_CASH total_amount (_quantize_money participant.cashBalance) over)
      else
        -- (BUY placeholders are created here in the source.)
        -- Advanced rule: max number of symbols (hard enforcement on BUY only).
        let new_symbols :=
          (instrument_ids.filter (fun iid => existingQty st iid ≤ 0)).length
        if side = OrderSide.BUY ∧ competition.competitionType = CompetitionType.ADVANCED ∧
            natFieldTruthy competition.maxSymbols ∧
            competition.maxSymbols.getD 0 < (heldPositions st.positions).length + new_symbols then
          .rejectPost "This competition allows at most N symbols in your portfolio."
            .MAX_SYMBOLS_EXCEEDED
        else
          let seed : ℕ → Option ℚ := fun j => (lookupQuote qs j).map (·.price)
          let total_equity := participant.cashBalance + holdingsValueWith st seed
          match computeBasketLegs env side total_amount weights qs instrument_ids with
          | .error m => .rejectPost "Basket leg computation failed." m
          | .ok legs =>
            -- BUY: enforce cash against computed share notionals.
            let total_notional :=
              _quantize_money (legs.foldl (fun acc l => acc + l.notional) 0)
            if side = OrderSide.BUY ∧ participant.cashBalance < total_notional then
              let over := _quantize_money (total_notional - participant.cashBalance)
              .rejectPost "Insufficient cash / buying power."
                (.INSUFFICIENT_CASH total_notional
                  (_quantize_money participant.cashBalance) over)
            else
              let sellFail :=
                if side = OrderSide.SELL then sellSharesCheck st legs else none
              match sellFail with
              | some m => .rejectPost "Sell-side share check failed." m
              | none =>
                -- Portfolio concentration rule per symbol.
                let concFail :=
                  if side = OrderSide.BUY ∧ 0 < total_equity ∧
                      concRuleApplies competition = true ∧
                      decFieldTruthy (concMaxPct competition) = true then
                    basketConcCheck st
                      (_quantize_money (total_equity * (concMaxPct competition).getD 0))
                      ((concMaxPct competition).getD 0) total_equity legs
                  else none
                match concFail with
                | some m =>
                  .rejectPost "Single stock purchases cannot exceed the competition max % of your total equity." m
                | none => .execute legs

/-- The atomic section of `execute_basket_order` (source lines
154–513): run the validation chain, then persist its outcome.
Rejection paths `return` normally (committing the BUY placeholder
rows created before post-placeholder rejections). -/
def basketAtomic (env : Env) (st : SimState) (basket_name : String) (side : OrderSide)
    (total_amount : ℚ) (weights : List (ℕ × ℚ)) (instrument_ids : List ℕ)
    (qs : List (ℕ × Quote)) (ignore_competition_window : Bool) :
    SimState × BasketExecutionResult :=
  match basketDecision env st side total_amount weights instrument_ids qs
      ignore_competition_window with
  | .rejectPre msg m =>
    (st, { ok := false, message := msg, legs := [], meta := some m })
  | .rejectPost msg m =>
    let st2 := if side = OrderSide.BUY then createPlaceholders st instrument_ids else st
    (st2, { ok := false, message := msg, legs := [], meta := some m })
  | .execute legs =>
    let st2 := if side = OrderSide.BUY then createPlaceholders st instrument_ids else st
    let ex := executeBasketLegs env basket_name side qs st2 legs
    (ex.1, { ok := true, message := "Basket order executed.", legs := ex.2,
             meta := some (.SUCCESS basket_name) })

/-- `simulator.services.execute_basket_order` (the full operation).
The `side` argument is the already-typed `OrderSide`, so the source's
`INVALID_SIDE` branch (raw string not in `{BUY, SELL}`) is
unrepresentable here; `total_amount` is the already-decimal amount
(`Decimal(total_amount or "0")`). -/
def execute_basket_order (env : Env) (st0 : SimState) (basket_name : String)
    (side : OrderSide) (total_amount0 : ℚ)
    (pct_by_instrument_id : List (ℕ × Option ℚ))
    (ignore_competition_window : Bool := false) :
    SimState × BasketExecutionResult :=
  let total_amount := _quantize_money total_amount0
  if total_amount ≤ 0 then
    (st0, { ok := false, message := "Total amount must be > 0.", legs := [],
            meta := some .INVALID_TOTAL_AMOUNT })
  else
    match _parse_pct_inputs pct_by_instrument_id with
    | .error e =>
      (st0, { ok := false, message := e, legs := [], meta := some .INVALID_ALLOCATIONS })
    | .ok weights =>
      let instrument_ids := sortedKeys weights
      let missing := instrument_ids.filter (fun iid => (env.instruments iid).isNone)
      if missing ≠ [] then
        (st0, { ok := false, message := "One or more basket symbols are missing instruments.",
                legs := [], meta := some (.MISSING_INSTRUMENTS missing) })
      else
        match fetchBasketQuotes env st0 instrument_ids with
        | (st1, .error iid) =>
          let sym := symbolOf env iid
          (st1, { ok := false,
                  message := "Could not refresh quote for " ++ sym ++ ". Please try again.",
                  legs := [], meta := some (.QUOTE_REFRESH_FAILED sym) })
        | (st1, .ok qs) =>
          basketAtomic env st1 basket_name side total_amount weights instrument_ids qs
            ignore_competition_window

/-! ## Cash / ledger frame lemmas

The reconciliation law (claim C1) is proved through a strengthening:
the *gap* `cash_balance − Σ delta_amount` is invariant under every
path of both engines, because every branch either touches neither
cash nor ledger, or changes cash by exactly the `delta_amount` of the
one entry it appends. -/

/-- `cash_balance − Σ CashLedgerEntry.delta_amount`. -/
def cashLedgerGap (st : SimState) : ℚ :=
  st.participant.cashBalance - ledgerSum st.ledger

theorem ledgerSum_append (l : List CashLedgerEntry) (e : CashLedgerEntry) :
    ledgerSum (l ++ [e]) = ledgerSum l + e.deltaAmount := by
  simp [ledgerSum, List.foldl_append]

theorem fetch_frame (env : Env) (st : SimState) (iid : ℕ) :
    (fetch_and_store_latest_quote env st iid).1.participant = st.participant ∧
    (fetch_and_store_latest_quote env st iid).1.ledger = st.ledger ∧
    (fetch_and_store_latest_quote env st iid).1.positions = st.positions ∧
    (fetch_and_store_latest_quote env st iid).1.orders = st.orders := by
  unfold fetch_and_store_latest_quote
  cases hp : env.provider iid <;> simp [hp]

theorem persistOrder_frame (st : SimState) (iid : ℕ) (side : OrderSide)
    (ot : OrderType) (q : ℤ) (lp : Option ℚ) (os : OrderStatus)
    (sp : Option ℚ) (qa : Option ℤ) (rr : String) :
    (persistOrder st iid side ot q lp os sp qa rr).1.participant = st.participant ∧
    (persistOrder st iid side ot q lp os sp qa rr).1.ledger = st.ledger ∧
    (persistOrder st iid side ot q lp os sp qa rr).1.positions = st.positions := by
  simp [persistOrder]

theorem acquireQuote_frame (env : Env) (st : SimState) (iid : ℕ) (ot : OrderType) :
    (acquireQuote env st iid ot).1.participant = st.participant ∧
    (acquireQuote env st iid ot).1.ledger = st.ledger ∧
    (acquireQuote env st iid ot).1.positions = st.positions := by
  obtain ⟨h1, h2, h3, -⟩ := fetch_frame env st iid
  rcases hf : fetch_and_store_latest_quote env st iid with ⟨st1, r⟩
  rw [hf] at h1 h2 h3
  simp only [acquireQuote, hf]
  cases r <;> (repeat' split) <;> simp_all

theorem stalenessRefresh_frame (env : Env) (st : SimState) (iid : ℕ) (q : Quote) :
    (stalenessRefresh env st iid q).1.participant = st.participant ∧
    (stalenessRefresh env st iid q).1.ledger = st.ledger ∧
    (stalenessRefresh env st iid q).1.positions = st.positions := by
  obtain ⟨h1, h2, h3, -⟩ := fetch_frame env st iid
  rcases hf : fetch_and_store_latest_quote env st iid with ⟨st1, r⟩
  rw [hf] at h1 h2 h3
  simp only [stalenessRefresh, hf]
  cases r <;> (repeat' split) <;> simp_all

set_option linter.unnecessarySeqFocus false in
theorem fillAndSettle_gap (env : Env) (st : SimState) (iid : ℕ) (side : OrderSide)
    (ot : OrderType) (q : ℤ) (lp : Option ℚ) (lq : Quote) (fp notional : ℚ)
    (pos : PositionRow) :
    cashLedgerGap (fillAndSettle env st iid side ot q lp lq fp notional pos).1 =
      cashLedgerGap st := by
  unfold fillAndSettle
  cases side <;> (repeat' split) <;>
    (try simp_all [cashLedgerGap, persistOrder, ledgerSum_append]) <;>
    (try (repeat' split)) <;>
    (try simp_all [cashLedgerGap, persistOrder, ledgerSum_append]) <;>
    (try ring)

theorem executeOrderAtomic_gap (env : Env) (st : SimState) (iid : ℕ)
    (side : OrderSide) (ot : OrderType) (q : ℤ) (lp : Option ℚ) (lq : Quote)
    (fp0 n0 : ℚ) :
    cashLedgerGap (executeOrderAtomic env st iid side ot q lp lq fp0 n0).1 =
      cashLedgerGap st := by
  have hep : (ensurePosition st iid).1.participant = st.participant ∧
      (ensurePosition st iid).1.ledger = st.ledger := by
    unfold ensurePosition
    cases findPosition st.positions iid <;> simp
  unfold executeOrderAtomic
  cases atomicDecision env st iid side ot q lq fp0 n0 with
  | rejectEarly reason msg => simp [cashLedgerGap, persistOrder]
  | rejectChecked fp reason msg meta =>
    simp [cashLedgerGap, persistOrder, hep.1, hep.2]
  | fill fp notional =>
    rw [fillAndSettle_gap]
    simp [cashLedgerGap, hep.1, hep.2]

theorem rejectOrder_gap (st : SimState) (iid : ℕ) (side : OrderSide) (ot : OrderType)
    (q : ℤ) (lp : Option ℚ) (sp : Option ℚ) (qa : Option ℤ) (reason msg : String) :
    cashLedgerGap (rejectOrder st iid side ot q lp sp qa reason msg).1 =
      cashLedgerGap st := by
  simp [rejectOrder, cashLedgerGap, persistOrder]

theorem executeWithQuote_gap (env : Env) (st2 : SimState) (iid : ℕ) (side : OrderSide)
    (ot : OrderType) (q : ℤ) (lp : Option ℚ) (lq : Quote) :
    cashLedgerGap (executeWithQuote env st2 iid side ot q lp lq).1 =
      cashLedgerGap st2 := by
  unfold executeWithQuote
  dsimp only
  (repeat' split) <;>
    first
      | rw [rejectOrder_gap]
      | rw [executeOrderAtomic_gap]

theorem execute_order_gap (env : Env) (st0 : SimState) (iid : ℕ) (side : OrderSide)
    (ot : OrderType) (q : ℤ) (lp : Option ℚ) :
    cashLedgerGap (execute_order env st0 iid side ot q lp).1 = cashLedgerGap st0 := by
  unfold execute_order
  rcases ha : acquireQuote env st0 iid ot with ⟨st1, a⟩
  have hfa := acquireQuote_frame env st0 iid ot
  rw [ha] at hfa
  dsimp only at hfa
  have hga : cashLedgerGap st1 = cashLedgerGap st0 := by
    simp [cashLedgerGap, hfa.1, hfa.2.1]
  cases a with
  | refreshFailed => (try dsimp only); rw [rejectOrder_gap]; exact hga
  | noQuote => (try dsimp only); rw [rejectOrder_gap]; exact hga
  | got q0 =>
    (try dsimp only)
    rcases hs : stalenessRefresh env st1 iid q0 with ⟨st2, s⟩
    have hfs := stalenessRefresh_frame env st1 iid q0
    rw [hs] at hfs
    dsimp only at hfs
    have hgs : cashLedgerGap st2 = cashLedgerGap st0 := by
      rw [← hga]
      simp [cashLedgerGap, hfs.1, hfs.2.1]
    cases s <;> (try dsimp only) <;>
      first
        | (rw [rejectOrder_gap]; exact hgs)
        | (rw [executeWithQuote_gap]; exact hgs)

theorem fetchBasketQuotes_frame (env : Env) (ids : List ℕ) : ∀ st : SimState,
    (fetchBasketQuotes env st ids).1.participant = st.participant ∧
    (fetchBasketQuotes env st ids).1.ledger = st.ledger ∧
    (fetchBasketQuotes env st ids).1.positions = st.positions := by
  induction ids with
  | nil => intro st; simp [fetchBasketQuotes]
  | cons i rest ih =>
    intro st
    unfold fetchBasketQuotes
    rcases hf : fetch_and_store_latest_quote env st i with ⟨st1, r⟩
    have hff := fetch_frame env st i
    rw [hf] at hff
    dsimp only at hff
    cases r with
    | none =>
      (try dsimp only)
      exact ⟨hff.1, hff.2.1, hff.2.2.1⟩
    | some qv =>
      (try dsimp only)
      rcases hr : fetchBasketQuotes env st1 rest with ⟨st2, res⟩
      have hir := ih st1
      rw [hr] at hir
      dsimp only at hir
      cases res <;> (try dsimp only) <;>
        exact ⟨hir.1.trans hff.1, hir.2.1.trans hff.2.1, hir.2.2.trans hff.2.2.1⟩

theorem createPlaceholders_frame (ids : List ℕ) : ∀ st : SimState,
    (createPlaceholders st ids).participant = st.participant ∧
    (createPlaceholders st ids).ledger = st.ledger := by
  induction ids with
  | nil => intro st; simp [createPlaceholders]
  | cons i rest ih =>
    intro st
    unfold createPlaceholders
    cases h : findPosition st.positions i with
    | some p => simpa [h] using ih st
    | none =>
      simpa [h] using
        ih { st with positions :=
          st.positions ++ [{ instrumentId := i, quantity := 0, avgCostBasis := 0 }] }

set_option linter.unnecessarySeqFocus false in
theorem applyBasketLeg_gap (env : Env) (bn : String) (side : OrderSide)
    (qs : List (ℕ × Quote)) (st : SimState) (l : BasketExecutionLeg) :
    cashLedgerGap (applyBasketLeg env bn side qs st l).1 = cashLedgerGap st := by
  unfold applyBasketLeg
  cases side <;> (repeat' split) <;>
    (try simp_all [cashLedgerGap, persistOrder, ledgerSum_append]) <;>
    (try (repeat' split)) <;>
    (try simp_all [cashLedgerGap, persistOrder, ledgerSum_append]) <;>
    (try ring)

theorem executeBasketLegs_gap (env : Env) (bn : String) (side : OrderSide)
    (qs : List (ℕ × Quote)) (legs : List BasketExecutionLeg) : ∀ st : SimState,
    cashLedgerGap (executeBasketLegs env bn side qs st legs).1 = cashLedgerGap st := by
  induction legs with
  | nil => intro st; simp [executeBasketLegs]
  | cons l rest ih =>
    intro st
    unfold executeBasketLegs
    rw [ih (applyBasketLeg env bn side qs st l).1, applyBasketLeg_gap]

theorem basketAtomic_gap (env : Env) (st : SimState) (bn : String) (side : OrderSide)
    (ta : ℚ) (ws : List (ℕ × ℚ)) (ids : List ℕ) (qs : List (ℕ × Quote)) (iw : Bool) :
    cashLedgerGap (basketAtomic env st bn side ta ws ids qs iw).1 = cashLedgerGap st := by
  have hcp : cashLedgerGap (if side = OrderSide.BUY then createPlaceholders st ids else st) =
      cashLedgerGap st := by
    split
    · have h := createPlaceholders_frame ids st
      simp [cashLedgerGap, h.1, h.2]
    · rfl
  unfold basketAtomic
  cases basketDecision env st side ta ws ids qs iw with
  | rejectPre msg m => rfl
  | rejectPost msg m => exact hcp
  | execute legs => rw [executeBasketLegs_gap, hcp]

theorem fetchBasketQuotes_gap (env : Env) (ids : List ℕ) (st0 st1 : SimState)
    (r : Except ℕ (List (ℕ × Quote)))
    (heq : fetchBasketQuotes env st0 ids = (st1, r)) :
    cashLedgerGap st1 = cashLedgerGap st0 := by
  have h := fetchBasketQuotes_frame env ids st0
  rw [heq] at h
  dsimp only at h
  simp [cashLedgerGap, h.1, h.2.1]

theorem execute_basket_order_gap (env : Env) (st0 : SimState) (bn : String)
    (side : OrderSide) (ta : ℚ) (pcts : List (ℕ × Option ℚ)) (iw : Bool) :
    cashLedgerGap (execute_basket_order env st0 bn side ta pcts iw).1 =
      cashLedgerGap st0 := by
  unfold execute_basket_order
  dsimp only
  (repeat' split) <;>
    first
      | rfl
      | (rename_i st1 x heq
         exact fetchBasketQuotes_gap env _ _ _ _ heq)
      | (rename_i st1 x heq
         rw [basketAtomic_gap]
         exact fetchBasketQuotes_gap env _ _ _ _ heq)

/-! ## Claim C1 — ledger reconciliation invariant -/

/-- C1: for every participant, after any completed call to
`execute_order` or `execute_basket_order` (whether it returns ok=true
or ok=false), the stored `cash_balance` equals the sum of
`delta_amount` over all of that participant's `CashLedgerEntry` rows,
assuming the invariant held before the call: every mutation of
`cash_balance` inside either engine is accompanied by exactly one
appended ledger entry whose `delta_amount` equals the change
(−notional for BUY, +notional for SELL), so the gap between the two is
invariant across every execution path. -/
theorem C1_cash_ledger_reconciliation
    (env : Env) (st : SimState)
    (iid : ℕ) (side : OrderSide) (ot : OrderType) (q : ℤ) (lp : Option ℚ)
    (bn : String) (bside : OrderSide) (ta : ℚ) (pcts : List (ℕ × Option ℚ)) (iw : Bool)
    (hinv : st.participant.cashBalance = ledgerSum st.ledger) :
    (execute_order env st iid side ot q lp).1.participant.cashBalance =
        ledgerSum (execute_order env st iid side ot q lp).1.ledger ∧
    (execute_basket_order env st bn bside ta pcts iw).1.participant.cashBalance =
        ledgerSum (execute_basket_order env st bn bside ta pcts iw).1.ledger := by
  have h1 := execute_order_gap env st iid side ot q lp
  have h2 := execute_basket_order_gap env st bn bside ta pcts iw
  unfold cashLedgerGap at h1 h2
  constructor <;> linarith

/-! ## Concrete fixtures for witnesses and counterexamples -/

/-- A published standard competition with an open trading window. -/
def stdComp : Competition :=
  { status := .PUBLISHED, competitionType := .STANDARD, weekStartAt := 0,
    weekEndAt := 1000, maxSingleSymbolPct := none, maxSymbols := none,
    minSymbols := none, marketBuyPriceSource := "LAST", syntheticSpreadBps := none }

/-- One instrument (id 1, symbol "AAA") quoted at 100 as of t=500. -/
def env1 : Env :=
  { provider := fun i => if i = 1 then some { price := 100, asOf := 500 } else none,
    instruments := fun i => if i = 1 then some { symbol := "AAA" } else none,
    now := 500, maxQuoteAgeSeconds := 300 }

/-- An active participant with cash 1000 backed by a STARTING_CASH
ledger entry, holding nothing. -/
def st1000 : SimState :=
  { participant :=
      { status := .ACTIVE, startingCash := 1000, cashBalance := 1000,
        competition := stdComp },
    positions := [], quotes := fun _ => none, orders := [], fills := [],
    ledger := [{ deltaAmount := 1000, reason := .STARTING_CASH,
                 referenceId := none, memo := "" }],
    quoteFetchLog := [] }

/-- Witness for C1 at a concrete BUY order and a concrete one-symbol
basket, with the reconciliation hypothesis discharged by evaluation. -/
theorem C1_witness :
    st1000.participant.cashBalance = ledgerSum st1000.ledger ∧
    ((execute_order env1 st1000 1 .BUY .MARKET 2 none).1.participant.cashBalance =
        ledgerSum (execute_order env1 st1000 1 .BUY .MARKET 2 none).1.ledger ∧
      (execute_basket_order env1 st1000 "B" .SELL 100 [(1, some 100)] false).1.participant.cashBalance =
        ledgerSum (execute_basket_order env1 st1000 "B" .SELL 100 [(1, some 100)] false).1.ledger) :=
  ⟨by with_unfolding_all decide,
    C1_cash_ledger_reconciliation env1 st1000 1 .BUY .MARKET 2 none
      "B" .SELL 100 [(1, some 100)] false (by with_unfolding_all decide)⟩

/-! ## Claim C8 — pricing policy contract -/

/-- The C8 contract over a present last price `lp`, a spread `bps`,
and an arbitrary source string `src`. -/
def PricingPolicyContract (lp : ℚ) (bps : ℤ) (src : String) : Prop :=
  derive_price_from_source (some lp) PriceSource.LAST bps = .ok lp ∧
  derive_price_from_source (some lp) "" bps = .ok lp ∧
  (src ≠ PriceSource.LAST → src ≠ PriceSource.BID → src ≠ PriceSource.ASK →
    derive_price_from_source (some lp) src bps = .ok lp) ∧
  derive_price_from_source (some lp) PriceSource.BID bps =
    .ok (quantizePrice6 (lp * (1 - (bps : ℚ) / 10000))) ∧
  derive_price_from_source (some lp) PriceSource.ASK bps =
    .ok (quantizePrice6 (lp * (1 + (bps : ℚ) / 10000))) ∧
  (∀ lpq : Option ℚ, ∀ b : ℤ,
    (∃ e, derive_price_from_source lpq src b = Except.error e) ↔ (lpq = none ∨ b < 0))

/-- With a present last price and a non-negative spread the result is
always `.ok`. -/
theorem derive_price_isOk (x : ℚ) (src : String) (b : ℤ) (hb : ¬b < 0) :
    ∃ y, derive_price_from_source (some x) src b = .ok y := by
  simp only [derive_price_from_source]
  rw [if_neg hb]
  (repeat' split) <;> exact ⟨_, rfl⟩

/-- C8: for every non-negative `spread_bps` and present `last_price`,
`derive_price_from_source` returns the last price unchanged for source
LAST and for any unknown or unset source; returns
`last_price·(1 − bps/10000)` for BID and `last_price·(1 + bps/10000)`
for ASK, each quantized to 6 decimal places round-half-up; and it
raises an invalid-input error exactly when the last price is absent or
the spread is negative. -/
theorem C8_pricing_policy_contract (lp : ℚ) (bps : ℤ) (src : String)
    (hbps : 0 ≤ bps) : PricingPolicyContract lp bps src := by
  have hnn : ¬bps < 0 := not_lt.mpr hbps
  refine ⟨?_, ?_, ?_, ?_, ?_, ?_⟩
  · simp [derive_price_from_source, PriceSource.LAST, hnn]
  · simp [derive_price_from_source, PriceSource.LAST, hnn]
  · intro h1 h2 h3
    simp only [derive_price_from_source]
    rw [if_neg hnn]
    by_cases he : src = ""
    · simp [he, PriceSource.LAST]
    · simp [he, h1, h2, h3]
  · simp [derive_price_from_source, PriceSource.LAST, PriceSource.BID, hnn]
  · simp [derive_price_from_source, PriceSource.LAST, PriceSource.BID, PriceSource.ASK, hnn]
  · intro lpq b
    constructor
    · rintro ⟨e, he⟩
      cases lpq with
      | none => exact Or.inl rfl
      | some x =>
        by_cases hb : b < 0
        · exact Or.inr hb
        · obtain ⟨y, hy⟩ := derive_price_isOk x src b hb
          rw [hy] at he
          exact absurd he (by simp)
    · rintro (h | h)
      · subst h; exact ⟨_, rfl⟩
      · cases lpq with
        | none => exact ⟨_, rfl⟩
        | some x =>
          refine ⟨"synthetic_spread_bps must be >= 0", ?_⟩
          unfold derive_price_from_source
          dsimp only
          rw [if_pos h]

/-- Witness for C8 at spread 30 bp and an unknown source string. -/
theorem C8_witness : 0 ≤ (30 : ℤ) ∧ PricingPolicyContract 100 30 "MID" :=
  ⟨by decide, C8_pricing_policy_contract 100 30 "MID" (by decide)⟩

/-! ## Claim C9 — basket weight validation -/

/-- The percent total the validation loop accumulates. -/
def pctsSum (pcts : List (ℕ × Option ℚ)) : ℚ :=
  (pcts.map (fun p => p.2.getD 0)).sum

theorem parsePctLoop_missing (l : List (ℕ × Option ℚ)) :
    ∀ total acc, (∃ p ∈ l, p.2 = none) →
      (∀ p ∈ l, ∀ x, p.2 = some x → 0 < x) →
      parsePctLoop l total acc = .error "Missing percent." := by
  induction l with
  | nil => rintro total acc ⟨p, hp, -⟩ _; cases hp
  | cons hd tl ih =>
    rintro total acc ⟨p, hp, hnone⟩ hpos
    obtain ⟨iid, po⟩ := hd
    cases po with
    | none => rfl
    | some x =>
      have hx : 0 < x := hpos (iid, some x) (List.mem_cons_self _ _) x rfl
      have hmem : p ∈ tl := by
        rcases List.mem_cons.mp hp with h | h
        · exfalso; subst h; simp at hnone
        · exact h
      simp only [parsePctLoop, if_neg (not_le.mpr hx)]
      exact ih _ _ ⟨p, hmem, hnone⟩ (fun q hq => hpos q (List.mem_cons_of_mem _ hq))

theorem parsePctLoop_nonpos (l : List (ℕ × Option ℚ)) :
    ∀ total acc, (∀ p ∈ l, p.2 ≠ none) →
      (∃ p ∈ l, ∃ x, p.2 = some x ∧ x ≤ 0) →
      parsePctLoop l total acc = .error "Percent must be > 0 for each symbol." := by
  induction l with
  | nil => rintro total acc - ⟨p, hp, -⟩; cases hp
  | cons hd tl ih =>
    rintro total acc hsome ⟨p, hp, x, hx, hx0⟩
    obtain ⟨iid, po⟩ := hd
    cases po with
    | none => exact absurd rfl (hsome (iid, none) (List.mem_cons_self _ _))
    | some y =>
      by_cases hy : y ≤ 0
      · simp only [parsePctLoop, if_pos hy]
      · simp only [parsePctLoop, if_neg hy]
        have hmem : p ∈ tl := by
          rcases List.mem_cons.mp hp with h | h
          · exfalso
            subst h
            simp only [Option.some.injEq] at hx
            exact hy (hx ▸ hx0)
          · exact h
        exact ih _ _ (fun q hq => hsome q (List.mem_cons_of_mem _ hq)) ⟨p, hmem, x, hx, hx0⟩

theorem parsePctLoop_total (l : List (ℕ × Option ℚ)) :
    ∀ total acc, (∀ p ∈ l, ∀ x, p.2 = some x → 0 < x) →
      (∀ p ∈ l, p.2 ≠ none) →
      ∃ ws, parsePctLoop l total acc = .ok (total + pctsSum l, ws) := by
  induction l with
  | nil => intro total acc _ _; exact ⟨acc, by simp [parsePctLoop, pctsSum]⟩
  | cons hd tl ih =>
    intro total acc hpos hsome
    obtain ⟨iid, po⟩ := hd
    cases po with
    | none => exact absurd rfl (hsome (iid, none) (List.mem_cons_self _ _))
    | some x =>
      have hx : 0 < x := hpos (iid, some x) (List.mem_cons_self _ _) x rfl
      simp only [parsePctLoop, if_neg (not_le.mpr hx)]
      obtain ⟨ws, hws⟩ := ih (total + x) (acc ++ [(iid, x / 100)])
        (fun q hq => hpos q (List.mem_cons_of_mem _ hq))
        (fun q hq => hsome q (List.mem_cons_of_mem _ hq))
      refine ⟨ws, ?_⟩
      rw [hws]
      simp [pctsSum]
      ring_nf

/-- The C9 rejection shape: not-ok, reason `INVALID_ALLOCATIONS`, the
given message, and the state byte-for-byte unchanged (in particular no
quote row was inserted: `quoteFetchLog` is untouched). -/
def basketInvalidAllocOutcome (env : Env) (st : SimState) (bn : String)
    (side : OrderSide) (ta : ℚ) (pcts : List (ℕ × Option ℚ)) (msg : String) : Prop :=
  (execute_basket_order env st bn side ta pcts false).2.ok = false ∧
  (execute_basket_order env st bn side ta pcts false).2.meta =
    some BasketMeta.INVALID_ALLOCATIONS ∧
  (execute_basket_order env st bn side ta pcts false).2.message = msg ∧
  (execute_basket_order env st bn side ta pcts false).1 = st

theorem execute_basket_parse_error (env : Env) (st : SimState) (bn : String)
    (side : OrderSide) (ta : ℚ) (pcts : List (ℕ × Option ℚ)) (e : String)
    (hta : 0 < _quantize_money ta)
    (hp : _parse_pct_inputs pcts = .error e) :
    basketInvalidAllocOutcome env st bn side ta pcts e := by
  unfold basketInvalidAllocOutcome execute_basket_order
  rw [if_neg (not_le.mpr hta), hp]
  exact ⟨rfl, rfl, rfl, rfl⟩

/-- C9: `execute_basket_order` rejects with reason
`INVALID_ALLOCATIONS` whenever any input weight is missing or ≤ 0, or
the weights do not sum to exactly 100.00 under cent quantization, with
a message distinguishing the non-positive-weight case from the
wrong-sum case (and "Missing percent." for an absent weight); the
rejection leaves the state unchanged, so it happens before any quote
is fetched for any instrument. -/
theorem C9_basket_weight_validation (env : Env) (st : SimState) (bn : String)
    (side : OrderSide) (ta : ℚ) (pcts : List (ℕ × Option ℚ))
    (hta : 0 < _quantize_money ta) :
    ((∃ p ∈ pcts, p.2 = none) → (∀ p ∈ pcts, ∀ x, p.2 = some x → 0 < x) →
      basketInvalidAllocOutcome env st bn side ta pcts "Missing percent.") ∧
    ((∀ p ∈ pcts, p.2 ≠ none) → (∃ p ∈ pcts, ∃ x, p.2 = some x ∧ x ≤ 0) →
      basketInvalidAllocOutcome env st bn side ta pcts
        "Percent must be > 0 for each symbol.") ∧
    ((∀ p ∈ pcts, ∀ x, p.2 = some x → 0 < x) → (∀ p ∈ pcts, p.2 ≠ none) →
      _quantize_money (pctsSum pcts) ≠ _quantize_money 100 →
      basketInvalidAllocOutcome env st bn side ta pcts
        "Allocations must total 100%.") := by
  refine ⟨?_, ?_, ?_⟩
  · intro hnone hpos
    refine execute_basket_parse_error env st bn side ta pcts _ hta ?_
    unfold _parse_pct_inputs
    rw [parsePctLoop_missing pcts 0 [] hnone hpos]
  · intro hsome hbad
    refine execute_basket_parse_error env st bn side ta pcts _ hta ?_
    unfold _parse_pct_inputs
    rw [parsePctLoop_nonpos pcts 0 [] hsome hbad]
  · intro hpos hsome hsum
    refine execute_basket_parse_error env st bn side ta pcts _ hta ?_
    unfold _parse_pct_inputs
    obtain ⟨ws, hws⟩ := parsePctLoop_total pcts 0 [] hpos hsome
    rw [hws]
    (try dsimp only)
    rw [if_pos (show _quantize_money (0 + pctsSum pcts) ≠ _quantize_money 100 by simpa using hsum)]

/-- Witness for C9 at the spec's scenario: weights {A:60, B:30}
(sum 90) are rejected with the wrong-sum message and no quote fetch. -/
theorem C9_witness :
    (0 < _quantize_money 100 ∧
      _quantize_money (pctsSum [(1, some 60), (2, some 30)]) ≠ _quantize_money 100) ∧
    basketInvalidAllocOutcome env1 st1000 "B" .BUY 100 [(1, some 60), (2, some 30)]
      "Allocations must total 100%." :=
  ⟨⟨by with_unfolding_all decide, by with_unfolding_all decide⟩,
    (C9_basket_weight_validation env1 st1000 "B" .BUY 100 [(1, some 60), (2, some 30)]
      (by with_unfolding_all decide)).2.2
      (by intro p hp x hx; fin_cases hp <;> simp_all <;> exact hx ▸ (by norm_num))
      (by intro p hp; fin_cases hp <;> simp)
      (by with_unfolding_all decide)⟩

/-! ## Claim C3 — staleness handling

The source (lines 630–648) rejects unconditionally once staleness is
detected: the single refresh only replaces the quote recorded on the
rejected order (and the age embedded in the reason), it never averts
the rejection.  The claim's "if the refresh yields a quote within the
maximum age, execution proceeds toward a fill" is therefore false. -/

/-- A participant state whose cached quote for instrument 1 is 500s
old (stale against the 300s maximum), while the provider would return
a perfectly fresh quote. -/
def stStale : SimState :=
  { st1000 with quotes := fun i => if i = 1 then some { price := 90, asOf := 0 } else none }

/-- Counterexample to C3 as stated: the cached quote is stale, the
one refresh yields a quote of age 0 (within the maximum), every later
check would pass (marketable BUY limit, active participant, open
competition, ample cash) — yet the order is persisted REJECTED with
reason `QUOTE_STALE_0s` instead of proceeding to a fill. -/
theorem C3_counterexample :
    -- the cached quote is stale:
    stStale.quotes 1 = some { price := 90, asOf := 0 } ∧
    env1.maxQuoteAgeSeconds < env1.now - 0 ∧
    -- the refresh succeeds and is fresh (age 0 ≤ 300):
    env1.provider 1 = some { price := 100, asOf := 500 } ∧
    env1.now - 500 ≤ env1.maxQuoteAgeSeconds ∧
    -- yet the order is rejected as stale, with the post-refresh age:
    (execute_order env1 stStale 1 .BUY .LIMIT 1 (some 105)).2.ok = false ∧
    (execute_order env1 stStale 1 .BUY .LIMIT 1 (some 105)).2.order.rejectReason =
      "QUOTE_STALE_0s" ∧
    (execute_order env1 stStale 1 .BUY .LIMIT 1 (some 105)).2.fill = none := by
  with_unfolding_all decide

/-- C3 (amended): when the obtained quote's age exceeds the configured
maximum (here for a LIMIT order using the cached quote, with a
resolvable instrument), exactly one refresh is attempted — the fetch
log grows by exactly that instrument — and the order is always
persisted as REJECTED with reason `QUOTE_STALE_{seconds}s`, where the
seconds are recomputed from the refreshed quote when the refresh
succeeds; a refresh yielding a fresh quote does not avert the
rejection. -/
theorem C3_staleness_always_rejects (env : Env) (st : SimState) (iid : ℕ)
    (side : OrderSide) (q : ℤ) (lp : Option ℚ) (inst : Instrument) (q0 : Quote)
    (hq : st.quotes iid = some q0)
    (hstale : env.maxQuoteAgeSeconds < env.now - q0.asOf)
    (hinst : env.instruments iid = some inst) :
    (execute_order env st iid side .LIMIT q lp).2.ok = false ∧
    ((∃ q2, env.provider iid = some q2 ∧
        (execute_order env st iid side .LIMIT q lp).2.order.rejectReason =
          "QUOTE_STALE_" ++ toString (env.now - q2.asOf) ++ "s") ∨
      (env.provider iid = none ∧
        (execute_order env st iid side .LIMIT q lp).2.order.rejectReason =
          "QUOTE_STALE_" ++ toString (env.now - q0.asOf) ++ "s")) ∧
    (execute_order env st iid side .LIMIT q lp).1.quoteFetchLog =
      st.quoteFetchLog ++ [iid] := by
  have hacq : acquireQuote env st iid OrderType.LIMIT = (st, .got q0) := by
    unfold acquireQuote
    simp [hq]
  unfold execute_order
  rw [hacq]
  dsimp only
  cases hp : env.provider iid with
  | some q2 =>
    have hsr : stalenessRefresh env st iid q0 =
        ({ st with
            quotes := fun j => if j = iid then some q2 else st.quotes j,
            quoteFetchLog := st.quoteFetchLog ++ [iid] },
          .stale q2 (env.now - q2.asOf)) := by
      unfold stalenessRefresh fetch_and_store_latest_quote
      rw [if_pos hstale, hinst]
      dsimp only
      rw [hp]
    rw [hsr]
    dsimp only
    refine ⟨rfl, Or.inl ⟨q2, rfl, ?_⟩, ?_⟩ <;> simp [rejectOrder, persistOrder]
  | none =>
    have hsr : stalenessRefresh env st iid q0 =
        ({ st with quoteFetchLog := st.quoteFetchLog ++ [iid] },
          .stale q0 (env.now - q0.asOf)) := by
      unfold stalenessRefresh fetch_and_store_latest_quote
      rw [if_pos hstale, hinst]
      dsimp only
      rw [hp]
    rw [hsr]
    dsimp only
    refine ⟨rfl, Or.inr ⟨rfl, ?_⟩, ?_⟩ <;> simp [rejectOrder, persistOrder]

/-- Witness for the amended C3 at the counterexample's inputs. -/
theorem C3_witness :
    (stStale.quotes 1 = some { price := 90, asOf := 0 } ∧
      env1.maxQuoteAgeSeconds < env1.now - (0 : ℤ) ∧
      env1.instruments 1 = some { symbol := "AAA" }) ∧
    ((execute_order env1 stStale 1 .SELL .LIMIT 1 (some 80)).2.ok = false ∧
      ((∃ q2, env1.provider 1 = some q2 ∧
          (execute_order env1 stStale 1 .SELL .LIMIT 1 (some 80)).2.order.rejectReason =
            "QUOTE_STALE_" ++ toString (env1.now - q2.asOf) ++ "s") ∨
        (env1.provider 1 = none ∧
          (execute_order env1 stStale 1 .SELL .LIMIT 1 (some 80)).2.order.rejectReason =
            "QUOTE_STALE_" ++ toString (env1.now - (0:ℤ)) ++ "s")) ∧
      (execute_order env1 stStale 1 .SELL .LIMIT 1 (some 80)).1.quoteFetchLog =
        stStale.quoteFetchLog ++ [1]) :=
  ⟨⟨by with_unfolding_all decide, by with_unfolding_all decide,
      by with_unfolding_all decide⟩,
    C3_staleness_always_rejects env1 stStale 1 .SELL 1 (some 80)
      { symbol := "AAA" } { price := 90, asOf := 0 }
      (by with_unfolding_all decide) (by with_unfolding_all decide)
      (by with_unfolding_all decide)⟩

/-! ## Claim C2 — position-row invariant

Rejection paths that fire after the fetch-or-create step `return`
normally from the atomic block, committing the quantity-0 placeholder
row.  The claim's "no zero-quantity row is ever left persisted" is
therefore false; what holds is: rows never go negative, and a
successful call leaves every row strictly positive (a full SELL
deletes its zero row). -/

/-- The zero placeholder row for an instrument. -/
def placeholderRow (iid : ℕ) : PositionRow :=
  { instrumentId := iid, quantity := 0, avgCostBasis := 0 }

theorem findPosition_mem {ps : List PositionRow} {iid : ℕ} {p : PositionRow}
    (h : findPosition ps iid = some p) : p ∈ ps :=
  List.mem_of_find?_eq_some h

theorem findPosition_id {ps : List PositionRow} {iid : ℕ} {p : PositionRow}
    (h : findPosition ps iid = some p) : p.instrumentId = iid := by
  have := List.find?_some h
  simpa using this

theorem mem_updatePosition {ps : List PositionRow} {iid : ℕ}
    {f : PositionRow → PositionRow} {p : PositionRow}
    (h : p ∈ updatePosition ps iid f) :
    (∃ q ∈ ps, q.instrumentId = iid ∧ p = f q) ∨
      (p ∈ ps ∧ p.instrumentId ≠ iid) := by
  unfold updatePosition at h
  obtain ⟨q, hq, hpq⟩ := List.mem_map.mp h
  by_cases hid : q.instrumentId = iid
  · left
    exact ⟨q, hq, hid, by simpa [hid] using hpq.symm⟩
  · right
    have : p = q := by simpa [hid] using hpq.symm
    exact ⟨this ▸ hq, this ▸ hid⟩

theorem mem_deletePosition {ps : List PositionRow} {iid : ℕ} {p : PositionRow}
    (h : p ∈ deletePosition ps iid) : p ∈ ps ∧ p.instrumentId ≠ iid := by
  unfold deletePosition at h
  have := List.mem_filter.mp h
  refine ⟨this.1, ?_⟩
  simpa using this.2

theorem ensurePosition_spec (st : SimState) (iid : ℕ) :
    ((ensurePosition st iid).2 ∈ st.positions ∨
      (ensurePosition st iid).2 = placeholderRow iid) ∧
    (∀ p ∈ (ensurePosition st iid).1.positions,
      p ∈ st.positions ∨ p = placeholderRow iid) ∧
    (ensurePosition st iid).2.instrumentId = iid := by
  unfold ensurePosition placeholderRow
  cases h : findPosition st.positions iid with
  | some p =>
    exact ⟨Or.inl (findPosition_mem h), fun q hq => Or.inl hq, findPosition_id h⟩
  | none =>
    refine ⟨Or.inr rfl, fun q hq => ?_, rfl⟩
    rcases List.mem_append.mp hq with h1 | h1
    · exact Or.inl h1
    · simp at h1
      exact Or.inr h1

/-- The positions after the fill path: every row strictly positive,
given a positive order quantity, positivity of all non-traded rows,
non-negativity of the traded row on BUY, and sufficiency on SELL. -/
theorem fillAndSettle_positions_pos (env : Env) (st : SimState) (iid : ℕ)
    (side : OrderSide) (ot : OrderType) (q : ℤ) (lp : Option ℚ) (lq : Quote)
    (fp n : ℚ) (pos : PositionRow)
    (hq : 0 < q)
    (hothers : ∀ p ∈ st.positions, p.instrumentId ≠ iid → 0 < p.quantity)
    (hbuy : side = OrderSide.BUY → 0 ≤ pos.quantity)
    (hsell : side = OrderSide.SELL → q ≤ pos.quantity) :
    ∀ p ∈ (fillAndSettle env st iid side ot q lp lq fp n pos).1.positions,
      0 < p.quantity := by
  unfold fillAndSettle
  cases side with
  | BUY =>
    dsimp only
    intro p hp
    simp only [persistOrder] at hp
    rw [if_pos (by decide)] at hp
    dsimp only at hp
    rcases mem_updatePosition hp with ⟨r, hr, hrid, hpr⟩ | ⟨hpmem, hpid⟩
    · have hnq : (0:ℤ) < pos.quantity + q := by
        have := hbuy rfl
        omega
      subst hpr
      split <;> simp <;> omega
    · exact hothers p hpmem hpid
  | SELL =>
    dsimp only
    intro p hp
    simp only [persistOrder] at hp
    rw [if_neg (by decide)] at hp
    dsimp only at hp
    have hle : q ≤ pos.quantity := hsell rfl
    by_cases h0 : pos.quantity - q = 0
    · rw [if_pos h0] at hp
      dsimp only at hp
      have := mem_deletePosition hp
      exact hothers p this.1 this.2
    · rw [if_neg h0] at hp
      dsimp only at hp
      rcases mem_updatePosition hp with ⟨r, hr, hrid, hpr⟩ | ⟨hpmem, hpid⟩
      · subst hpr
        simp
        omega
      · exact hothers p hpmem hpid

/-- A `.fill` decision on the SELL side implies share sufficiency. -/
theorem atomicDecision_fill_sell (env : Env) (st : SimState) (iid : ℕ)
    (ot : OrderType) (q : ℤ) (lq : Quote) (fp0 n0 fp n : ℚ)
    (h : atomicDecision env st iid OrderSide.SELL ot q lq fp0 n0 = .fill fp n) :
    q ≤ existingQty st iid := by
  simp only [atomicDecision] at h
  (repeat' split at h) <;> simp_all

theorem rejectOrder_positions_eq (st : SimState) (iid : ℕ) (side : OrderSide)
    (ot : OrderType) (q : ℤ) (lp : Option ℚ) (sp : Option ℚ) (qa : Option ℤ)
    (r m : String) :
    (rejectOrder st iid side ot q lp sp qa r m).1.positions = st.positions := by
  simp [rejectOrder, persistOrder]

theorem rejectOrder_not_ok (st : SimState) (iid : ℕ) (side : OrderSide)
    (ot : OrderType) (q : ℤ) (lp : Option ℚ) (sp : Option ℚ) (qa : Option ℤ)
    (r m : String) :
    (rejectOrder st iid side ot q lp sp qa r m).2.ok = false := by
  simp [rejectOrder]

theorem ensurePosition_qty (st : SimState) (iid : ℕ) :
    (ensurePosition st iid).2.quantity = existingQty st iid := by
  unfold ensurePosition existingQty
  cases hf : findPosition st.positions iid <;> simp [hf]

theorem executeOrderAtomic_positions (env : Env) (st : SimState) (iid : ℕ)
    (side : OrderSide) (ot : OrderType) (q : ℤ) (lp : Option ℚ) (lq : Quote)
    (fp0 n0 : ℚ) (hq : 0 < q)
    (hpos : ∀ p ∈ st.positions, 0 < p.quantity) :
    (∀ p ∈ (executeOrderAtomic env st iid side ot q lp lq fp0 n0).1.positions,
      0 ≤ p.quantity) ∧
    ((executeOrderAtomic env st iid side ot q lp lq fp0 n0).2.ok = true →
      ∀ p ∈ (executeOrderAtomic env st iid side ot q lp lq fp0 n0).1.positions,
        0 < p.quantity) := by
  have hens := ensurePosition_spec st iid
  unfold executeOrderAtomic
  cases hd : atomicDecision env st iid side ot q lq fp0 n0 with
  | rejectEarly reason msg =>
    dsimp only
    refine ⟨fun p hp => ?_, fun hok => ?_⟩
    · simp only [persistOrder] at hp
      exact le_of_lt (hpos p hp)
    · simp [persistOrder] at hok
  | rejectChecked fp reason msg meta =>
    dsimp only
    refine ⟨fun p hp => ?_, fun hok => ?_⟩
    · simp only [persistOrder] at hp
      rcases hens.2.1 p hp with h | h
      · exact le_of_lt (hpos p h)
      · rw [h]; simp [placeholderRow]
    · simp [persistOrder] at hok
  | fill fp n =>
    dsimp only
    have hall : ∀ p ∈ (fillAndSettle env (ensurePosition st iid).1 iid side ot q lp
        lq fp n (ensurePosition st iid).2).1.positions, 0 < p.quantity := by
      refine fillAndSettle_positions_pos env _ iid side ot q lp lq fp n _ hq ?_ ?_ ?_
      · intro p hp hne
        rcases hens.2.1 p hp with h | h
        · exact hpos p h
        · exfalso; rw [h] at hne; exact hne rfl
      · intro _
        rcases hens.1 with h | h
        · exact le_of_lt (hpos _ h)
        · rw [h]; simp [placeholderRow]
      · intro hside
        subst hside
        rw [ensurePosition_qty]
        exact atomicDecision_fill_sell env st iid ot q lq fp0 n0 fp n hd
    exact ⟨fun p hp => le_of_lt (hall p hp), fun _ => hall⟩

theorem executeWithQuote_positions (env : Env) (st2 : SimState) (iid : ℕ)
    (side : OrderSide) (ot : OrderType) (q : ℤ) (lp : Option ℚ) (lq : Quote)
    (hq : 0 < q) (hpos : ∀ p ∈ st2.positions, 0 < p.quantity) :
    (∀ p ∈ (executeWithQuote env st2 iid side ot q lp lq).1.positions,
      0 ≤ p.quantity) ∧
    ((executeWithQuote env st2 iid side ot q lp lq).2.ok = true →
      ∀ p ∈ (executeWithQuote env st2 iid side ot q lp lq).1.positions,
        0 < p.quantity) := by
  unfold executeWithQuote
  dsimp only
  (repeat' split) <;>
    first
      | (refine ⟨fun p hp => ?_, fun hok => ?_⟩
         · rw [rejectOrder_positions_eq] at hp
           exact le_of_lt (hpos p hp)
         · rw [rejectOrder_not_ok] at hok
           simp at hok)
      | exact executeOrderAtomic_positions env st2 iid side ot q lp lq _ _ hq hpos

/-- The positions facts of `execute_order`: assuming a positive order
quantity and strictly positive rows before the call, rows stay
non-negative, and a successful call leaves every row strictly
positive. -/
theorem execute_order_positions (env : Env) (st0 : SimState) (iid : ℕ)
    (side : OrderSide) (ot : OrderType) (q : ℤ) (lp : Option ℚ)
    (hq : 0 < q) (hpos : ∀ p ∈ st0.positions, 0 < p.quantity) :
    (∀ p ∈ (execute_order env st0 iid side ot q lp).1.positions, 0 ≤ p.quantity) ∧
    ((execute_order env st0 iid side ot q lp).2.ok = true →
      ∀ p ∈ (execute_order env st0 iid side ot q lp).1.positions, 0 < p.quantity) := by
  unfold execute_order
  rcases ha : acquireQuote env st0 iid ot with ⟨st1, a⟩
  have hfa := acquireQuote_frame env st0 iid ot
  rw [ha] at hfa
  dsimp only at hfa
  have hpos1 : ∀ p ∈ st1.positions, 0 < p.quantity := by
    rw [hfa.2.2]; exact hpos
  cases a with
  | refreshFailed =>
    (try dsimp only)
    refine ⟨fun p hp => ?_, fun hok => ?_⟩
    · rw [rejectOrder_positions_eq] at hp
      exact le_of_lt (hpos1 p hp)
    · rw [rejectOrder_not_ok] at hok
      simp at hok
  | noQuote =>
    (try dsimp only)
    refine ⟨fun p hp => ?_, fun hok => ?_⟩
    · rw [rejectOrder_positions_eq] at hp
      exact le_of_lt (hpos1 p hp)
    · rw [rejectOrder_not_ok] at hok
      simp at hok
  | got q0 =>
    (try dsimp only)
    rcases hs : stalenessRefresh env st1 iid q0 with ⟨st2, s⟩
    have hfs := stalenessRefresh_frame env st1 iid q0
    rw [hs] at hfs
    dsimp only at hfs
    have hpos2 : ∀ p ∈ st2.positions, 0 < p.quantity := by
      rw [hfs.2.2]; exact hpos1
    cases s with
    | stale qq age =>
      (try dsimp only)
      refine ⟨fun p hp => ?_, fun hok => ?_⟩
      · rw [rejectOrder_positions_eq] at hp
        exact le_of_lt (hpos2 p hp)
      · rw [rejectOrder_not_ok] at hok
        simp at hok
    | fresh lq =>
      (try dsimp only)
      exact executeWithQuote_positions env st2 iid side ot q lp lq hq hpos2

theorem insertAsc_perm (n : ℕ) (l : List ℕ) : (insertAsc n l).Perm (n :: l) := by
  induction l with
  | nil => simp [insertAsc]
  | cons m ms ih =>
    unfold insertAsc
    split
    · exact List.Perm.refl _
    · exact (List.Perm.cons m ih).trans (List.Perm.swap n m ms)

theorem sortedKeys_perm (ws : List (ℕ × ℚ)) :
    (sortedKeys ws).Perm (ws.map Prod.fst) := by
  unfold sortedKeys
  induction ws with
  | nil => simp
  | cons w rest ih =>
    simp only [List.map_cons, List.foldr_cons]
    exact (insertAsc_perm w.1 _).trans (List.Perm.cons w.1 ih)

theorem sortedKeys_nodup (ws : List (ℕ × ℚ))
    (h : (ws.map Prod.fst).Nodup) : (sortedKeys ws).Nodup :=
  ((sortedKeys_perm ws).nodup_iff).mpr h

theorem parsePctLoop_keys (l : List (ℕ × Option ℚ)) :
    ∀ total acc t ws, parsePctLoop l total acc = .ok (t, ws) →
      ws.map Prod.fst = acc.map Prod.fst ++ l.map Prod.fst := by
  induction l with
  | nil =>
    intro total acc t ws h
    simp only [parsePctLoop] at h
    cases h
    simp
  | cons hd tl ih =>
    intro total acc t ws h
    obtain ⟨iid, po⟩ := hd
    cases po with
    | none => exact absurd h (by simp [parsePctLoop])
    | some x =>
      simp only [parsePctLoop] at h
      split at h
      · exact absurd h (by simp)
      · have := ih _ _ _ _ h
        simpa using this

theorem parse_pct_inputs_keys (pcts : List (ℕ × Option ℚ)) (ws : List (ℕ × ℚ))
    (h : _parse_pct_inputs pcts = .ok ws) :
    ws.map Prod.fst = pcts.map Prod.fst := by
  unfold _parse_pct_inputs at h
  rcases hl : parsePctLoop pcts 0 [] with e | tws
  · rw [hl] at h; cases h
  · obtain ⟨t, ws0⟩ := tws
    rw [hl] at h
    dsimp only at h
    split at h
    · cases h
    · cases h
      simpa using parsePctLoop_keys pcts 0 [] t _ hl

theorem computeBasketLegs_spec (env : Env) (side : OrderSide) (ta : ℚ)
    (ws : List (ℕ × ℚ)) (qs : List (ℕ × Quote)) (ids : List ℕ) :
    ∀ legs, computeBasketLegs env side ta ws qs ids = .ok legs →
      legs.map (·.instrumentId) = ids ∧ ∀ l ∈ legs, 1 ≤ l.quantity := by
  induction ids with
  | nil =>
    intro legs h
    simp only [computeBasketLegs] at h
    cases h
    simp
  | cons i rest ih =>
    intro legs h
    simp only [computeBasketLegs] at h
    split at h
    · cases h
    · split at h
      · cases h
      · rcases hr : computeBasketLegs env side ta ws qs rest with e | legs0
        · rw [hr] at h; cases h
        · rw [hr] at h
          dsimp only at h
          cases h
          obtain ⟨hmap, hqty⟩ := ih legs0 hr
          refine ⟨by simpa using hmap, ?_⟩
          intro l hl
          rcases List.mem_cons.mp hl with h1 | h1
          · subst h1
            dsimp only
            omega
          · exact hqty l h1

theorem createPlaceholders_mem (ids : List ℕ) : ∀ (st : SimState) (p : PositionRow),
    p ∈ (createPlaceholders st ids).positions →
      p ∈ st.positions ∨ ∃ i ∈ ids, p = placeholderRow i := by
  induction ids with
  | nil =>
    intro st p hp
    exact Or.inl hp
  | cons i rest ih =>
    intro st p hp
    unfold createPlaceholders at hp
    rcases hf : findPosition st.positions i with - | r
    · rw [hf] at hp
      dsimp only at hp
      rcases ih _ p hp with h | h
      · rcases List.mem_append.mp h with h1 | h1
        · exact Or.inl h1
        · simp only [List.mem_singleton] at h1
          exact Or.inr ⟨i, by simp, by simpa [placeholderRow] using h1⟩
      · obtain ⟨j, hj, hpj⟩ := h
        exact Or.inr ⟨j, List.mem_cons_of_mem _ hj, hpj⟩
    · rw [hf] at hp
      dsimp only at hp
      rcases ih _ p hp with h | h
      · exact Or.inl h
      · obtain ⟨j, hj, hpj⟩ := h
        exact Or.inr ⟨j, List.mem_cons_of_mem _ hj, hpj⟩

theorem findPosition_updatePosition_ne (ps : List PositionRow) (iid j : ℕ)
    (f : PositionRow → PositionRow)
    (hf : ∀ r, r.instrumentId = iid → (f r).instrumentId = r.instrumentId)
    (hne : j ≠ iid) :
    findPosition (updatePosition ps iid f) j = findPosition ps j := by
  induction ps with
  | nil => rfl
  | cons r rs ih =>
    have hstep : updatePosition (r :: rs) iid f =
        (if (r.instrumentId == iid) = true then f r else r) :: updatePosition rs iid f := by
      simp [updatePosition]
    rw [hstep]
    unfold findPosition
    by_cases hr : r.instrumentId = iid
    · rw [List.find?_cons_of_neg _ (by simp [hr, hf r hr, Ne.symm hne]),
        List.find?_cons_of_neg _ (by simp [hr, Ne.symm hne])]
      exact ih
    · have hsame : (if (r.instrumentId == iid) = true then f r else r) = r := by
        simp [hr]
      rw [hsame]
      by_cases hj : r.instrumentId = j
      · rw [List.find?_cons_of_pos _ (by simp [hj]),
          List.find?_cons_of_pos _ (by simp [hj])]
      · rw [List.find?_cons_of_neg _ (by simp [hj]),
          List.find?_cons_of_neg _ (by simp [hj])]
        exact ih

theorem findPosition_deletePosition_ne (ps : List PositionRow) (iid j : ℕ)
    (hne : j ≠ iid) :
    findPosition (deletePosition ps iid) j = findPosition ps j := by
  induction ps with
  | nil => rfl
  | cons r rs ih =>
    have hstep : deletePosition (r :: rs) iid =
        if (r.instrumentId != iid) = true then r :: deletePosition rs iid
        else deletePosition rs iid := by
      simp [deletePosition, List.filter_cons]
    rw [hstep]
    by_cases hr : r.instrumentId = iid
    · rw [if_neg (by simp [hr])]
      rw [ih]
      unfold findPosition
      rw [List.find?_cons_of_neg _ (by simp [hr, Ne.symm hne])]
    · rw [if_pos (by simp [hr])]
      unfold findPosition
      by_cases hj : r.instrumentId = j
      · rw [List.find?_cons_of_pos _ (by simp [hj]),
          List.find?_cons_of_pos _ (by simp [hj])]
      · rw [List.find?_cons_of_neg _ (by simp [hj]),
          List.find?_cons_of_neg _ (by simp [hj])]
        exact ih

theorem getD_findPosition_qty (st : SimState) (i : ℕ) :
    ((findPosition st.positions i).getD
      { instrumentId := i, quantity := 0, avgCostBasis := 0 }).quantity =
      existingQty st i := by
  unfold existingQty
  cases hf : findPosition st.positions i <;> simp

theorem getD_findPosition_id (st : SimState) (i : ℕ) :
    ((findPosition st.positions i).getD
      { instrumentId := i, quantity := 0, avgCostBasis := 0 }).instrumentId = i := by
  cases hf : findPosition st.positions i with
  | none => simp
  | some p => simpa using findPosition_id hf

theorem existingQty_nonneg (st : SimState) (i : ℕ)
    (hnn : ∀ p ∈ st.positions, 0 ≤ p.quantity) : 0 ≤ existingQty st i := by
  unfold existingQty
  cases hf : findPosition st.positions i with
  | none => simp
  | some p => simpa using hnn p (findPosition_mem hf)

theorem applyBasketLeg_mem_buy (env : Env) (bn : String) (qs : List (ℕ × Quote))
    (st : SimState) (l : BasketExecutionLeg) (p : PositionRow)
    (hp : p ∈ (applyBasketLeg env bn OrderSide.BUY qs st l).1.positions) :
    (p.instrumentId = l.instrumentId ∧
      p.quantity = existingQty st l.instrumentId + l.quantity) ∨
    (p ∈ st.positions ∧ p.instrumentId ≠ l.instrumentId) := by
  unfold applyBasketLeg at hp
  simp only [persistOrder] at hp
  rw [if_pos (by decide)] at hp
  dsimp only at hp
  rcases mem_updatePosition hp with ⟨r, hr, hrid, hpr⟩ | ⟨hpm, hpid⟩
  · left
    subst hpr
    constructor
    · split <;> simpa using getD_findPosition_id st l.instrumentId
    · split <;> simpa using congrArg (· + l.quantity) (getD_findPosition_qty st l.instrumentId)
  · exact Or.inr ⟨hpm, hpid⟩

theorem applyBasketLeg_mem_sell (env : Env) (bn : String) (qs : List (ℕ × Quote))
    (st : SimState) (l : BasketExecutionLeg) (p : PositionRow)
    (hp : p ∈ (applyBasketLeg env bn OrderSide.SELL qs st l).1.positions) :
    (p.instrumentId = l.instrumentId ∧
      p.quantity = existingQty st l.instrumentId - l.quantity ∧ p.quantity ≠ 0) ∨
    (p ∈ st.positions ∧ p.instrumentId ≠ l.instrumentId) := by
  unfold applyBasketLeg at hp
  simp only [persistOrder] at hp
  rw [if_neg (by decide)] at hp
  dsimp only at hp
  split at hp
  · dsimp only at hp
    exact Or.inr (mem_deletePosition hp)
  · dsimp only at hp
    rcases mem_updatePosition hp with ⟨r, hr, hrid, hpr⟩ | ⟨hpm, hpid⟩
    · left
      subst hpr
      refine ⟨hrid, ?_, ?_⟩
      · simpa using congrArg (· - l.quantity) (getD_findPosition_qty st l.instrumentId)
      · have h0 : ((findPosition st.positions l.instrumentId).getD
            (placeholderRow l.instrumentId)).quantity - l.quantity ≠ 0 := by
          rename_i hcond
          simpa [placeholderRow] using hcond
        simpa [placeholderRow] using h0
    · exact Or.inr ⟨hpm, hpid⟩

theorem applyBasketLeg_find_ne (env : Env) (bn : String) (side : OrderSide)
    (qs : List (ℕ × Quote)) (st : SimState) (l : BasketExecutionLeg) (j : ℕ)
    (hne : j ≠ l.instrumentId) :
    findPosition (applyBasketLeg env bn side qs st l).1.positions j =
      findPosition st.positions j := by
  unfold applyBasketLeg
  simp only [persistOrder]
  cases side with
  | BUY =>
    rw [if_pos (by decide)]
    dsimp only
    exact findPosition_updatePosition_ne _ _ _ _
      (fun r hr => by
        split <;> (rw [hr]; simpa using getD_findPosition_id st l.instrumentId)) hne
  | SELL =>
    rw [if_neg (by decide)]
    dsimp only
    split
    · dsimp only
      exact findPosition_deletePosition_ne _ _ _ hne
    · dsimp only
      exact findPosition_updatePosition_ne _ _ _ _ (fun r _ => rfl) hne

theorem sellSharesCheck_congr (st st2 : SimState) : ∀ legs : List BasketExecutionLeg,
    (∀ l ∈ legs, findPosition st2.positions l.instrumentId =
      findPosition st.positions l.instrumentId) →
    sellSharesCheck st2 legs = sellSharesCheck st legs := by
  intro legs
  induction legs with
  | nil => intro _; rfl
  | cons l rest ih =>
    intro h
    unfold sellSharesCheck
    rw [h l (List.mem_cons_self _ _)]
    cases findPosition st.positions l.instrumentId with
    | none => rfl
    | some pos =>
      dsimp only
      split
      · rfl
      · split
        · rfl
        · exact ih (fun q hq => h q (List.mem_cons_of_mem _ hq))

theorem executeBasketLegs_buy_pos (env : Env) (bn : String) (qs : List (ℕ × Quote)) :
    ∀ (legs : List BasketExecutionLeg) (st : SimState),
    (∀ l ∈ legs, 1 ≤ l.quantity) →
    (legs.map (·.instrumentId)).Nodup →
    (∀ p ∈ st.positions, 0 ≤ p.quantity) →
    (∀ p ∈ st.positions, 0 < p.quantity ∨ p.instrumentId ∈ legs.map (·.instrumentId)) →
    ∀ p ∈ (executeBasketLegs env bn OrderSide.BUY qs st legs).1.positions,
      0 < p.quantity := by
  intro legs
  induction legs with
  | nil =>
    intro st _ _ _ hmix p hp
    unfold executeBasketLegs at hp
    rcases hmix p hp with h | h
    · exact h
    · simp at h
  | cons l rest ih =>
    intro st hq hnd hnn hmix p hp
    unfold executeBasketLegs at hp
    dsimp only at hp
    have hnd2 := (by simpa using hnd :
      (∀ x ∈ rest, ¬x.instrumentId = l.instrumentId) ∧
        (rest.map (·.instrumentId)).Nodup)
    refine ih (applyBasketLeg env bn OrderSide.BUY qs st l).1 ?_ ?_ ?_ ?_ p hp
    · exact fun l2 h2 => hq l2 (List.mem_cons_of_mem _ h2)
    · exact hnd2.2
    · intro r hr
      rcases applyBasketLeg_mem_buy env bn qs st l r hr with ⟨-, hqty⟩ | ⟨hm, -⟩
      · have h1 := existingQty_nonneg st l.instrumentId hnn
        have h2 := hq l (List.mem_cons_self _ _)
        omega
      · exact hnn r hm
    · intro r hr
      rcases applyBasketLeg_mem_buy env bn qs st l r hr with ⟨-, hqty⟩ | ⟨hm, hid⟩
      · left
        have h1 := existingQty_nonneg st l.instrumentId hnn
        have h2 := hq l (List.mem_cons_self _ _)
        omega
      · rcases hmix r hm with h | h
        · exact Or.inl h
        · right
          simp only [List.map_cons, List.mem_cons] at h
          rcases h with h | h
          · exact absurd h hid
          · simpa using h

theorem executeBasketLegs_sell_pos (env : Env) (bn : String) (qs : List (ℕ × Quote)) :
    ∀ (legs : List BasketExecutionLeg) (st : SimState),
    (legs.map (·.instrumentId)).Nodup →
    (∀ p ∈ st.positions, 0 < p.quantity) →
    sellSharesCheck st legs = none →
    ∀ p ∈ (executeBasketLegs env bn OrderSide.SELL qs st legs).1.positions,
      0 < p.quantity := by
  intro legs
  induction legs with
  | nil =>
    intro st _ hpos _ p hp
    unfold executeBasketLegs at hp
    exact hpos p hp
  | cons l rest ih =>
    intro st hnd hpos hck p hp
    unfold sellSharesCheck at hck
    rcases hfind : findPosition st.positions l.instrumentId with - | pos
    · rw [hfind] at hck; cases hck
    · rw [hfind] at hck
      dsimp only at hck
      split at hck
      · cases hck
      · split at hck
        · cases hck
        · rename_i hq0 hlt
          unfold executeBasketLegs at hp
          dsimp only at hp
          have hEx : existingQty st l.instrumentId = pos.quantity := by
            unfold existingQty
            rw [hfind]
            rfl
          have hnd2 := (by simpa using hnd :
            (∀ x ∈ rest, ¬x.instrumentId = l.instrumentId) ∧
              (rest.map (·.instrumentId)).Nodup)
          refine ih (applyBasketLeg env bn OrderSide.SELL qs st l).1 ?_ ?_ ?_ p hp
          · exact hnd2.2
          · intro r hr
            rcases applyBasketLeg_mem_sell env bn qs st l r hr with ⟨-, hqe, hq0'⟩ | ⟨hm, -⟩
            · rw [hEx] at hqe
              omega
            · exact hpos r hm
          · rw [sellSharesCheck_congr st _ rest ?_]
            · exact hck
            · intro l2 h2
              refine applyBasketLeg_find_ne env bn OrderSide.SELL qs st l l2.instrumentId ?_
              exact hnd2.1 l2 h2

theorem basketDecision_execute (env : Env) (st : SimState) (side : OrderSide)
    (ta : ℚ) (ws : List (ℕ × ℚ)) (ids : List ℕ) (qs : List (ℕ × Quote)) (iw : Bool)
    (legs : List BasketExecutionLeg)
    (h : basketDecision env st side ta ws ids qs iw = .execute legs) :
    computeBasketLegs env side ta ws qs ids = .ok legs ∧
    (side = OrderSide.SELL → sellSharesCheck st legs = none) := by
  simp only [basketDecision] at h
  (repeat' split at h) <;> simp_all

theorem basketAtomic_positions (env : Env) (st : SimState) (bn : String)
    (side : OrderSide) (ta : ℚ) (ws : List (ℕ × ℚ)) (ids : List ℕ)
    (qs : List (ℕ × Quote)) (iw : Bool)
    (hpos : ∀ p ∈ st.positions, 0 < p.quantity)
    (hnd : ids.Nodup) :
    (∀ p ∈ (basketAtomic env st bn side ta ws ids qs iw).1.positions,
      0 ≤ p.quantity) ∧
    ((basketAtomic env st bn side ta ws ids qs iw).2.ok = true →
      ∀ p ∈ (basketAtomic env st bn side ta ws ids qs iw).1.positions,
        0 < p.quantity) := by
  have hcp : ∀ p ∈ (if side = OrderSide.BUY then createPlaceholders st ids else st).positions,
      p ∈ st.positions ∨ ∃ i ∈ ids, p = placeholderRow i := by
    split
    · exact fun p hp => createPlaceholders_mem ids st p hp
    · exact fun p hp => Or.inl hp
  unfold basketAtomic
  cases hd : basketDecision env st side ta ws ids qs iw with
  | rejectPre msg m =>
    dsimp only
    refine ⟨fun p hp => le_of_lt (hpos p hp), fun hok => by simp at hok⟩
  | rejectPost msg m =>
    dsimp only
    refine ⟨fun p hp => ?_, fun hok => by simp at hok⟩
    rcases hcp p hp with h | ⟨i, -, hpi⟩
    · exact le_of_lt (hpos p h)
    · rw [hpi]; simp [placeholderRow]
  | execute legs =>
    dsimp only
    obtain ⟨hlegs, hsell⟩ := basketDecision_execute env st side ta ws ids qs iw legs hd
    obtain ⟨hmap, hq1⟩ := computeBasketLegs_spec env side ta ws qs ids legs hlegs
    have hall : ∀ p ∈ (executeBasketLegs env bn side qs
        (if side = OrderSide.BUY then createPlaceholders st ids else st) legs).1.positions,
        0 < p.quantity := by
      cases side with
      | BUY =>
        rw [if_pos rfl]
        refine executeBasketLegs_buy_pos env bn qs legs (createPlaceholders st ids)
          hq1 (by rw [hmap]; exact hnd) ?_ ?_
        · intro p hp
          rcases createPlaceholders_mem ids st p hp with h | ⟨i, -, hpi⟩
          · exact le_of_lt (hpos p h)
          · rw [hpi]; simp [placeholderRow]
        · intro p hp
          rcases createPlaceholders_mem ids st p hp with h | ⟨i, hi, hpi⟩
          · exact Or.inl (hpos p h)
          · right
            rw [hmap, hpi]
            simpa [placeholderRow] using hi
      | SELL =>
        rw [if_neg (by decide)]
        exact executeBasketLegs_sell_pos env bn qs legs st
          (by rw [hmap]; exact hnd) hpos (hsell rfl)
    exact ⟨fun p hp => le_of_lt (hall p hp), fun _ => hall⟩

/-- The positions facts of `execute_basket_order`: with distinct
instrument ids and strictly positive rows before the call, rows stay
non-negative, and a successful call leaves every row strictly
positive. -/
theorem execute_basket_order_positions (env : Env) (st0 : SimState) (bn : String)
    (side : OrderSide) (ta : ℚ) (pcts : List (ℕ × Option ℚ)) (iw : Bool)
    (hpos : ∀ p ∈ st0.positions, 0 < p.quantity)
    (hnd : (pcts.map Prod.fst).Nodup) :
    (∀ p ∈ (execute_basket_order env st0 bn side ta pcts iw).1.positions,
      0 ≤ p.quantity) ∧
    ((execute_basket_order env st0 bn side ta pcts iw).2.ok = true →
      ∀ p ∈ (execute_basket_order env st0 bn side ta pcts iw).1.positions,
        0 < p.quantity) := by
  unfold execute_basket_order
  dsimp only
  split
  · exact ⟨fun p hp => le_of_lt (hpos p hp), fun hok => by simp at hok⟩
  · rcases hpr : _parse_pct_inputs pcts with e | ws
    · dsimp only
      exact ⟨fun p hp => le_of_lt (hpos p hp), fun hok => by simp at hok⟩
    · dsimp only
      split
      · exact ⟨fun p hp => le_of_lt (hpos p hp), fun hok => by simp at hok⟩
      · have hwnd : (sortedKeys ws).Nodup := by
          apply sortedKeys_nodup
          rw [parse_pct_inputs_keys pcts ws hpr]
          exact hnd
        rcases hfq : fetchBasketQuotes env st0 (sortedKeys ws) with ⟨st1, r⟩
        have hfr := fetchBasketQuotes_frame env (sortedKeys ws) st0
        rw [hfq] at hfr
        dsimp only at hfr
        have hpos1 : ∀ p ∈ st1.positions, 0 < p.quantity := by
          rw [hfr.2.2]; exact hpos
        cases r with
        | error iid =>
          dsimp only
          exact ⟨fun p hp => le_of_lt (hpos1 p hp), fun hok => by simp at hok⟩
        | ok qs =>
          dsimp only
          exact basketAtomic_positions env st1 bn side (_quantize_money ta) ws
            (sortedKeys ws) qs iw hpos1 hwnd

/-- Counterexample to C2 as stated: a BUY for a not-yet-held
instrument that is rejected (here by the 33% concentration rule)
leaves a persisted `Position` row with quantity 0 behind — the
rejection `return`s normally from the atomic block, committing the
placeholder created by the fetch-or-create step. -/
theorem C2_counterexample :
    (execute_order env1 st1000 1 .BUY .MARKET 5 none).2.ok = false ∧
    (execute_order env1 st1000 1 .BUY .MARKET 5 none).2.order.status =
      OrderStatus.REJECTED ∧
    st1000.positions = [] ∧
    (execute_order env1 st1000 1 .BUY .MARKET 5 none).1.positions =
      [{ instrumentId := 1, quantity := 0, avgCostBasis := 0 }] := by
  with_unfolding_all decide

/-- The amended C2 outcome for one order call and one basket call:
rows never go negative, and a successful call leaves every persisted
row strictly positive (a full SELL deletes its zero row rather than
keeping it). -/
def PositionRowsOutcome (env : Env) (st : SimState) (iid : ℕ) (side : OrderSide)
    (ot : OrderType) (q : ℤ) (lp : Option ℚ) (bn : String) (bside : OrderSide)
    (ta : ℚ) (pcts : List (ℕ × Option ℚ)) (iw : Bool) : Prop :=
  ((∀ p ∈ (execute_order env st iid side ot q lp).1.positions, 0 ≤ p.quantity) ∧
    ((execute_order env st iid side ot q lp).2.ok = true →
      ∀ p ∈ (execute_order env st iid side ot q lp).1.positions, 0 < p.quantity)) ∧
  ((∀ p ∈ (execute_basket_order env st bn bside ta pcts iw).1.positions,
      0 ≤ p.quantity) ∧
    ((execute_basket_order env st bn bside ta pcts iw).2.ok = true →
      ∀ p ∈ (execute_basket_order env st bn bside ta pcts iw).1.positions,
        0 < p.quantity))

/-- C2 (amended): assuming a positive order quantity, distinct basket
instrument ids, and strictly positive position rows before the call,
every persisted row still has quantity ≥ 0 after any completed call
to either engine, and after a call that returns ok=true every row has
quantity > 0 (a row reaching 0 on a full SELL is deleted).  Rejected
calls may leave a quantity-0 placeholder row for the traded
instrument(s) — see the counterexample. -/
theorem C2_position_rows (env : Env) (st : SimState)
    (iid : ℕ) (side : OrderSide) (ot : OrderType) (q : ℤ) (lp : Option ℚ)
    (bn : String) (bside : OrderSide) (ta : ℚ) (pcts : List (ℕ × Option ℚ)) (iw : Bool)
    (hq : 0 < q)
    (hpos : ∀ p ∈ st.positions, 0 < p.quantity)
    (hnd : (pcts.map Prod.fst).Nodup) :
    PositionRowsOutcome env st iid side ot q lp bn bside ta pcts iw :=
  ⟨execute_order_positions env st iid side ot q lp hq hpos,
    execute_basket_order_positions env st bn bside ta pcts iw hpos hnd⟩

/-- Witness for the amended C2: a filled BUY of 2 shares at 100 and a
one-leg 100% SELL basket (rejected on the standard 33% cap), from a
clean state. -/
theorem C2_witness :
    (0 < (2:ℤ) ∧ (∀ p ∈ st1000.positions, 0 < p.quantity) ∧
      (([(1, some (100:ℚ))].map Prod.fst).Nodup)) ∧
    PositionRowsOutcome env1 st1000 1 .BUY .MARKET 2 none "B" .SELL 100
      [(1, some 100)] false :=
  ⟨⟨by decide, by intro p hp; simp [st1000] at hp, by decide⟩,
    C2_position_rows env1 st1000 1 .BUY .MARKET 2 none "B" .SELL 100
      [(1, some 100)] false (by decide)
      (by intro p hp; simp [st1000] at hp) (by decide)⟩

/-! ## Claim C5 — concentration boundary -/

theorem roundHalfUp_int (k : ℤ) : roundHalfUp (k : ℚ) = k := by
  unfold roundHalfUp
  split
  · rw [show ((k : ℚ) + 1/2) = (k : ℚ) + (1/2 : ℚ) from rfl]
    rw [Int.floor_int_add]
    norm_num
  · rw [show (-(k : ℚ) + 1/2) = ((-k : ℤ) : ℚ) + (1/2 : ℚ) by push_cast; ring]
    rw [Int.floor_int_add]
    norm_num

/-- The difference of two cent-quantized values is already
cent-quantized. -/
theorem quantize_money_sub_quantize (x y : ℚ) :
    _quantize_money (_quantize_money x - _quantize_money y) =
      _quantize_money x - _quantize_money y := by
  unfold _quantize_money
  have h : (((roundHalfUp (x * 100) : ℚ) / 100 - (roundHalfUp (y * 100) : ℚ) / 100) * 100) =
      ((roundHalfUp (x * 100) - roundHalfUp (y * 100) : ℤ) : ℚ) := by
    push_cast
    ring
  rw [h, roundHalfUp_int]
  push_cast
  ring

/-- `fillAndSettle` always returns ok. -/
theorem fillAndSettle_ok (env : Env) (st : SimState) (iid : ℕ) (side : OrderSide)
    (ot : OrderType) (q : ℤ) (lp : Option ℚ) (lq : Quote) (fp n : ℚ)
    (pos : PositionRow) :
    (fillAndSettle env st iid side ot q lp lq fp n pos).2.ok = true := by
  unfold fillAndSettle
  rfl

/-- The atomic decision for a BUY in a standard competition with an
active participant and an open window: either the concentration
rejection (when the projected value strictly exceeds the cap), or the
cash rejection, or a fill at the incoming price and notional. -/
theorem atomicDecision_standard_buy (env : Env) (st : SimState) (iid : ℕ)
    (ot : OrderType) (q : ℤ) (lq : Quote) (fp0 n0 : ℚ)
    (hact : st.participant.status = ParticipantStatus.ACTIVE)
    (hpub : st.participant.competition.status = CompetitionStatus.PUBLISHED)
    (hwin : st.participant.competition.weekStartAt ≤ env.now ∧
      env.now ≤ st.participant.competition.weekEndAt)
    (hstd : st.participant.competition.competitionType = CompetitionType.STANDARD)
    (hE : 0 < orderTotalEquity st iid fp0) :
    atomicDecision env st iid OrderSide.BUY ot q lq fp0 n0 =
      (if _quantize_money (orderTotalEquity st iid fp0 * MAX_SINGLE_BUY_PCT) <
          _quantize_money (fp0 * ((existingQty st iid + q : ℤ) : ℚ)) then
        .rejectChecked fp0 "POSITION_SIZE_LIMIT_33PCT"
          "Single stock purchases cannot exceed the competition max % of your total equity."
          (some (concMeta env st iid q fp0 n0 (orderTotalEquity st iid fp0)
            MAX_SINGLE_BUY_PCT))
      else if st.participant.cashBalance < n0 then
        .rejectChecked fp0 "INSUFFICIENT_CASH" "Insufficient cash." none
      else .fill fp0 n0) := by
  have hrp : repriceForBuy st.participant.competition OrderSide.BUY ot lq q fp0 n0 =
      (fp0, n0) := by
    unfold repriceForBuy
    rw [if_neg (by simp [hstd])]
  have hmp : concMaxPct st.participant.competition = some MAX_SINGLE_BUY_PCT := by
    unfold concMaxPct
    rw [if_neg (by simp [hstd])]
  have hcra : concRuleApplies st.participant.competition = true := by
    unfold concRuleApplies
    rw [if_neg (by simp [hstd])]
  have hdf : decFieldTruthy (some MAX_SINGLE_BUY_PCT) = true := by
    unfold decFieldTruthy MAX_SINGLE_BUY_PCT
    norm_num
  simp only [atomicDecision]
  rw [if_neg (by simp [hact]), if_neg (by simp [hpub, hwin.1, hwin.2]), hrp]
  dsimp only
  rw [if_pos trivial]
  rw [if_neg (by simp [hstd])]
  rw [hmp, hcra, hdf]
  dsimp only [Option.getD_some]
  by_cases hgt : _quantize_money (orderTotalEquity st iid fp0 * MAX_SINGLE_BUY_PCT) <
      _quantize_money (fp0 * ((existingQty st iid + q : ℤ) : ℚ))
  · rw [if_pos ⟨hE, rfl, rfl, hgt⟩, if_pos hgt, if_pos (by simp [hstd])]
  · rw [if_neg (by rintro ⟨-, -, -, h⟩; exact hgt h), if_neg hgt]

/-- The atomic decision for any BUY that gets past the early checks
and the ADVANCED max-symbols gate, with the concentration rule in
force (`concRuleApplies`, truthy cap percentage): either the
concentration rejection with the competition-type-dependent reason,
or the cash rejection, or a fill — all at the repriced price and
notional (`repriceForBuy` is the identity except for ADVANCED MARKET
BUYs). -/
theorem atomicDecision_buy_conc (env : Env) (st : SimState) (iid : ℕ)
    (ot : OrderType) (q : ℤ) (lq : Quote) (fp0 n0 : ℚ)
    (hact : st.participant.status = ParticipantStatus.ACTIVE)
    (hpub : st.participant.competition.status = CompetitionStatus.PUBLISHED)
    (hwin : st.participant.competition.weekStartAt ≤ env.now ∧
      env.now ≤ st.participant.competition.weekEndAt)
    (hnomax : ¬(st.participant.competition.competitionType = CompetitionType.ADVANCED ∧
      natFieldTruthy st.participant.competition.maxSymbols = true ∧
      existingQty st iid ≤ 0 ∧
      st.participant.competition.maxSymbols.getD 0 ≤ (heldPositions st.positions).length))
    (hE : 0 < orderTotalEquity st iid
      (repriceForBuy st.participant.competition OrderSide.BUY ot lq q fp0 n0).1)
    (happl : concRuleApplies st.participant.competition = true)
    (htr : decFieldTruthy (concMaxPct st.participant.competition) = true) :
    atomicDecision env st iid OrderSide.BUY ot q lq fp0 n0 =
      (if _quantize_money (orderTotalEquity st iid
            (repriceForBuy st.participant.competition OrderSide.BUY ot lq q fp0 n0).1 *
            (concMaxPct st.participant.competition).getD 0) <
          _quantize_money ((repriceForBuy st.participant.competition OrderSide.BUY ot lq q
            fp0 n0).1 * ((existingQty st iid + q : ℤ) : ℚ)) then
        .rejectChecked
          (repriceForBuy st.participant.competition OrderSide.BUY ot lq q fp0 n0).1
          (if st.participant.competition.competitionType ≠ CompetitionType.ADVANCED ∧
              (concMaxPct st.participant.competition).getD 0 = MAX_SINGLE_BUY_PCT then
            "POSITION_SIZE_LIMIT_33PCT" else "POSITION_SIZE_LIMIT_MAX_PCT")
          "Single stock purchases cannot exceed the competition max % of your total equity."
          (some (concMeta env st iid q
            (repriceForBuy st.participant.competition OrderSide.BUY ot lq q fp0 n0).1
            (repriceForBuy st.participant.competition OrderSide.BUY ot lq q fp0 n0).2
            (orderTotalEquity st iid
              (repriceForBuy st.participant.competition OrderSide.BUY ot lq q fp0 n0).1)
            ((concMaxPct st.participant.competition).getD 0)))
      else if st.participant.cashBalance <
          (repriceForBuy st.participant.competition OrderSide.BUY ot lq q fp0 n0).2 then
        .rejectChecked
          (repriceForBuy st.participant.competition OrderSide.BUY ot lq q fp0 n0).1
          "INSUFFICIENT_CASH" "Insufficient cash." none
      else .fill
        (repriceForBuy st.participant.competition OrderSide.BUY ot lq q fp0 n0).1
        (repriceForBuy st.participant.competition OrderSide.BUY ot lq q fp0 n0).2) := by
  simp only [atomicDecision]
  rw [if_neg (by simp [hact]), if_neg (by simp [hpub, hwin.1, hwin.2])]
  rw [if_pos trivial, if_neg hnomax]
  by_cases hgt : _quantize_money (orderTotalEquity st iid
      (repriceForBuy st.participant.competition OrderSide.BUY ot lq q fp0 n0).1 *
      (concMaxPct st.participant.competition).getD 0) <
      _quantize_money ((repriceForBuy st.participant.competition OrderSide.BUY ot lq q
        fp0 n0).1 * ((existingQty st iid + q : ℤ) : ℚ))
  · rw [if_pos ⟨hE, happl, htr, hgt⟩, if_pos hgt]
  · rw [if_neg (by rintro ⟨-, -, -, h⟩; exact hgt h), if_neg hgt]

/-- C5: in the atomic section of `execute_order` (active participant,
published competition, open window, past the ADVANCED max-symbols
gate, positive total equity, concentration rule in force), a BUY
whose projected position value (fill price × (existing + bought
quantity), quantized to cents) is at the cap (total equity × max
percentage, quantized to cents) — in particular exactly equal to
it — is not rejected for concentration and fills when cash suffices;
a BUY whose projected value strictly exceeds the cap is rejected with
reason `POSITION_SIZE_LIMIT_33PCT` (standard competitions at the 33%
default) or `POSITION_SIZE_LIMIT_MAX_PCT` (otherwise), and its meta
payload's `over_limit_value` equals projected value minus cap and is
strictly positive.  Prices and notional are the engine's repriced
values (`repriceForBuy` is the identity except for ADVANCED MARKET
BUYs). -/
theorem C5_concentration_boundary (env : Env) (st : SimState) (iid : ℕ)
    (ot : OrderType) (q : ℤ) (lp : Option ℚ) (lq : Quote) (fp0 n0 : ℚ)
    (hact : st.participant.status = ParticipantStatus.ACTIVE)
    (hpub : st.participant.competition.status = CompetitionStatus.PUBLISHED)
    (hwin : st.participant.competition.weekStartAt ≤ env.now ∧
      env.now ≤ st.participant.competition.weekEndAt)
    (hnomax : ¬(st.participant.competition.competitionType = CompetitionType.ADVANCED ∧
      natFieldTruthy st.participant.competition.maxSymbols = true ∧
      existingQty st iid ≤ 0 ∧
      st.participant.competition.maxSymbols.getD 0 ≤ (heldPositions st.positions).length))
    (hE : 0 < orderTotalEquity st iid
      (repriceForBuy st.participant.competition OrderSide.BUY ot lq q fp0 n0).1)
    (happl : concRuleApplies st.participant.competition = true)
    (htr : decFieldTruthy (concMaxPct st.participant.competition) = true) :
    (_quantize_money ((repriceForBuy st.participant.competition OrderSide.BUY ot lq q fp0
          n0).1 * ((existingQty st iid + q : ℤ) : ℚ)) ≤
        _quantize_money (orderTotalEquity st iid
          (repriceForBuy st.participant.competition OrderSide.BUY ot lq q fp0 n0).1 *
          (concMaxPct st.participant.competition).getD 0) →
      (repriceForBuy st.participant.competition OrderSide.BUY ot lq q fp0 n0).2 ≤
        st.participant.cashBalance →
      (executeOrderAtomic env st iid OrderSide.BUY ot q lp lq fp0 n0).2.ok = true) ∧
    (_quantize_money (orderTotalEquity st iid
          (repriceForBuy st.participant.competition OrderSide.BUY ot lq q fp0 n0).1 *
          (concMaxPct st.participant.competition).getD 0) <
        _quantize_money ((repriceForBuy st.participant.competition OrderSide.BUY ot lq q
          fp0 n0).1 * ((existingQty st iid + q : ℤ) : ℚ)) →
      (executeOrderAtomic env st iid OrderSide.BUY ot q lp lq fp0 n0).2.ok = false ∧
      ((executeOrderAtomic env st iid OrderSide.BUY ot q lp lq fp0
            n0).2.order.rejectReason = "POSITION_SIZE_LIMIT_33PCT" ∧
          st.participant.competition.competitionType ≠ CompetitionType.ADVANCED ∧
          (concMaxPct st.participant.competition).getD 0 = MAX_SINGLE_BUY_PCT ∨
        (executeOrderAtomic env st iid OrderSide.BUY ot q lp lq fp0
            n0).2.order.rejectReason = "POSITION_SIZE_LIMIT_MAX_PCT" ∧
          ¬(st.participant.competition.competitionType ≠ CompetitionType.ADVANCED ∧
            (concMaxPct st.participant.competition).getD 0 = MAX_SINGLE_BUY_PCT)) ∧
      ∃ m, (executeOrderAtomic env st iid OrderSide.BUY ot q lp lq fp0 n0).2.meta =
          some m ∧
        m.overLimitValue =
          _quantize_money ((repriceForBuy st.participant.competition OrderSide.BUY ot lq q
            fp0 n0).1 * ((existingQty st iid + q : ℤ) : ℚ)) -
            _quantize_money (orderTotalEquity st iid
              (repriceForBuy st.participant.competition OrderSide.BUY ot lq q fp0 n0).1 *
              (concMaxPct st.participant.competition).getD 0) ∧
        0 < m.overLimitValue) := by
  have hd := atomicDecision_buy_conc env st iid ot q lq fp0 n0 hact hpub hwin hnomax hE
    happl htr
  constructor
  · intro hle hcash
    unfold executeOrderAtomic
    rw [hd, if_neg (not_lt.mpr hle), if_neg (not_lt.mpr hcash)]
    exact fillAndSettle_ok _ _ _ _ _ _ _ _ _ _ _
  · intro hgt
    unfold executeOrderAtomic
    rw [hd, if_pos hgt]
    dsimp only
    refine ⟨rfl, ?_, ?_⟩
    · by_cases hr : st.participant.competition.competitionType ≠ CompetitionType.ADVANCED ∧
          (concMaxPct st.participant.competition).getD 0 = MAX_SINGLE_BUY_PCT
      · left
        refine ⟨?_, hr.1, hr.2⟩
        rw [if_pos hr]
        simp [persistOrder]
      · right
        refine ⟨?_, hr⟩
        rw [if_neg hr]
        simp [persistOrder]
    · refine ⟨_, rfl, ?_, ?_⟩
      · unfold concMeta
        dsimp only
        exact quantize_money_sub_quantize _ _
      · unfold concMeta
        dsimp only
        rw [quantize_money_sub_quantize]
        linarith

/-- An advanced competition with the per-symbol cap at 50% (and no
max-symbols setting, so the concentration rule stays in force). -/
def advCompC5 : Competition :=
  { stdComp with competitionType := .ADVANCED, maxSingleSymbolPct := some (1/2) }

/-- `st1000` under `advCompC5`. -/
def stAdvC5 : SimState :=
  { st1000 with participant := { st1000.participant with competition := advCompC5 } }

/-- Witness for C5 in both competition types.  Standard (`st1000`,
equity 1000, cap 330): a BUY of 3 shares at 110 lands exactly on the
cap and fills, 4 shares project 440 and are rejected.  Advanced
(`stAdvC5`, cap 50% of 1000 = 500): a LIMIT BUY of 5 shares at 100
lands exactly on the cap and fills, 6 shares project 600 and are
rejected. -/
theorem C5_witness :
    (executeOrderAtomic env1 st1000 1 OrderSide.BUY OrderType.MARKET 3 none
        { price := 110, asOf := 500 } 110 330).2.ok = true ∧
    (executeOrderAtomic env1 st1000 1 OrderSide.BUY OrderType.MARKET 4 none
        { price := 110, asOf := 500 } 110 440).2.ok = false ∧
    (executeOrderAtomic env1 stAdvC5 1 OrderSide.BUY OrderType.LIMIT 5 (some 100)
        { price := 100, asOf := 500 } 100 500).2.ok = true ∧
    (executeOrderAtomic env1 stAdvC5 1 OrderSide.BUY OrderType.LIMIT 6 (some 100)
        { price := 100, asOf := 500 } 100 600).2.ok = false := by
  refine ⟨?_, ?_, ?_, ?_⟩
  · exact (C5_concentration_boundary env1 st1000 1 OrderType.MARKET 3 none
      { price := 110, asOf := 500 } 110 330 (by decide) (by decide)
      ⟨by decide, by decide⟩ (by with_unfolding_all decide)
      (by with_unfolding_all decide) (by with_unfolding_all decide)
      (by with_unfolding_all decide)).1
      (by with_unfolding_all decide) (by with_unfolding_all decide)
  · exact ((C5_concentration_boundary env1 st1000 1 OrderType.MARKET 4 none
      { price := 110, asOf := 500 } 110 440 (by decide) (by decide)
      ⟨by decide, by decide⟩ (by with_unfolding_all decide)
      (by with_unfolding_all decide) (by with_unfolding_all decide)
      (by with_unfolding_all decide)).2
      (by with_unfolding_all decide)).1
  · exact (C5_concentration_boundary env1 stAdvC5 1 OrderType.LIMIT 5 (some 100)
      { price := 100, asOf := 500 } 100 500 (by decide) (by decide)
      ⟨by decide, by decide⟩ (by with_unfolding_all decide)
      (by with_unfolding_all decide) (by with_unfolding_all decide)
      (by with_unfolding_all decide)).1
      (by with_unfolding_all decide) (by with_unfolding_all decide)
  · exact ((C5_concentration_boundary env1 stAdvC5 1 OrderType.LIMIT 6 (some 100)
      { price := 100, asOf := 500 } 100 600 (by decide) (by decide)
      ⟨by decide, by decide⟩ (by with_unfolding_all decide)
      (by with_unfolding_all decide) (by with_unfolding_all decide)
      (by with_unfolding_all decide)).2
      (by with_unfolding_all decide)).1

/-! ## Claim C6 — the concentration-rule disable condition

The `max_symbols < 3` disable of the concentration rule is evaluated
only inside the ADVANCED branch of the rule; a STANDARD competition
always has the 33% rule on, whatever its `max_symbols` says. -/

/-- A standard competition whose `max_symbols` is 2. -/
def stdCompMS2 : Competition := { stdComp with maxSymbols := some 2 }

/-- `st1000` under `stdCompMS2`. -/
def stMS2 : SimState :=
  { st1000 with participant := { st1000.participant with competition := stdCompMS2 } }

/-- C6 counterexample: a STANDARD competition with `max_symbols = 2`
(set and below 3) still rejects an oversized BUY with
`POSITION_SIZE_LIMIT_33PCT`, so the disable condition does not cover
standard competitions. -/
theorem C6_counterexample :
    natFieldTruthy stMS2.participant.competition.maxSymbols = true ∧
    stMS2.participant.competition.maxSymbols.getD 0 < 3 ∧
    (execute_order env1 stMS2 1 OrderSide.BUY OrderType.MARKET 5 none).2.ok = false ∧
    (execute_order env1 stMS2 1 OrderSide.BUY OrderType.MARKET 5 none).2.order.rejectReason =
      "POSITION_SIZE_LIMIT_33PCT" := by
  with_unfolding_all decide

theorem concRuleApplies_advanced_lt3 (c : Competition)
    (hadv : c.competitionType = CompetitionType.ADVANCED)
    (hms : natFieldTruthy c.maxSymbols = true) (hlt : c.maxSymbols.getD 0 < 3) :
    concRuleApplies c = false := by
  unfold concRuleApplies
  rw [if_pos hadv]
  simp [hms, hlt]

theorem string_append_data (s t : String) : (s ++ t).data = s.data ++ t.data := by
  cases s
  cases t
  rfl

/-- A staleness reason (which starts with `'Q'`) can never equal a
string starting with `'P'`. -/
theorem quote_stale_reason_ne (x : String) (t : String) (ht : t.data.head? = some 'P') :
    "QUOTE_STALE_" ++ x ++ "s" ≠ t := by
  intro hcon
  have hd := congrArg (fun s : String => s.data.head?) hcon
  dsimp only at hd
  rw [string_append_data, string_append_data] at hd
  rw [show ("QUOTE_STALE_" : String).data = 'Q' :: ("UOTE_STALE_" : String).data from rfl] at hd
  rw [ht] at hd
  simp only [List.cons_append, List.head?_cons, Option.some.injEq] at hd
  exact absurd hd (by decide)

/-- `fillAndSettle` always persists an empty reject reason. -/
theorem fillAndSettle_rejectReason (env : Env) (st : SimState) (iid : ℕ) (side : OrderSide)
    (ot : OrderType) (q : ℤ) (lp : Option ℚ) (lq : Quote) (fp n : ℚ)
    (pos : PositionRow) :
    (fillAndSettle env st iid side ot q lp lq fp n pos).2.order.rejectReason = "" := by
  unfold fillAndSettle
  rfl

/-- The pre-position-fetch rejections carry one of two reasons. -/
theorem atomicDecision_early_reason (env : Env) (st : SimState) (iid : ℕ)
    (side : OrderSide) (ot : OrderType) (q : ℤ) (lq : Quote) (fp0 n0 : ℚ) (r m : String)
    (hd : atomicDecision env st iid side ot q lq fp0 n0 = .rejectEarly r m) :
    r = "PARTICIPANT_NOT_ACTIVE" ∨ r = "COMPETITION_NOT_ACTIVE" := by
  simp only [atomicDecision] at hd
  repeat' split at hd <;> (try simp_all)

/-- With the concentration rule off, the post-fetch rejections carry
one of three reasons — never a `POSITION_SIZE_LIMIT_*`. -/
theorem atomicDecision_checked_reason (env : Env) (st : SimState) (iid : ℕ)
    (side : OrderSide) (ot : OrderType) (q : ℤ) (lq : Quote) (fp0 n0 fp : ℚ)
    (r m : String) (mt : Option ConcLimitMeta)
    (h : concRuleApplies st.participant.competition = false)
    (hd : atomicDecision env st iid side ot q lq fp0 n0 = .rejectChecked fp r m mt) :
    r = "MAX_SYMBOLS_EXCEEDED" ∨ r = "INSUFFICIENT_CASH" ∨ r = "INSUFFICIENT_SHARES" := by
  simp only [atomicDecision] at hd
  repeat' split at hd <;> (try simp_all)

theorem executeOrderAtomic_no_conc_reason (env : Env) (st : SimState) (iid : ℕ)
    (side : OrderSide) (ot : OrderType) (q : ℤ) (lp : Option ℚ) (lq : Quote) (fp0 n0 : ℚ)
    (h : concRuleApplies st.participant.competition = false) :
    (executeOrderAtomic env st iid side ot q lp lq fp0 n0).2.order.rejectReason ≠
        "POSITION_SIZE_LIMIT_33PCT" ∧
      (executeOrderAtomic env st iid side ot q lp lq fp0 n0).2.order.rejectReason ≠
        "POSITION_SIZE_LIMIT_MAX_PCT" := by
  unfold executeOrderAtomic
  split
  · rename_i r m hd
    rcases atomicDecision_early_reason env st iid side ot q lq fp0 n0 r m hd with h1 | h1 <;>
      subst h1 <;> simp [persistOrder]
  · rename_i fp r m mt hd
    rcases atomicDecision_checked_reason env st iid side ot q lq fp0 n0 fp r m mt h hd with
      h1 | h1 | h1 <;> subst h1 <;> simp [persistOrder]
  · simp [fillAndSettle_rejectReason]

theorem executeWithQuote_no_conc_reason (env : Env) (st2 : SimState) (iid : ℕ)
    (side : OrderSide) (ot : OrderType) (q : ℤ) (lp : Option ℚ) (lq : Quote)
    (h : concRuleApplies st2.participant.competition = false) :
    (executeWithQuote env st2 iid side ot q lp lq).2.order.rejectReason ≠
        "POSITION_SIZE_LIMIT_33PCT" ∧
      (executeWithQuote env st2 iid side ot q lp lq).2.order.rejectReason ≠
        "POSITION_SIZE_LIMIT_MAX_PCT" := by
  simp only [executeWithQuote]
  repeat' split
  any_goals simp [rejectOrder, persistOrder]
  exact executeOrderAtomic_no_conc_reason env st2 iid side ot q lp lq lq.price
    (_quantize_money (lq.price * (q : ℚ))) h

theorem execute_order_no_conc_reason (env : Env) (st0 : SimState) (iid : ℕ)
    (side : OrderSide) (ot : OrderType) (q : ℤ) (lp : Option ℚ)
    (h : concRuleApplies st0.participant.competition = false) :
    (execute_order env st0 iid side ot q lp).2.order.rejectReason ≠
        "POSITION_SIZE_LIMIT_33PCT" ∧
      (execute_order env st0 iid side ot q lp).2.order.rejectReason ≠
        "POSITION_SIZE_LIMIT_MAX_PCT" := by
  rcases ha : acquireQuote env st0 iid ot with ⟨st1, racq⟩
  obtain ⟨hap, -, -⟩ := acquireQuote_frame env st0 iid ot
  rw [ha] at hap
  dsimp only at hap
  unfold execute_order
  rw [ha]
  cases racq with
  | refreshFailed => simp [rejectOrder, persistOrder]
  | noQuote => simp [rejectOrder, persistOrder]
  | got q0 =>
    dsimp only
    rcases hs : stalenessRefresh env st1 iid q0 with ⟨st2, rst⟩
    obtain ⟨hsp, -, -⟩ := stalenessRefresh_frame env st1 iid q0
    rw [hs] at hsp
    dsimp only at hsp
    cases rst with
    | stale q2 age =>
      dsimp only
      exact ⟨quote_stale_reason_ne (toString age) _ (by decide),
        quote_stale_reason_ne (toString age) _ (by decide)⟩
    | fresh latest_quote =>
      dsimp only
      exact executeWithQuote_no_conc_reason env st2 iid side ot q lp latest_quote
        (by rw [hsp, hap]; exact h)

/-- The leg-computation loop never errors with a
`POSITION_SIZE_LIMIT` meta. -/
theorem computeBasketLegs_ne_conc (env : Env) (side : OrderSide) (ta : ℚ)
    (ws : List (ℕ × ℚ)) (qs : List (ℕ × Quote)) (sym : String) (over mp te : ℚ) :
    ∀ ids : List ℕ, computeBasketLegs env side ta ws qs ids ≠
      .error (BasketMeta.POSITION_SIZE_LIMIT sym over mp te) := by
  intro ids
  induction ids with
  | nil => simp [computeBasketLegs]
  | cons i rest ih =>
    intro hcon
    simp only [computeBasketLegs] at hcon
    repeat' split at hcon <;> simp_all

/-- The SELL share check never reports a `POSITION_SIZE_LIMIT` meta. -/
theorem sellSharesCheck_ne_conc (st : SimState) (sym : String) (over mp te : ℚ) :
    ∀ legs : List BasketExecutionLeg, sellSharesCheck st legs ≠
      some (BasketMeta.POSITION_SIZE_LIMIT sym over mp te) := by
  intro legs
  induction legs with
  | nil => simp [sellSharesCheck]
  | cons l rest ih =>
    intro hcon
    simp only [sellSharesCheck] at hcon
    repeat' split at hcon <;> simp_all

/-- With the concentration rule off, no basket rejection carries a
`POSITION_SIZE_LIMIT` meta. -/
theorem basketDecision_no_conc_meta (env : Env) (st : SimState) (side : OrderSide)
    (ta : ℚ) (ws : List (ℕ × ℚ)) (ids : List ℕ) (qs : List (ℕ × Quote)) (icw : Bool)
    (h : concRuleApplies st.participant.competition = false)
    (sym : String) (over mp te : ℚ) :
    (∀ msg, basketDecision env st side ta ws ids qs icw ≠
        .rejectPre msg (BasketMeta.POSITION_SIZE_LIMIT sym over mp te)) ∧
    (∀ msg, basketDecision env st side ta ws ids qs icw ≠
        .rejectPost msg (BasketMeta.POSITION_SIZE_LIMIT sym over mp te)) := by
  have hleg := computeBasketLegs_ne_conc env side ta ws qs sym over mp te ids
  have hsell := sellSharesCheck_ne_conc st sym over mp te
  constructor <;> intro msg hcon <;>
    (simp only [basketDecision] at hcon; repeat' split at hcon) <;> simp_all

theorem basketAtomic_no_conc_meta (env : Env) (st : SimState) (bn : String)
    (side : OrderSide) (ta : ℚ) (ws : List (ℕ × ℚ)) (ids : List ℕ)
    (qs : List (ℕ × Quote)) (icw : Bool)
    (h : concRuleApplies st.participant.competition = false)
    (sym : String) (over mp te : ℚ) :
    (basketAtomic env st bn side ta ws ids qs icw).2.meta ≠
      some (BasketMeta.POSITION_SIZE_LIMIT sym over mp te) := by
  obtain ⟨hpre, hpost⟩ :=
    basketDecision_no_conc_meta env st side ta ws ids qs icw h sym over mp te
  unfold basketAtomic
  split
  · rename_i msg m hd
    dsimp only
    intro hcon
    simp only [Option.some.injEq] at hcon
    subst hcon
    exact hpre msg hd
  · rename_i msg m hd
    dsimp only
    intro hcon
    simp only [Option.some.injEq] at hcon
    subst hcon
    exact hpost msg hd
  · dsimp only
    simp

theorem execute_basket_no_conc_meta (env : Env) (st0 : SimState) (bn : String)
    (side : OrderSide) (ta0 : ℚ) (pcts : List (ℕ × Option ℚ)) (icw : Bool)
    (h : concRuleApplies st0.participant.competition = false)
    (sym : String) (over mp te : ℚ) :
    (execute_basket_order env st0 bn side ta0 pcts icw).2.meta ≠
      some (BasketMeta.POSITION_SIZE_LIMIT sym over mp te) := by
  simp only [execute_basket_order]
  by_cases h1 : _quantize_money ta0 ≤ 0
  · rw [if_pos h1]
    simp
  · rw [if_neg h1]
    rcases hp : _parse_pct_inputs pcts with e | ws
    · dsimp only
      simp
    · dsimp only
      by_cases hm : (sortedKeys ws).filter (fun iid => (env.instruments iid).isNone) ≠ []
      · rw [if_pos hm]
        simp
      · rw [if_neg hm]
        rcases hfq : fetchBasketQuotes env st0 (sortedKeys ws) with ⟨st1, rfq⟩
        have hf := (fetchBasketQuotes_frame env (sortedKeys ws) st0).1
        rw [hfq] at hf
        dsimp only at hf
        try rw [hfq]
        cases rfq with
        | error i2 =>
          dsimp only
          simp
        | ok qs2 =>
          dsimp only
          exact basketAtomic_no_conc_meta env st1 bn side _ ws (sortedKeys ws) qs2 icw
            (by rw [hf]; exact h) sym over mp te

/-- C6: the `max_symbols < 3` disable of the equity-concentration
rule applies only to ADVANCED competitions.  For every ADVANCED
competition whose max-symbols setting is set (truthy) and below 3, no
order — and no basket — is ever rejected for the concentration rule:
`execute_order` never returns reject reason `POSITION_SIZE_LIMIT_33PCT`
or `POSITION_SIZE_LIMIT_MAX_PCT`, and `execute_basket_order` never
returns a `POSITION_SIZE_LIMIT` meta.  (For STANDARD competitions the
setting is ignored — see the counterexample.) -/
theorem C6_conc_rule_disable (env : Env) (st : SimState) (iid : ℕ) (side : OrderSide)
    (ot : OrderType) (q : ℤ) (lp : Option ℚ) (bn : String) (bside : OrderSide)
    (ta : ℚ) (pcts : List (ℕ × Option ℚ)) (icw : Bool)
    (hadv : st.participant.competition.competitionType = CompetitionType.ADVANCED)
    (hms : natFieldTruthy st.participant.competition.maxSymbols = true)
    (hlt : st.participant.competition.maxSymbols.getD 0 < 3) :
    ((execute_order env st iid side ot q lp).2.order.rejectReason ≠
        "POSITION_SIZE_LIMIT_33PCT" ∧
      (execute_order env st iid side ot q lp).2.order.rejectReason ≠
        "POSITION_SIZE_LIMIT_MAX_PCT") ∧
    ∀ sym over mp te,
      (execute_basket_order env st bn bside ta pcts icw).2.meta ≠
        some (BasketMeta.POSITION_SIZE_LIMIT sym over mp te) := by
  have h := concRuleApplies_advanced_lt3 st.participant.competition hadv hms hlt
  exact ⟨execute_order_no_conc_reason env st iid side ot q lp h,
    fun sym over mp te => execute_basket_no_conc_meta env st bn bside ta pcts icw h sym over mp te⟩

/-- An advanced competition whose `max_symbols` is 2. -/
def advCompMS2 : Competition :=
  { stdComp with competitionType := .ADVANCED, maxSymbols := some 2 }

/-- `st1000` under `advCompMS2`. -/
def stAdvMS2 : SimState :=
  { st1000 with participant := { st1000.participant with competition := advCompMS2 } }

/-- Witness for C6: under the advanced 2-symbol competition, an
oversized BUY and a 50% one-leg basket never see a concentration
rejection. -/
theorem C6_witness :
    ((execute_order env1 stAdvMS2 1 OrderSide.BUY OrderType.MARKET 5 none).2.order.rejectReason ≠
        "POSITION_SIZE_LIMIT_33PCT" ∧
      (execute_order env1 stAdvMS2 1 OrderSide.BUY OrderType.MARKET 5 none).2.order.rejectReason ≠
        "POSITION_SIZE_LIMIT_MAX_PCT") ∧
    ∀ sym over mp te,
      (execute_basket_order env1 stAdvMS2 "B" OrderSide.BUY 500 [(1, some 100)] false).2.meta ≠
        some (BasketMeta.POSITION_SIZE_LIMIT sym over mp te) :=
  C6_conc_rule_disable env1 stAdvMS2 1 OrderSide.BUY OrderType.MARKET 5 none "B"
    OrderSide.BUY 500 [(1, some 100)] false (by decide) (by decide) (by decide)

/-! ## Claim C7 — the BUY/SELL round-trip law -/

theorem quantize_money_zero : _quantize_money 0 = 0 := by
  norm_num [_quantize_money, roundHalfUp]

theorem fetch_some (env : Env) (st : SimState) (iid : ℕ) (qt : Quote)
    (hprov : env.provider iid = some qt) :
    fetch_and_store_latest_quote env st iid =
      ({ st with quotes := fun j => if j = iid then some qt else st.quotes j,
                 quoteFetchLog := st.quoteFetchLog ++ [iid] }, some qt) := by
  unfold fetch_and_store_latest_quote
  rw [hprov]

/-- A MARKET order's quote acquisition with a live provider: the forced
refresh succeeds and returns the provider's quote. -/
theorem acquireQuote_market (env : Env) (st : SimState) (iid : ℕ) (qt : Quote)
    (hinst : (env.instruments iid).isSome = true)
    (hprov : env.provider iid = some qt) :
    acquireQuote env st iid OrderType.MARKET =
      ((fetch_and_store_latest_quote env st iid).1, .got qt) := by
  simp only [acquireQuote]
  rw [if_pos ⟨trivial, hinst⟩, fetch_some env st iid qt hprov]

theorem stalenessRefresh_fresh (env : Env) (st : SimState) (iid : ℕ) (qt : Quote)
    (hfresh : env.now - qt.asOf ≤ env.maxQuoteAgeSeconds) :
    stalenessRefresh env st iid qt = (st, .fresh qt) := by
  simp only [stalenessRefresh]
  rw [if_neg (not_lt.mpr hfresh)]

theorem executeWithQuote_market (env : Env) (st2 : SimState) (iid : ℕ)
    (side : OrderSide) (q : ℤ) (lq : Quote) :
    executeWithQuote env st2 iid side OrderType.MARKET q none lq =
      executeOrderAtomic env st2 iid side OrderType.MARKET q none lq lq.price
        (_quantize_money (lq.price * (q : ℚ))) := by
  simp only [executeWithQuote]
  rw [if_neg (by simp), if_neg (by simp), if_neg (by simp)]

/-- A fresh-quoted MARKET order runs straight into the atomic section
at the provider quote's price. -/
theorem execute_order_market_pipeline (env : Env) (st0 : SimState) (iid : ℕ)
    (side : OrderSide) (q : ℤ) (qt : Quote)
    (hinst : (env.instruments iid).isSome = true)
    (hprov : env.provider iid = some qt)
    (hfresh : env.now - qt.asOf ≤ env.maxQuoteAgeSeconds) :
    execute_order env st0 iid side OrderType.MARKET q none =
      executeOrderAtomic env (fetch_and_store_latest_quote env st0 iid).1 iid side
        OrderType.MARKET q none qt qt.price (_quantize_money (qt.price * (q : ℚ))) := by
  unfold execute_order
  rw [acquireQuote_market env st0 iid qt hinst hprov]
  dsimp only
  rw [stalenessRefresh_fresh env _ iid qt hfresh]
  dsimp only
  rw [executeWithQuote_market]

/-- SELL orders with enough shares pass the atomic validations at the
incoming price and notional. -/
theorem atomicDecision_sell_fill (env : Env) (st : SimState) (iid : ℕ)
    (ot : OrderType) (q : ℤ) (lq : Quote) (fp0 n0 : ℚ)
    (hact : st.participant.status = ParticipantStatus.ACTIVE)
    (hpub : st.participant.competition.status = CompetitionStatus.PUBLISHED)
    (hwin : st.participant.competition.weekStartAt ≤ env.now ∧
      env.now ≤ st.participant.competition.weekEndAt)
    (hqty : q ≤ existingQty st iid) :
    atomicDecision env st iid OrderSide.SELL ot q lq fp0 n0 = .fill fp0 n0 := by
  have hrp : repriceForBuy st.participant.competition OrderSide.SELL ot lq q fp0 n0 =
      (fp0, n0) := by
    unfold repriceForBuy
    rw [if_neg (by simp)]
  simp only [atomicDecision]
  rw [if_neg (by simp [hact]), if_neg (by simp [hpub, hwin.1, hwin.2]), hrp]
  dsimp only
  rw [if_neg (by simp : ¬OrderSide.SELL = OrderSide.BUY), if_neg (not_lt.mpr hqty)]

/-- A first BUY (no prior positions) that clears the concentration and
cash checks: it fills, cash drops by the cent-quantized notional, and
the one resulting position row holds `q` shares at average cost
`price·q/q`. -/
theorem executeOrderAtomic_buy_empty_facts (env : Env) (st : SimState) (iid : ℕ)
    (q : ℤ) (qt : Quote)
    (hact : st.participant.status = ParticipantStatus.ACTIVE)
    (hpub : st.participant.competition.status = CompetitionStatus.PUBLISHED)
    (hwin : st.participant.competition.weekStartAt ≤ env.now ∧
      env.now ≤ st.participant.competition.weekEndAt)
    (hstd : st.participant.competition.competitionType = CompetitionType.STANDARD)
    (hpos : st.positions = [])
    (hq : 0 < q)
    (hcash0 : 0 < st.participant.cashBalance)
    (hcap : _quantize_money (qt.price * (q : ℚ)) ≤
      _quantize_money (st.participant.cashBalance * MAX_SINGLE_BUY_PCT))
    (hcash : _quantize_money (qt.price * (q : ℚ)) ≤ st.participant.cashBalance) :
    (executeOrderAtomic env st iid OrderSide.BUY OrderType.MARKET q none qt qt.price
        (_quantize_money (qt.price * (q : ℚ)))).2.ok = true ∧
    (executeOrderAtomic env st iid OrderSide.BUY OrderType.MARKET q none qt qt.price
        (_quantize_money (qt.price * (q : ℚ)))).1.participant =
      { st.participant with cashBalance :=
          st.participant.cashBalance - _quantize_money (qt.price * (q : ℚ)) } ∧
    (executeOrderAtomic env st iid OrderSide.BUY OrderType.MARKET q none qt qt.price
        (_quantize_money (qt.price * (q : ℚ)))).1.positions =
      [{ instrumentId := iid, quantity := q,
         avgCostBasis := qt.price * (q : ℚ) / (q : ℚ) }] := by
  have hEq : orderTotalEquity st iid qt.price = st.participant.cashBalance := by
    simp [orderTotalEquity, holdingsValueWith, heldPositions, hpos]
  have hex : existingQty st iid = 0 := by
    simp [existingQty, findPosition, hpos]
  have hdec := atomicDecision_standard_buy env st iid OrderType.MARKET q qt qt.price
    (_quantize_money (qt.price * (q : ℚ))) hact hpub hwin hstd (by rw [hEq]; exact hcash0)
  rw [hEq, hex] at hdec
  rw [if_neg (by
    rw [show ((0 + q : ℤ) : ℚ) = (q : ℚ) by norm_num]
    exact not_lt.mpr hcap)] at hdec
  rw [if_neg (not_lt.mpr hcash)] at hdec
  have hep : ensurePosition st iid =
      ({ st with positions := [{ instrumentId := iid, quantity := 0, avgCostBasis := 0 }] },
       { instrumentId := iid, quantity := 0, avgCostBasis := 0 }) := by
    simp [ensurePosition, findPosition, hpos]
  unfold executeOrderAtomic
  rw [hdec]
  dsimp only
  rw [hep]
  dsimp only
  refine ⟨rfl, ?_, ?_⟩
  · simp [fillAndSettle, persistOrder]
  · simp [fillAndSettle, persistOrder, updatePosition, hq]

/-- A SELL that closes out the single held position: it fills, cash
rises by the incoming notional, the row is deleted, and the fill's
realized P&L is `(price − avg_cost_basis) × q` quantized to cents. -/
theorem executeOrderAtomic_sell_close_facts (env : Env) (st : SimState) (iid : ℕ)
    (q : ℤ) (qt : Quote) (n : ℚ) (pos1 : PositionRow)
    (hact : st.participant.status = ParticipantStatus.ACTIVE)
    (hpub : st.participant.competition.status = CompetitionStatus.PUBLISHED)
    (hwin : st.participant.competition.weekStartAt ≤ env.now ∧
      env.now ≤ st.participant.competition.weekEndAt)
    (hpos : st.positions = [pos1]) (hpid : pos1.instrumentId = iid)
    (hpq : pos1.quantity = q) :
    (executeOrderAtomic env st iid OrderSide.SELL OrderType.MARKET q none qt qt.price
        n).2.ok = true ∧
    (executeOrderAtomic env st iid OrderSide.SELL OrderType.MARKET q none qt qt.price
        n).1.participant =
      { st.participant with cashBalance := st.participant.cashBalance + n } ∧
    (executeOrderAtomic env st iid OrderSide.SELL OrderType.MARKET q none qt qt.price
        n).1.positions = [] ∧
    (executeOrderAtomic env st iid OrderSide.SELL OrderType.MARKET q none qt qt.price
        n).2.fill =
      some { orderId := st.orders.length, filledAt := env.now, price := qt.price,
             quantity := q, notional := n,
             realizedPnl := _quantize_money ((qt.price - pos1.avgCostBasis) * (q : ℚ)) } := by
  have hex : existingQty st iid = q := by
    simp [existingQty, findPosition, hpos, hpid, hpq]
  have hdec := atomicDecision_sell_fill env st iid OrderType.MARKET q qt qt.price n
    hact hpub hwin (by rw [hex])
  have hep : ensurePosition st iid = (st, pos1) := by
    simp [ensurePosition, findPosition, hpos, hpid]
  unfold executeOrderAtomic
  rw [hdec]
  dsimp only
  rw [hep]
  refine ⟨rfl, ?_, ?_, ?_⟩
  · simp [fillAndSettle, persistOrder, hpq]
  · simp [fillAndSettle, persistOrder, deletePosition, hpos, hpid, hpq]
  · simp [fillAndSettle, persistOrder, hpq]

/-- C7: the round-trip law.  Starting from no positions, a successful
MARKET BUY of `q` shares at the (fresh, provider-supplied) quote price
followed by a successful MARKET SELL of the same `q` shares at the
same quote price restores `cash_balance` exactly to its pre-BUY
value; the SELL's `realized_pnl` equals
`(sell price − avg_cost_basis) × q` quantized to cents, and since the
position was created by that BUY alone (`avg_cost_basis` = the fill
price), it equals 0. -/
theorem C7_round_trip (env : Env) (st0 : SimState) (iid : ℕ) (q : ℤ) (qt : Quote)
    (hact : st0.participant.status = ParticipantStatus.ACTIVE)
    (hpub : st0.participant.competition.status = CompetitionStatus.PUBLISHED)
    (hwin : st0.participant.competition.weekStartAt ≤ env.now ∧
      env.now ≤ st0.participant.competition.weekEndAt)
    (hstd : st0.participant.competition.competitionType = CompetitionType.STANDARD)
    (hinst : (env.instruments iid).isSome = true)
    (hprov : env.provider iid = some qt)
    (hfresh : env.now - qt.asOf ≤ env.maxQuoteAgeSeconds)
    (hq : 0 < q)
    (hpos0 : st0.positions = [])
    (hcash0 : 0 < st0.participant.cashBalance)
    (hcap : _quantize_money (qt.price * (q : ℚ)) ≤
      _quantize_money (st0.participant.cashBalance * MAX_SINGLE_BUY_PCT))
    (hcash : _quantize_money (qt.price * (q : ℚ)) ≤ st0.participant.cashBalance) :
    (execute_order env st0 iid OrderSide.BUY OrderType.MARKET q none).2.ok = true ∧
    (execute_order env (execute_order env st0 iid OrderSide.BUY OrderType.MARKET q none).1
        iid OrderSide.SELL OrderType.MARKET q none).2.ok = true ∧
    (execute_order env (execute_order env st0 iid OrderSide.BUY OrderType.MARKET q none).1
        iid OrderSide.SELL OrderType.MARKET q none).1.participant.cashBalance =
      st0.participant.cashBalance ∧
    ∃ pos1, findPosition (execute_order env st0 iid OrderSide.BUY OrderType.MARKET q
        none).1.positions iid = some pos1 ∧ pos1.quantity = q ∧
      pos1.avgCostBasis = qt.price ∧
      ∃ f, (execute_order env (execute_order env st0 iid OrderSide.BUY OrderType.MARKET q
          none).1 iid OrderSide.SELL OrderType.MARKET q none).2.fill = some f ∧
        f.price = qt.price ∧
        f.realizedPnl = _quantize_money ((qt.price - pos1.avgCostBasis) * (q : ℚ)) ∧
        f.realizedPnl = 0 := by
  have hqQ : ((q : ℤ) : ℚ) ≠ 0 := by
    have hz : (q : ℤ) ≠ 0 := by omega
    exact_mod_cast hz
  have e1 := execute_order_market_pipeline env st0 iid OrderSide.BUY q qt hinst hprov hfresh
  obtain ⟨hfp, -, hfpos, -⟩ := fetch_frame env st0 iid
  obtain ⟨hok1, hpart1, hposs1⟩ := executeOrderAtomic_buy_empty_facts env
    (fetch_and_store_latest_quote env st0 iid).1 iid q qt
    (by rw [hfp]; exact hact) (by rw [hfp]; exact hpub) (by rw [hfp]; exact hwin)
    (by rw [hfp]; exact hstd) (by rw [hfpos]; exact hpos0) hq
    (by rw [hfp]; exact hcash0) (by rw [hfp]; exact hcap) (by rw [hfp]; exact hcash)
  set st1 := (execute_order env st0 iid OrderSide.BUY OrderType.MARKET q none).1 with hst1def
  have hst1p : st1.participant =
      { st0.participant with
        cashBalance := st0.participant.cashBalance - _quantize_money (qt.price * (q : ℚ)) } := by
    rw [hst1def, e1, hpart1, hfp]
  have hst1pos : st1.positions =
      [{ instrumentId := iid, quantity := q,
         avgCostBasis := qt.price * (q : ℚ) / (q : ℚ) }] := by
    rw [hst1def, e1, hposs1]
  have e2 := execute_order_market_pipeline env st1 iid OrderSide.SELL q qt hinst hprov hfresh
  obtain ⟨hfp2, -, hfpos2, -⟩ := fetch_frame env st1 iid
  obtain ⟨hok2, hpart2, hposs2, hfill2⟩ := executeOrderAtomic_sell_close_facts env
    (fetch_and_store_latest_quote env st1 iid).1 iid q qt
    (_quantize_money (qt.price * (q : ℚ)))
    { instrumentId := iid, quantity := q, avgCostBasis := qt.price * (q : ℚ) / (q : ℚ) }
    (by rw [hfp2, hst1p]; exact hact) (by rw [hfp2, hst1p]; exact hpub)
    (by rw [hfp2, hst1p]; exact hwin) (by rw [hfpos2, hst1pos]) rfl rfl
  refine ⟨?_, ?_, ?_, ?_⟩
  · rw [e1]
    exact hok1
  · rw [e2]
    exact hok2
  · rw [e2, hpart2]
    dsimp only
    rw [hfp2, hst1p]
    dsimp only
    ring
  · refine
      ⟨{ instrumentId := iid, quantity := q,
         avgCostBasis := qt.price * (q : ℚ) / (q : ℚ) },
       ?_, rfl, ?_, ?_⟩
    · rw [hst1pos]
      simp [findPosition]
    · rw [mul_div_assoc, div_self hqQ, mul_one]
    · refine ⟨_, by rw [e2]; exact hfill2, rfl, rfl, ?_⟩
      dsimp only
      rw [mul_div_assoc, div_self hqQ, mul_one, sub_self, zero_mul, quantize_money_zero]

/-- Witness for C7: BUY then SELL 2 shares of instrument 1 at 100
against cash 1000 restores the balance. -/
theorem C7_witness :
    (execute_order env1 st1000 1 OrderSide.BUY OrderType.MARKET 2 none).2.ok = true ∧
    (execute_order env1 (execute_order env1 st1000 1 OrderSide.BUY OrderType.MARKET 2 none).1
        1 OrderSide.SELL OrderType.MARKET 2 none).2.ok = true ∧
    (execute_order env1 (execute_order env1 st1000 1 OrderSide.BUY OrderType.MARKET 2 none).1
        1 OrderSide.SELL OrderType.MARKET 2 none).1.participant.cashBalance =
      st1000.participant.cashBalance := by
  obtain ⟨h1, h2, h3, -⟩ := C7_round_trip env1 st1000 1 2 { price := 100, asOf := 500 }
    (by decide) (by decide) ⟨by decide, by decide⟩ (by decide) (by decide) rfl
    (by decide) (by decide) rfl (by with_unfolding_all decide)
    (by with_unfolding_all decide) (by with_unfolding_all decide)
  exact ⟨h1, h2, h3⟩

/-! ## Claim C4 — the basket allocation law

Half-up cent rounding of each leg's notional can push the *quantized*
notional sum above `total_amount` (each leg adds up to half a cent),
so the law holds for the pre-quantization leg values
`price × shares`, not for the persisted notionals. -/

theorem roundHalfUp_le (y : ℚ) : (roundHalfUp y : ℚ) ≤ y + 1/2 := by
  unfold roundHalfUp
  split
  · exact le_trans (Int.floor_le _) (by linarith)
  · have h := Int.sub_one_lt_floor (-y + 1/2)
    push_cast
    linarith

/-- Half-up cent quantization adds at most half a cent. -/
theorem quantize_money_le (x : ℚ) : _quantize_money x ≤ x + 1/200 := by
  unfold _quantize_money
  rw [div_le_iff₀ (by norm_num : (0:ℚ) < 100)]
  have h := roundHalfUp_le (x * 100)
  linarith

theorem applyBasketLeg_leg_id (env : Env) (bn : String) (side : OrderSide)
    (qs : List (ℕ × Quote)) (st : SimState) (l : BasketExecutionLeg) :
    (applyBasketLeg env bn side qs st l).2.instrumentId = l.instrumentId := rfl

theorem applyBasketLeg_leg_qty (env : Env) (bn : String) (side : OrderSide)
    (qs : List (ℕ × Quote)) (st : SimState) (l : BasketExecutionLeg) :
    (applyBasketLeg env bn side qs st l).2.quantity = l.quantity := rfl

theorem applyBasketLeg_leg_price (env : Env) (bn : String) (side : OrderSide)
    (qs : List (ℕ × Quote)) (st : SimState) (l : BasketExecutionLeg) :
    (applyBasketLeg env bn side qs st l).2.price = l.price := rfl

theorem applyBasketLeg_leg_notional (env : Env) (bn : String) (side : OrderSide)
    (qs : List (ℕ × Quote)) (st : SimState) (l : BasketExecutionLeg) :
    (applyBasketLeg env bn side qs st l).2.notional =
      _quantize_money (l.price * (l.quantity : ℚ)) := rfl

/-- Leg execution only fills in `notional` and `order_id`: instrument,
price and quantity of each returned leg are the computed ones. -/
theorem executeBasketLegs_maps (env : Env) (bn : String) (side : OrderSide)
    (qs : List (ℕ × Quote)) : ∀ (legs : List BasketExecutionLeg) (st : SimState),
    (executeBasketLegs env bn side qs st legs).2.map (·.instrumentId) =
        legs.map (·.instrumentId) ∧
    (executeBasketLegs env bn side qs st legs).2.map (·.quantity) =
        legs.map (·.quantity) ∧
    (executeBasketLegs env bn side qs st legs).2.map (fun l => l.price * (l.quantity : ℚ)) =
        legs.map (fun l => l.price * (l.quantity : ℚ)) ∧
    (executeBasketLegs env bn side qs st legs).2.map (·.notional) =
        legs.map (fun l => _quantize_money (l.price * (l.quantity : ℚ))) := by
  intro legs
  induction legs with
  | nil => intro st; simp [executeBasketLegs]
  | cons l rest ih =>
    intro st
    obtain ⟨ih1, ih2, ih3, ih4⟩ := ih ((applyBasketLeg env bn side qs st l).1)
    simp only [executeBasketLegs, List.map_cons]
    exact ⟨by rw [ih1, applyBasketLeg_leg_id],
      by rw [ih2, applyBasketLeg_leg_qty],
      by rw [ih3, applyBasketLeg_leg_price, applyBasketLeg_leg_qty],
      by rw [ih4, applyBasketLeg_leg_notional]⟩

/-- Per-leg facts of a successful leg computation: positive price,
pre-quantization value bounded by the leg's target
`total_amount × weight`, and notional = quantized value. -/
theorem computeBasketLegs_ok_facts (env : Env) (ta : ℚ) (ws : List (ℕ × ℚ))
    (qs : List (ℕ × Quote)) : ∀ (ids : List ℕ) (legs : List BasketExecutionLeg),
    computeBasketLegs env OrderSide.BUY ta ws qs ids = .ok legs →
    ∀ l ∈ legs, 0 < l.price ∧
      l.price * (l.quantity : ℚ) ≤ ta * (lookupWeight ws l.instrumentId).getD 0 ∧
      l.notional = _quantize_money (l.price * (l.quantity : ℚ)) := by
  intro ids
  induction ids with
  | nil =>
    intro legs h
    simp only [computeBasketLegs] at h
    cases h
    simp
  | cons i rest ih =>
    intro legs h l hl
    simp only [computeBasketLegs] at h
    split at h
    · cases h
    · rename_i hprice
      split at h
      · cases h
      · rcases hr : computeBasketLegs env OrderSide.BUY ta ws qs rest with e | legs0
        · rw [hr] at h
          cases h
        · rw [hr] at h
          dsimp only at h
          cases h
          rcases List.mem_cons.mp hl with h1 | h1
          · subst h1
            dsimp only
            have hp : 0 < ((lookupQuote qs i).map (·.price)).getD 0 := not_le.mp hprice
            refine ⟨hp, ?_, rfl⟩
            have hfl := Int.floor_le (ta * (lookupWeight ws i).getD 0 /
              ((lookupQuote qs i).map (·.price)).getD 0)
            calc ((lookupQuote qs i).map (·.price)).getD 0 *
                  ((decimalFloor (ta * (lookupWeight ws i).getD 0 /
                    ((lookupQuote qs i).map (·.price)).getD 0) : ℤ) : ℚ) ≤
                  ((lookupQuote qs i).map (·.price)).getD 0 *
                    (ta * (lookupWeight ws i).getD 0 /
                      ((lookupQuote qs i).map (·.price)).getD 0) :=
                mul_le_mul_of_nonneg_left hfl hp.le
              _ = ta * (lookupWeight ws i).getD 0 := by
                rw [mul_comm, div_mul_cancel₀ _ (ne_of_gt hp)]
          · exact ih legs0 hr l h1

/-- Each leg's value is below its target, so the values sum below
`total_amount ×` (the weight total). -/
theorem sum_pq_le (ta : ℚ) (ws : List (ℕ × ℚ)) : ∀ legs : List BasketExecutionLeg,
    (∀ l ∈ legs, l.price * (l.quantity : ℚ) ≤ ta * (lookupWeight ws l.instrumentId).getD 0) →
    (legs.map fun l => l.price * (l.quantity : ℚ)).sum ≤
      ta * ((legs.map (·.instrumentId)).map (fun i => (lookupWeight ws i).getD 0)).sum := by
  intro legs
  induction legs with
  | nil => simp
  | cons a t ih =>
    intro hb
    simp only [List.map_cons, List.sum_cons]
    rw [mul_add]
    exact add_le_add (hb a (List.mem_cons_self a t))
      (ih fun l hl => hb l (List.mem_cons_of_mem a hl))

theorem sum_quantize_le (f : BasketExecutionLeg → ℚ) : ∀ l : List BasketExecutionLeg,
    (l.map fun a => _quantize_money (f a)).sum ≤ (l.map f).sum + (l.length : ℚ) / 200 := by
  intro l
  induction l with
  | nil => simp
  | cons a t ih =>
    simp only [List.map_cons, List.sum_cons, List.length_cons]
    have h1 := quantize_money_le (f a)
    push_cast
    linarith

theorem basketAtomic_meta_isSome (env : Env) (st : SimState) (bn : String)
    (side : OrderSide) (ta : ℚ) (ws : List (ℕ × ℚ)) (ids : List ℕ)
    (qs : List (ℕ × Quote)) (icw : Bool) :
    (basketAtomic env st bn side ta ws ids qs icw).2.meta.isSome = true := by
  unfold basketAtomic
  split <;> simp

/-- Every completed basket call carries a structured `meta` payload (a
named reason on rejection, the basket name on success). -/
theorem execute_basket_meta_isSome (env : Env) (st0 : SimState) (bn : String)
    (side : OrderSide) (ta0 : ℚ) (pcts : List (ℕ × Option ℚ)) (icw : Bool) :
    (execute_basket_order env st0 bn side ta0 pcts icw).2.meta.isSome = true := by
  simp only [execute_basket_order]
  by_cases h1 : _quantize_money ta0 ≤ 0
  · rw [if_pos h1]
    simp
  · rw [if_neg h1]
    rcases hp : _parse_pct_inputs pcts with e | ws
    · dsimp only
      simp
    · dsimp only
      by_cases hm : (sortedKeys ws).filter (fun iid => (env.instruments iid).isNone) ≠ []
      · rw [if_pos hm]
        simp
      · rw [if_neg hm]
        rcases hfq : fetchBasketQuotes env st0 (sortedKeys ws) with ⟨st1, rfq⟩
        try rw [hfq]
        cases rfq with
        | error i2 =>
          dsimp only
          simp
        | ok qs2 =>
          dsimp only
          exact basketAtomic_meta_isSome env st1 bn side _ ws (sortedKeys ws) qs2 icw

theorem basketAtomic_ok_legs (env : Env) (st : SimState) (bn : String)
    (side : OrderSide) (ta : ℚ) (ws : List (ℕ × ℚ)) (ids : List ℕ)
    (qs : List (ℕ × Quote)) (icw : Bool)
    (hok : (basketAtomic env st bn side ta ws ids qs icw).2.ok = true) :
    ∃ legs, basketDecision env st side ta ws ids qs icw = .execute legs ∧
      (basketAtomic env st bn side ta ws ids qs icw).2.legs =
        (executeBasketLegs env bn side qs
          (if side = OrderSide.BUY then createPlaceholders st ids else st) legs).2 := by
  rcases hd : basketDecision env st side ta ws ids qs icw with ⟨m1, m2⟩ | ⟨m1, m2⟩ | legs
  · unfold basketAtomic at hok
    rw [hd] at hok
    simp at hok
  · unfold basketAtomic at hok
    rw [hd] at hok
    simp at hok
  · refine ⟨legs, rfl, ?_⟩
    unfold basketAtomic
    rw [hd]

/-- A successful basket call executes exactly the legs computed by the
share-quantity loop over the sorted instrument ids. -/
theorem execute_basket_ok_legs (env : Env) (st0 : SimState) (bn : String)
    (side : OrderSide) (ta0 : ℚ) (pcts : List (ℕ × Option ℚ)) (icw : Bool)
    (ws : List (ℕ × ℚ))
    (hparse : _parse_pct_inputs pcts = .ok ws)
    (hok : (execute_basket_order env st0 bn side ta0 pcts icw).2.ok = true) :
    ∃ (st1 : SimState) (qs : List (ℕ × Quote)) (legs : List BasketExecutionLeg),
      computeBasketLegs env side (_quantize_money ta0) ws qs (sortedKeys ws) = .ok legs ∧
      (execute_basket_order env st0 bn side ta0 pcts icw).2.legs =
        (executeBasketLegs env bn side qs
          (if side = OrderSide.BUY then createPlaceholders st1 (sortedKeys ws) else st1)
          legs).2 := by
  simp only [execute_basket_order] at hok ⊢
  by_cases h1 : _quantize_money ta0 ≤ 0
  · rw [if_pos h1] at hok
    simp at hok
  · rw [if_neg h1] at hok ⊢
    rw [hparse] at hok ⊢
    dsimp only at hok ⊢
    by_cases hm : (sortedKeys ws).filter (fun iid => (env.instruments iid).isNone) ≠ []
    · rw [if_pos hm] at hok
      simp at hok
    · rw [if_neg hm] at hok ⊢
      rcases hfq : fetchBasketQuotes env st0 (sortedKeys ws) with ⟨st1, rfq⟩
      rw [hfq] at hok
      cases rfq with
      | error i2 =>
        dsimp only at hok
        simp at hok
      | ok qs2 =>
        dsimp only at hok ⊢
        obtain ⟨legs, hd, hlegs⟩ := basketAtomic_ok_legs env st1 bn side
          (_quantize_money ta0) ws (sortedKeys ws) qs2 icw hok
        obtain ⟨hcl, -⟩ := basketDecision_execute env st1 side _ ws _ qs2 icw legs hd
        exact ⟨st1, qs2, legs, hcl, hlegs⟩

/-- A leg whose floored share count is 0 (all prices positive) makes
the leg computation fail with `ALLOCATION_TOO_SMALL`, naming the
symbol and quantized price of an offending basket instrument. -/
theorem computeBasketLegs_zero_floor (env : Env) (ws : List (ℕ × ℚ)) (ta : ℚ) :
    ∀ (qs : List (ℕ × Quote)) (ids : List ℕ),
    (∀ j ∈ ids, 0 < ((lookupQuote qs j).map (·.price)).getD 0) →
    ∀ iid ∈ ids, decimalFloor (ta * (lookupWeight ws iid).getD 0 /
        ((lookupQuote qs iid).map (·.price)).getD 0) < 1 →
    ∃ j ∈ ids, computeBasketLegs env OrderSide.BUY ta ws qs ids =
      .error (BasketMeta.ALLOCATION_TOO_SMALL (symbolOf env j)
        (_quantize_money (((lookupQuote qs j).map (·.price)).getD 0))) := by
  intro qs ids
  induction ids with
  | nil =>
    intro _ iid h
    exact absurd h (List.not_mem_nil iid)
  | cons i rest ih =>
    intro hpos iid hiid hfl
    have hpi : 0 < ((lookupQuote qs i).map (·.price)).getD 0 :=
      hpos i (List.mem_cons_self i rest)
    by_cases hs : decimalFloor (ta * (lookupWeight ws i).getD 0 /
        ((lookupQuote qs i).map (·.price)).getD 0) < 1
    · refine ⟨i, List.mem_cons_self i rest, ?_⟩
      simp only [computeBasketLegs]
      rw [if_neg (not_le.mpr hpi), if_pos hs]
    · have hir : iid ∈ rest := by
        rcases List.mem_cons.mp hiid with h | h
        · subst h
          exact absurd hfl hs
        · exact h
      obtain ⟨j, hj, heq⟩ :=
        ih (fun j hj => hpos j (List.mem_cons_of_mem i hj)) iid hir hfl
      refine ⟨j, List.mem_cons_of_mem i hj, ?_⟩
      simp only [computeBasketLegs]
      rw [if_neg (not_le.mpr hpi), if_neg hs, heq]

/-- Four instruments (ids 1–4) quoted at 0.025. -/
def envC4 : Env :=
  { provider := fun i => if 1 ≤ i ∧ i ≤ 4 then some { price := 1/40, asOf := 500 } else none,
    instruments := fun i => if 1 ≤ i ∧ i ≤ 4 then some { symbol := "S" } else none,
    now := 500, maxQuoteAgeSeconds := 300 }

/-- C4 counterexample: a valid 4×25% BUY basket of `total_amount` 0.10
at price 0.025 executes (ok) with persisted leg notionals summing to
0.12 — strictly more than `total_amount` — because each leg's 0.025
notional rounds half-up to 0.03: the claimed "notional sum ≤
total_amount" fails after cent quantization. -/
theorem C4_counterexample :
    _parse_pct_inputs [(1, some 25), (2, some 25), (3, some 25), (4, some 25)] =
      .ok [(1, 1/4), (2, 1/4), (3, 1/4), (4, 1/4)] ∧
    (execute_basket_order envC4 st1000 "B" OrderSide.BUY (1/10)
        [(1, some 25), (2, some 25), (3, some 25), (4, some 25)] false).2.ok = true ∧
    ((execute_basket_order envC4 st1000 "B" OrderSide.BUY (1/10)
        [(1, some 25), (2, some 25), (3, some 25), (4, some 25)] false).2.legs.map
        (·.notional)).sum = 12/100 ∧
    ¬(((execute_basket_order envC4 st1000 "B" OrderSide.BUY (1/10)
        [(1, some 25), (2, some 25), (3, some 25), (4, some 25)] false).2.legs.map
        (·.notional)).sum ≤ _quantize_money (1/10)) :=
  ⟨by with_unfolding_all rfl, by with_unfolding_all decide⟩

/-- C4: the basket allocation law, corrected to the pre-quantization
leg values.  For a weight map that parses (all percentages > 0,
quantized total 100) and whose weights sum to exactly 1: every
completed BUY call carries a named `meta` reason; on success no leg is
silently dropped (the legs are exactly the sorted basket instruments),
every leg has ≥ 1 share, the *pre-quantization* values
`price × shares` sum to at most `total_amount`, and the persisted
(cent-quantized) notionals sum to at most `total_amount` plus half a
cent per leg; and a positive-price leg whose floored share count is
zero fails the whole leg computation with `ALLOCATION_TOO_SMALL`
naming an offending symbol. -/
theorem C4_basket_allocation (env : Env) (st0 : SimState) (bn : String) (ta0 : ℚ)
    (pcts : List (ℕ × Option ℚ)) (icw : Bool) (ws : List (ℕ × ℚ))
    (hparse : _parse_pct_inputs pcts = .ok ws)
    (hsum : ((sortedKeys ws).map (fun iid => (lookupWeight ws iid).getD 0)).sum = 1) :
    (execute_basket_order env st0 bn OrderSide.BUY ta0 pcts icw).2.meta.isSome = true ∧
    ((execute_basket_order env st0 bn OrderSide.BUY ta0 pcts icw).2.ok = true →
      (execute_basket_order env st0 bn OrderSide.BUY ta0 pcts icw).2.legs.map
          (·.instrumentId) = sortedKeys ws ∧
      (∀ l ∈ (execute_basket_order env st0 bn OrderSide.BUY ta0 pcts icw).2.legs,
        1 ≤ l.quantity) ∧
      ((execute_basket_order env st0 bn OrderSide.BUY ta0 pcts icw).2.legs.map
          (fun l => l.price * (l.quantity : ℚ))).sum ≤ _quantize_money ta0 ∧
      ((execute_basket_order env st0 bn OrderSide.BUY ta0 pcts icw).2.legs.map
          (·.notional)).sum ≤ _quantize_money ta0 +
        ((execute_basket_order env st0 bn OrderSide.BUY ta0 pcts icw).2.legs.length : ℚ)
          / 200) ∧
    (∀ (qs : List (ℕ × Quote)) (ids : List ℕ),
      (∀ j ∈ ids, 0 < ((lookupQuote qs j).map (·.price)).getD 0) →
      ∀ iid ∈ ids, decimalFloor (_quantize_money ta0 * (lookupWeight ws iid).getD 0 /
          ((lookupQuote qs iid).map (·.price)).getD 0) < 1 →
      ∃ j ∈ ids, computeBasketLegs env OrderSide.BUY (_quantize_money ta0) ws qs ids =
        .error (BasketMeta.ALLOCATION_TOO_SMALL (symbolOf env j)
          (_quantize_money (((lookupQuote qs j).map (·.price)).getD 0)))) := by
  refine ⟨execute_basket_meta_isSome env st0 bn OrderSide.BUY ta0 pcts icw, ?_,
    computeBasketLegs_zero_floor env ws (_quantize_money ta0)⟩
  intro hok
  obtain ⟨st1, qs, legs, hcl, hlegs⟩ :=
    execute_basket_ok_legs env st0 bn OrderSide.BUY ta0 pcts icw ws hparse hok
  obtain ⟨hmap, hq1⟩ :=
    computeBasketLegs_spec env OrderSide.BUY (_quantize_money ta0) ws qs (sortedKeys ws)
      legs hcl
  have hfacts := computeBasketLegs_ok_facts env (_quantize_money ta0) ws qs
    (sortedKeys ws) legs hcl
  obtain ⟨em1, em2, em3, em4⟩ := executeBasketLegs_maps env bn OrderSide.BUY qs legs
    (if OrderSide.BUY = OrderSide.BUY then createPlaceholders st1 (sortedKeys ws) else st1)
  have hpqle : (legs.map fun l => l.price * (l.quantity : ℚ)).sum ≤ _quantize_money ta0 := by
    have hle := sum_pq_le (_quantize_money ta0) ws legs (fun l hl => (hfacts l hl).2.1)
    rw [hmap, hsum, mul_one] at hle
    exact hle
  rw [hlegs]
  refine ⟨by rw [em1, hmap], ?_, by rw [em3]; exact hpqle, ?_⟩
  · intro l hl
    have hmem : l.quantity ∈ (executeBasketLegs env bn OrderSide.BUY qs
        (if OrderSide.BUY = OrderSide.BUY then createPlaceholders st1 (sortedKeys ws)
          else st1) legs).2.map (·.quantity) := List.mem_map_of_mem _ hl
    rw [em2] at hmem
    obtain ⟨l0, hl0, hq⟩ := List.mem_map.mp hmem
    rw [← hq]
    exact hq1 l0 hl0
  · rw [em4]
    have hlen : ((executeBasketLegs env bn OrderSide.BUY qs
        (if OrderSide.BUY = OrderSide.BUY then createPlaceholders st1 (sortedKeys ws)
          else st1) legs).2.length : ℚ) = (legs.length : ℚ) := by
      have h2 := congrArg List.length em2
      simp only [List.length_map] at h2
      exact_mod_cast h2
    rw [hlen]
    have hqb := sum_quantize_le (fun l => l.price * (l.quantity : ℚ)) legs
    linarith

/-- Witness for C4 at the four-leg 25% basket. -/
theorem C4_witness :
    (execute_basket_order envC4 st1000 "B" OrderSide.BUY (1/10)
        [(1, some 25), (2, some 25), (3, some 25), (4, some 25)] false).2.meta.isSome =
      true := by
  have h := C4_basket_allocation envC4 st1000 "B" (1/10)
    [(1, some 25), (2, some 25), (3, some 25), (4, some 25)] false
    [(1, 1/4), (2, 1/4), (3, 1/4), (4, 1/4)]
    (by with_unfolding_all rfl) (by with_unfolding_all decide)
  exact h.1

/-! ## Claim C10 — the per-symbol allocation cap on SELL baskets

The cap *is* checked on SELL baskets (it sits before any side split),
but an advanced competition may set `max_single_symbol_pct = 1.00`, in
which case a single-symbol 100% SELL basket passes the check and
executes. -/

/-- An advanced competition with the per-symbol cap at 100%. -/
def advC10 : Competition :=
  { stdComp with competitionType := .ADVANCED, maxSingleSymbolPct := some 1 }

/-- A participant under `advC10` holding 3 shares of instrument 1 at
cost 80. -/
def stC10 : SimState :=
  { st1000 with
    participant := { st1000.participant with competition := advC10 },
    positions := [{ instrumentId := 1, quantity := 3, avgCostBasis := 80 }] }

/-- C10 counterexample: with `max_single_symbol_pct = 1.00`, a
single-symbol 100% SELL basket executes — 2 shares are sold at 100,
cash rises from 1000 to 1200 and the position drops to 1 share — so
"a single-symbol 100% SELL basket can never execute" is false. -/
theorem C10_counterexample :
    stC10.participant.competition.maxSingleSymbolPct = some 1 ∧
    (execute_basket_order env1 stC10 "B" OrderSide.SELL 200 [(1, some 100)] false).2.ok =
      true ∧
    (execute_basket_order env1 stC10 "B" OrderSide.SELL 200
        [(1, some 100)] false).1.participant.cashBalance = 1200 ∧
    findPosition (execute_basket_order env1 stC10 "B" OrderSide.SELL 200
        [(1, some 100)] false).1.positions 1 =
      some { instrumentId := 1, quantity := 1, avgCostBasis := 80 } := by
  with_unfolding_all decide

/-- With some weight above the cap, the basket decision is one of the
pre-placeholder rejections (whatever the side). -/
theorem basketDecision_bad_weight_rejectPre (env : Env) (st : SimState) (side : OrderSide)
    (ta : ℚ) (ws : List (ℕ × ℚ)) (ids : List ℕ) (qs : List (ℕ × Quote)) (icw : Bool)
    (hbad : ws.find? (fun p =>
      decide (basketMaxAllocPct st.participant.competition * 100 < p.2 * 100)) ≠ none) :
    ∃ msg m, basketDecision env st side ta ws ids qs icw = .rejectPre msg m := by
  simp only [basketDecision]
  split
  · exact ⟨_, _, rfl⟩
  · split
    · exact ⟨_, _, rfl⟩
    · split
      · exact ⟨_, _, rfl⟩
      · rename_i hf
        exact absurd hf hbad

/-- C10, corrected: the allocation-percentage cap does apply to SELL
baskets — any parsed weight above `basketMaxAllocPct` rejects the
basket with nothing sold (positions, participant and ledger
unchanged), and when the participant/competition/window/input checks
pass, the rejection carries `ALLOCATION_OVER_MAX_PCT` naming the
offending symbol, its cap and its requested percent.  In a STANDARD
competition a single-leg 100% SELL basket never executes.  (The
"never executes" clause does not extend to advanced competitions with
`max_single_symbol_pct = 1.00` — see the counterexample.) -/
theorem C10_sell_allocation_cap (env : Env) (st0 : SimState) (bn : String) (ta0 : ℚ)
    (pcts : List (ℕ × Option ℚ)) (icw : Bool) (ws : List (ℕ × ℚ))
    (hparse : _parse_pct_inputs pcts = .ok ws) :
    (ws.find? (fun p =>
        decide (basketMaxAllocPct st0.participant.competition * 100 < p.2 * 100)) ≠ none →
      (execute_basket_order env st0 bn OrderSide.SELL ta0 pcts icw).2.ok = false ∧
      (execute_basket_order env st0 bn OrderSide.SELL ta0 pcts icw).1.positions =
        st0.positions ∧
      (execute_basket_order env st0 bn OrderSide.SELL ta0 pcts icw).1.participant =
        st0.participant ∧
      (execute_basket_order env st0 bn OrderSide.SELL ta0 pcts icw).1.ledger =
        st0.ledger) ∧
    (∀ ow, ws.find? (fun p =>
        decide (basketMaxAllocPct st0.participant.competition * 100 < p.2 * 100)) =
          some ow →
      st0.participant.status = ParticipantStatus.ACTIVE →
      st0.participant.competition.status = CompetitionStatus.PUBLISHED →
      (st0.participant.competition.weekStartAt ≤ env.now ∧
        env.now ≤ st0.participant.competition.weekEndAt) →
      0 < _quantize_money ta0 →
      (sortedKeys ws).filter (fun iid => (env.instruments iid).isNone) = [] →
      (∃ qs, (fetchBasketQuotes env st0 (sortedKeys ws)).2 = Except.ok qs) →
      (execute_basket_order env st0 bn OrderSide.SELL ta0 pcts icw).2.meta =
        some (BasketMeta.ALLOCATION_OVER_MAX_PCT (symbolOf env ow.1)
          (basketMaxAllocPct st0.participant.competition) (ow.2 * 100))) ∧
    (∀ iid, ws = [(iid, 1)] →
      st0.participant.competition.competitionType = CompetitionType.STANDARD →
      (execute_basket_order env st0 bn OrderSide.SELL ta0 pcts icw).2.ok = false) := by
  have hA : ws.find? (fun p =>
      decide (basketMaxAllocPct st0.participant.competition * 100 < p.2 * 100)) ≠ none →
      (execute_basket_order env st0 bn OrderSide.SELL ta0 pcts icw).2.ok = false ∧
      (execute_basket_order env st0 bn OrderSide.SELL ta0 pcts icw).1.positions =
        st0.positions ∧
      (execute_basket_order env st0 bn OrderSide.SELL ta0 pcts icw).1.participant =
        st0.participant ∧
      (execute_basket_order env st0 bn OrderSide.SELL ta0 pcts icw).1.ledger =
        st0.ledger := by
    intro hbad
    simp only [execute_basket_order]
    by_cases h1 : _quantize_money ta0 ≤ 0
    · rw [if_pos h1]
      exact ⟨rfl, rfl, rfl, rfl⟩
    · rw [if_neg h1, hparse]
      dsimp only
      by_cases hm : (sortedKeys ws).filter (fun iid => (env.instruments iid).isNone) ≠ []
      · rw [if_pos hm]
        exact ⟨rfl, rfl, rfl, rfl⟩
      · rw [if_neg hm]
        rcases hfq : fetchBasketQuotes env st0 (sortedKeys ws) with ⟨st1, rfq⟩
        obtain ⟨hf1, hf2, hf3⟩ := fetchBasketQuotes_frame env (sortedKeys ws) st0
        rw [hfq] at hf1 hf2 hf3
        dsimp only at hf1 hf2 hf3
        cases rfq with
        | error i2 =>
          dsimp only
          exact ⟨rfl, hf3, hf1, hf2⟩
        | ok qs2 =>
          dsimp only
          obtain ⟨msg, m, hd⟩ := basketDecision_bad_weight_rejectPre env st1 OrderSide.SELL
            (_quantize_money ta0) ws (sortedKeys ws) qs2 icw (by rw [hf1]; exact hbad)
          unfold basketAtomic
          rw [hd]
          exact ⟨rfl, hf3, hf1, hf2⟩
  refine ⟨hA, ?_, ?_⟩
  · intro ow how hact hpub hwin hta hmiss hfet
    simp only [execute_basket_order]
    rw [if_neg (not_le.mpr hta), hparse]
    dsimp only
    rw [if_neg (by simp [hmiss])]
    rcases hfq : fetchBasketQuotes env st0 (sortedKeys ws) with ⟨st1, rfq⟩
    obtain ⟨hf1, -, -⟩ := fetchBasketQuotes_frame env (sortedKeys ws) st0
    rw [hfq] at hf1
    dsimp only at hf1
    obtain ⟨qs, hq⟩ := hfet
    rw [hfq] at hq
    dsimp only at hq
    subst hq
    dsimp only
    have hd : basketDecision env st1 OrderSide.SELL (_quantize_money ta0) ws
        (sortedKeys ws) qs icw =
        .rejectPre (symbolOf env ow.1 ++
            " allocation exceeds the competition max per-symbol percent.")
          (.ALLOCATION_OVER_MAX_PCT (symbolOf env ow.1)
            (basketMaxAllocPct st0.participant.competition) (ow.2 * 100)) := by
      simp only [basketDecision]
      rw [if_neg (by simp [hf1, hact]), if_neg (by simp [hf1, hpub, hwin.1, hwin.2]), hf1,
        how]
    unfold basketAtomic
    rw [hd]
  · intro iid hws hstd
    have hmax : basketMaxAllocPct st0.participant.competition = MAX_SINGLE_BUY_PCT := by
      unfold basketMaxAllocPct
      rw [if_neg (by simp [hstd])]
    refine (hA ?_).1
    rw [hws, hmax]
    simp [List.find?, MAX_SINGLE_BUY_PCT]
    exact Option.some_ne_none _

/-- Witness for C10: a 100% single-leg SELL basket in the standard
competition is rejected and sells nothing. -/
theorem C10_witness :
    (execute_basket_order env1 st1000 "B" OrderSide.SELL 100 [(1, some 100)] false).2.ok =
      false ∧
    (execute_basket_order env1 st1000 "B" OrderSide.SELL 100
        [(1, some 100)] false).1.positions = st1000.positions := by
  have h := C10_sell_allocation_cap env1 st1000 "B" 100 [(1, some 100)] false [(1, 1)]
    (by with_unfolding_all rfl)
  obtain ⟨h1, h2, -, -⟩ := h.1 (by with_unfolding_all decide)
  exact ⟨h1, h2⟩

end StockWars
